import Mathlib

/-!
# Credits masternode payments: a shallow embedding

The definitions below follow `src/masternode-payments.cpp` function by
function, with the consensus parameters of `src/chainparams.cpp`.  C++ `int`
and `CAmount` values are mathematical integers: the signed arithmetic of the
source is followed without overflow where it works on heights of the chain,
vote counts and amounts, which stay far away from the machine bounds.  The
difference `nHeight - vote.nBlockHeight` of `CheckAndRemove` takes the height
of a stored vote, which a peer supplies and nothing has bounded yet, so it is
taken in 32 bit two's complement (`wrapInt32`); the unsigned 32 bit block time
is added modulo `2^32`.  `std::vector` is `List`, and a `std::map` is a list of
key/value pairs read through `mapFind` / `mapCount` and written through
`mapInsert` / `mapErase`.  Functions that write through a reference parameter
return the new value next to their result.
-/

namespace Credits

/-! ## Primitive types -/

/-- Amounts in satoshis (`CAmount`, a 64 bit signed integer in the source). -/
abbrev CAmount := Int

/-- Serialized scripts, compared byte by byte. -/
abbrev CScript := List Nat

/-- Hash values of 256 bits. -/
abbrev uint256 := Nat

/-- The value of an arithmetic result in the 32 bit `int` of the source: the
mathematical result reduced into the two's complement range from `-2^31` to
`2^31 - 1`. -/
def wrapInt32 (x : Int) : Int := (x + 2147483648) % 4294967296 - 2147483648

/-- Modelled from the spec: class `CTxOut` (primitives/transaction.h is not among
the sources), an output paying an amount to a script: the two fields the
payment code reads. -/
structure CTxOut where
  nValue : CAmount
  scriptPubKey : CScript
deriving DecidableEq

/-- Modelled from the spec: class `CTransaction` (primitives/transaction.h is not
among the sources): the payment code only walks over the outputs `vout`. -/
structure CTransaction where
  vout : List CTxOut
deriving DecidableEq

/-! ## Payee entries of one block height -/

/-- Modelled from the spec: class `CMasternodePayee` of `masternode-payments.h`
(the header is not among the sources): one candidate payee script together
with the set of hashes of the votes cast for it, kept in arrival order. -/
structure CMasternodePayee where
  scriptPubKey : CScript
  vecVoteHashes : List uint256
deriving DecidableEq

namespace CMasternodePayee

/-- Modelled from the spec: `CMasternodePayee::GetPayee`, the payee script. -/
def GetPayee (self : CMasternodePayee) : CScript := self.scriptPubKey

/-- Modelled from the spec: `CMasternodePayee::GetVoteCount`, "vote count for an
entry = size of its hash set". -/
def GetVoteCount (self : CMasternodePayee) : Int := (self.vecVoteHashes.length : Int)

/-- Modelled from the spec: `CMasternodePayee::GetVoteHashes`. -/
def GetVoteHashes (self : CMasternodePayee) : List uint256 := self.vecVoteHashes

/-- Modelled from the spec: `CMasternodePayee::AddVoteHash`, "adds vote.hash to
its set (idempotent on repeats)". -/
def AddVoteHash (self : CMasternodePayee) (hashIn : uint256) : CMasternodePayee :=
  if hashIn ∈ self.vecVoteHashes then self
  else { self with vecVoteHashes := self.vecVoteHashes ++ [hashIn] }

end CMasternodePayee

/-- Modelled from the spec: class `CMasternodeBlockPayees` of
`masternode-payments.h` (the header is not among the sources): "height, ordered
list of (payee script, vote-hash set) pairs"; the field names are those the
source uses. -/
structure CMasternodeBlockPayees where
  nBlockHeight : Int
  vecPayees : List CMasternodePayee
deriving DecidableEq

namespace CMasternodeBlockPayees

/-- First loop of `IsTransactionValid` (lines 690-694): starting from
`nMaxSignatures`, take over every vote count that is `>=` the running value. -/
def maxSignaturesLoop : List CMasternodePayee → Int → Int
  | [], nMaxSignatures => nMaxSignatures
  | payee :: rest, nMaxSignatures =>
    if payee.GetVoteCount ≥ nMaxSignatures then maxSignaturesLoop rest payee.GetVoteCount
    else maxSignaturesLoop rest nMaxSignatures

/-- Inner loop of `IsTransactionValid` (lines 701-706): is there an output that
pays `nMasternodePayment` to this payee? -/
def outputsPay (payee : CMasternodePayee) (nMasternodePayment : CAmount) : List CTxOut → Bool
  | [] => false
  | txout :: rest =>
    if payee.GetPayee = txout.scriptPubKey ∧ nMasternodePayment = txout.nValue then true
    else outputsPay payee nMasternodePayment rest

/-- Second loop of `IsTransactionValid` (lines 699-718): walk the entries; an entry
with at least `nSigRequired` votes that is paid by some output ends the walk
with `true`. -/
def requiredPaymentLoop (nSigRequired : Int) (nMasternodePayment : CAmount)
    (txNew : CTransaction) : List CMasternodePayee → Bool
  | [] => false
  | payee :: rest =>
    if payee.GetVoteCount ≥ nSigRequired then
      if outputsPay payee nMasternodePayment txNew.vout then true
      else requiredPaymentLoop nSigRequired nMasternodePayment txNew rest
    else requiredPaymentLoop nSigRequired nMasternodePayment txNew rest

/-- The method `CMasternodeBlockPayees::IsTransactionValid` (lines 679-722).  The
constant `MNPAYMENTS_SIGNATURES_REQUIRED` and the value of
`GetMasternodePayment()` live outside the sources and are parameters. -/
def IsTransactionValid (nSigRequired : Int) (nMasternodePayment : CAmount)
    (self : CMasternodeBlockPayees) (txNew : CTransaction) : Bool :=
  let nMaxSignatures := maxSignaturesLoop self.vecPayees 0
  if nMaxSignatures < nSigRequired then true
  else requiredPaymentLoop nSigRequired nMasternodePayment txNew self.vecPayees

/-- Loop of `GetBestPayee` (lines 655-660) on the pair `(payeeRet, nVotes)`. -/
def bestPayeeLoop : List CMasternodePayee → CScript × Int → CScript × Int
  | [], acc => acc
  | payee :: rest, (payeeRet, nVotes) =>
    if payee.GetVoteCount > nVotes then bestPayeeLoop rest (payee.GetPayee, payee.GetVoteCount)
    else bestPayeeLoop rest (payeeRet, nVotes)

/-- The method `CMasternodeBlockPayees::GetBestPayee` (lines 645-663): the result
and the final content of the reference parameter `payeeRet`. -/
def GetBestPayee (self : CMasternodeBlockPayees) (payeeRet : CScript) : Bool × CScript :=
  if self.vecPayees.length = 0 then (false, payeeRet)
  else
    let r := bestPayeeLoop self.vecPayees (payeeRet, -1)
    (decide (r.2 > -1), r.1)

/-- The method `CMasternodeBlockPayees::HasPayeeWithVotes` (lines 665-677). -/
def HasPayeeWithVotes (self : CMasternodeBlockPayees) (payeeIn : CScript) (nVotesReq : Int) : Bool :=
  self.vecPayees.any (fun payee => decide (payee.GetVoteCount ≥ nVotesReq ∧ payee.GetPayee = payeeIn))

end CMasternodeBlockPayees

/-! ## A std::map as a key-ordered list of pairs -/

section Maps
variable {K V : Type} [DecidableEq K]

/-- Lookup (`find`): the value stored under `k`, if any. -/
def mapFind : List (K × V) → K → Option V
  | [], _ => none
  | (k', v) :: rest, k => if k' = k then some v else mapFind rest k

/-- Membership count (`count`): 1 when the key is present, else 0. -/
def mapCount (m : List (K × V)) (k : K) : Nat :=
  if (mapFind m k).isSome then 1 else 0

/-- Removal by key (`erase(key)`). -/
def mapErase (m : List (K × V)) (k : K) : List (K × V) :=
  m.filter (fun e => decide (e.1 ≠ k))

/-- Assignment `m[k] = v`: overwrite the value of a present key, otherwise put
the pair at its place in key order. -/
def mapInsert [LT K] [DecidableRel (fun a b : K => a < b)] : List (K × V) → K → V → List (K × V)
  | [], k, v => [(k, v)]
  | (k', v') :: rest, k, v =>
    if k' = k then (k, v) :: rest
    else if k < k' then (k, v) :: (k', v') :: rest
    else (k', v') :: mapInsert rest k v

end Maps

/-! ## Votes and the payments registry -/

/-- Modelled from the spec: class `COutPoint` (primitives/transaction.h is not among
the sources), the outpoint that identifies a masternode: transaction hash and
output index. -/
structure COutPoint where
  hash : uint256
  n : Nat
deriving DecidableEq

instance : LT COutPoint :=
  ⟨fun a b => a.hash < b.hash ∨ (a.hash = b.hash ∧ a.n < b.n)⟩

instance : DecidableRel (fun a b : COutPoint => a < b) :=
  fun a b => inferInstanceAs (Decidable (a.hash < b.hash ∨ (a.hash = b.hash ∧ a.n < b.n)))

/-- Public keys, as plain numbers. -/
abbrev CPubKey := Nat

/-- Modelled from the spec: class `CMasternodePaymentVote` of
`masternode-payments.h` (the header is not among the sources): "voting
masternode's identifying outpoint, target block height (integer), proposed
payee output script (bytes), signature, a transient verified flag".
`vinMasternode` stands for `vinMasternode.prevout`. -/
structure CMasternodePaymentVote where
  vinMasternode : COutPoint
  nBlockHeight : Int
  payee : CScript
  vchSig : List Nat
  fVerified : Bool
deriving DecidableEq

namespace CMasternodePaymentVote

/-- Modelled from the spec: `CMasternodePaymentVote::GetHash`, "canonical hash is
computed over (outpoint, height, payee) only"; the digest itself is the
parameter `hashOf`. -/
def GetHash (hashOf : COutPoint → Int → CScript → uint256) (self : CMasternodePaymentVote) :
    uint256 :=
  hashOf self.vinMasternode self.nBlockHeight self.payee

/-- Modelled from the spec: `CMasternodePaymentVote::IsVerified`, the verified flag. -/
def IsVerified (self : CMasternodePaymentVote) : Bool := self.fVerified

/-- Modelled from the spec: `CMasternodePaymentVote::MarkAsNotVerified`. -/
def MarkAsNotVerified (self : CMasternodePaymentVote) : CMasternodePaymentVote :=
  { self with fVerified := false }

end CMasternodePaymentVote

/-- Modelled from the spec: class `CBlockIndex` (chain.h is not among the sources):
height and hash of the block, and the chain below it (`pprev`, `pprev->pprev`,
...) as a list of height/hash pairs. -/
structure CBlockIndex where
  nHeight : Int
  hashBlock : uint256
  ancestors : List (Int × uint256)
deriving DecidableEq

/-- Modelled from the spec: class `CMasternodePayments` of `masternode-payments.h`
(the header is not among the sources): "mapping height → BlockPayeeSet; mapping
vote-hash → PaymentVote; mapping masternode-outpoint → last-voted-height;
current chain tip" (`pCurrentBlockIndex`, `none` for a null pointer); the field
names are those the source uses. -/
structure CMasternodePayments where
  mapMasternodeBlocks : List (Int × CMasternodeBlockPayees)
  mapMasternodePaymentVotes : List (uint256 × CMasternodePaymentVote)
  mapMasternodesLastVote : List (COutPoint × Int)
  pCurrentBlockIndex : Option CBlockIndex
deriving DecidableEq

/-- Modelled from the spec: the feature flags ("sporks", spork.h is not among the
sources) that the payment code reads. -/
inductive Spork where
  | SPORK_8_MASTERNODE_PAYMENT_ENFORCEMENT
  | SPORK_9_SUPERBLOCKS_ENABLED
  | SPORK_10_MASTERNODE_PAY_UPDATED_NODES
  | SPORK_13_OLD_SUPERBLOCK_FLAG
deriving DecidableEq

/-- Consensus parameters (`Consensus::Params`, consensus/params.h): the fields
read by the block checks. -/
structure Params where
  nMasternodePaymentsStartBlock : Int
  nBudgetPaymentsStartBlock : Int
  nBudgetPaymentsCycleBlocks : Int
  nBudgetPaymentsWindowBlocks : Int
  nSuperblockStartBlock : Int
  nSuperblockCycle : Int
  nYr1TotalBlocks : Int
  nYr2TotalBlocks : Int
  nYr3TotalBlocks : Int
  nYr4TotalBlocks : Int
  nYr5TotalBlocks : Int
  nYr6TotalBlocks : Int
  nYr7TotalBlocks : Int
  nYr8TotalBlocks : Int
  nYr9TotalBlocks : Int
  nYr10TotalBlocks : Int
  nYr11TotalBlocks : Int
  nYr12TotalBlocks : Int
  nYr13TotalBlocks : Int
  nYr14TotalBlocks : Int
  nYr15TotalBlocks : Int
  nYr16TotalBlocks : Int
  nYr17TotalBlocks : Int
  nYr18TotalBlocks : Int
  nYr19TotalBlocks : Int
  nYr20TotalBlocks : Int
  nYr21TotalBlocks : Int
  nYr22TotalBlocks : Int
  nYr23TotalBlocks : Int
  nYr24TotalBlocks : Int
  nYr25TotalBlocks : Int
  nYr26TotalBlocks : Int
  nYr27TotalBlocks : Int
  nYr28TotalBlocks : Int
  nYr29TotalBlocks : Int
  nYr30TotalBlocks : Int
  nYr31TotalBlocks : Int
  nYr32TotalBlocks : Int
  nYr33TotalBlocks : Int
  nYr34TotalBlocks : Int
  nYr35TotalBlocks : Int

/-- Consensus parameters of the main network (`CMainParams`, chainparams.cpp lines
115-122 and 216-250). -/
def mainConsensus : Params where
  nMasternodePaymentsStartBlock := 100
  nBudgetPaymentsStartBlock := 20545
  nBudgetPaymentsCycleBlocks := 20545
  nBudgetPaymentsWindowBlocks := 100
  nSuperblockStartBlock := 20546
  nSuperblockCycle := 20545
  nYr1TotalBlocks := 246544
  nYr2TotalBlocks := 493088
  nYr3TotalBlocks := 739631
  nYr4TotalBlocks := 986175
  nYr5TotalBlocks := 1232719
  nYr6TotalBlocks := 1479263
  nYr7TotalBlocks := 1725806
  nYr8TotalBlocks := 1972350
  nYr9TotalBlocks := 2218894
  nYr10TotalBlocks := 2465438
  nYr11TotalBlocks := 2711981
  nYr12TotalBlocks := 2958525
  nYr13TotalBlocks := 3205069
  nYr14TotalBlocks := 3451613
  nYr15TotalBlocks := 3698156
  nYr16TotalBlocks := 3944700
  nYr17TotalBlocks := 4191244
  nYr18TotalBlocks := 4437788
  nYr19TotalBlocks := 4684331
  nYr20TotalBlocks := 4930875
  nYr21TotalBlocks := 5177419
  nYr22TotalBlocks := 5423963
  nYr23TotalBlocks := 5670506
  nYr24TotalBlocks := 5917050
  nYr25TotalBlocks := 6163594
  nYr26TotalBlocks := 6410138
  nYr27TotalBlocks := 6656681
  nYr28TotalBlocks := 6903225
  nYr29TotalBlocks := 7149769
  nYr30TotalBlocks := 7396313
  nYr31TotalBlocks := 7642856
  nYr32TotalBlocks := 7889400
  nYr33TotalBlocks := 8135944
  nYr34TotalBlocks := 8382488
  nYr35TotalBlocks := 8629031

/-- Consensus parameters of the test network (`CTestNetParams`, chainparams.cpp lines
262-269 and 357-391). -/
def testNetConsensus : Params where
  nMasternodePaymentsStartBlock := 0
  nBudgetPaymentsStartBlock := 200
  nBudgetPaymentsCycleBlocks := 50
  nBudgetPaymentsWindowBlocks := 10
  nSuperblockStartBlock := 0
  nSuperblockCycle := 24
  nYr1TotalBlocks := 246544
  nYr2TotalBlocks := 493088
  nYr3TotalBlocks := 739631
  nYr4TotalBlocks := 986175
  nYr5TotalBlocks := 1232719
  nYr6TotalBlocks := 1479263
  nYr7TotalBlocks := 1725806
  nYr8TotalBlocks := 1972350
  nYr9TotalBlocks := 2218894
  nYr10TotalBlocks := 2465438
  nYr11TotalBlocks := 2711981
  nYr12TotalBlocks := 2958525
  nYr13TotalBlocks := 3205069
  nYr14TotalBlocks := 3451613
  nYr15TotalBlocks := 3698156
  nYr16TotalBlocks := 3944700
  nYr17TotalBlocks := 4191244
  nYr18TotalBlocks := 4437788
  nYr19TotalBlocks := 4684331
  nYr20TotalBlocks := 4930875
  nYr21TotalBlocks := 5177419
  nYr22TotalBlocks := 5423963
  nYr23TotalBlocks := 5670506
  nYr24TotalBlocks := 5917050
  nYr25TotalBlocks := 6163594
  nYr26TotalBlocks := 6410138
  nYr27TotalBlocks := 6656681
  nYr28TotalBlocks := 6903225
  nYr29TotalBlocks := 7149769
  nYr30TotalBlocks := 7396313
  nYr31TotalBlocks := 7642856
  nYr32TotalBlocks := 7889400
  nYr33TotalBlocks := 8135944
  nYr34TotalBlocks := 8382488
  nYr35TotalBlocks := 8629031

/-- Consensus parameters of the regression test network (`CRegTestParams`,
chainparams.cpp lines 403-410 and 485-519). -/
def regTestConsensus : Params where
  nMasternodePaymentsStartBlock := 0
  nBudgetPaymentsStartBlock := 1000
  nBudgetPaymentsCycleBlocks := 50
  nBudgetPaymentsWindowBlocks := 10
  nSuperblockStartBlock := 0
  nSuperblockCycle := 10
  nYr1TotalBlocks := 246544
  nYr2TotalBlocks := 493088
  nYr3TotalBlocks := 739631
  nYr4TotalBlocks := 986175
  nYr5TotalBlocks := 1232719
  nYr6TotalBlocks := 1479263
  nYr7TotalBlocks := 1725806
  nYr8TotalBlocks := 1972350
  nYr9TotalBlocks := 2218894
  nYr10TotalBlocks := 2465438
  nYr11TotalBlocks := 2711981
  nYr12TotalBlocks := 2958525
  nYr13TotalBlocks := 3205069
  nYr14TotalBlocks := 3451613
  nYr15TotalBlocks := 3698156
  nYr16TotalBlocks := 3944700
  nYr17TotalBlocks := 4191244
  nYr18TotalBlocks := 4437788
  nYr19TotalBlocks := 4684331
  nYr20TotalBlocks := 4930875
  nYr21TotalBlocks := 5177419
  nYr22TotalBlocks := 5423963
  nYr23TotalBlocks := 5670506
  nYr24TotalBlocks := 5917050
  nYr25TotalBlocks := 6163594
  nYr26TotalBlocks := 6410138
  nYr27TotalBlocks := 6656681
  nYr28TotalBlocks := 6903225
  nYr29TotalBlocks := 7149769
  nYr30TotalBlocks := 7396313
  nYr31TotalBlocks := 7642856
  nYr32TotalBlocks := 7889400
  nYr33TotalBlocks := 8135944
  nYr34TotalBlocks := 8382488
  nYr35TotalBlocks := 8629031

/-- The 35 reward tier boundaries `nYr1TotalBlocks`, ..., `nYr35TotalBlocks` in order. -/
def Params.tierBounds (p : Params) : List Int :=
  [p.nYr1TotalBlocks, p.nYr2TotalBlocks, p.nYr3TotalBlocks, p.nYr4TotalBlocks,
    p.nYr5TotalBlocks, p.nYr6TotalBlocks, p.nYr7TotalBlocks, p.nYr8TotalBlocks,
    p.nYr9TotalBlocks, p.nYr10TotalBlocks, p.nYr11TotalBlocks, p.nYr12TotalBlocks,
    p.nYr13TotalBlocks, p.nYr14TotalBlocks, p.nYr15TotalBlocks, p.nYr16TotalBlocks,
    p.nYr17TotalBlocks, p.nYr18TotalBlocks, p.nYr19TotalBlocks, p.nYr20TotalBlocks,
    p.nYr21TotalBlocks, p.nYr22TotalBlocks, p.nYr23TotalBlocks, p.nYr24TotalBlocks,
    p.nYr25TotalBlocks, p.nYr26TotalBlocks, p.nYr27TotalBlocks, p.nYr28TotalBlocks,
    p.nYr29TotalBlocks, p.nYr30TotalBlocks, p.nYr31TotalBlocks, p.nYr32TotalBlocks,
    p.nYr33TotalBlocks, p.nYr34TotalBlocks, p.nYr35TotalBlocks]

/-- The boundary `nYr<i>TotalBlocks` by its index `i` in 1..35; index 0 stands for
height 0, the lower end of tier 1, and the value is 0 for every other index. -/
def Params.nYrTotalBlocks (p : Params) (i : Nat) : Int :=
  match i with
  | 0 => 0
  | i + 1 => p.tierBounds.getD i 0

/-- Modelled from the spec: class `CNode` (net.h is not among the sources), a peer:
the fields the payment code reads. -/
structure CNode where
  id : Int
  addr : Nat
  nVersion : Int
deriving DecidableEq

/-- Everything the payment code reads from outside `masternode-payments.cpp`, as
it stands during one call: header constants, globals, and the answers of the
external collaborators (sync state, sporks, masternode manager, message signer,
chain, governance).  `YEAR_POW_REWARD i` and `YEAR_MASTERNODE_PAYMENT i` stand
for the constants `YEAR_<i>_POW_REWARD` and `YEAR_<i>_MASTERNODE_PAYMENT`,
`chainActiveTip` for `chainActive.Tip()`, `mnodemanFindPayee` for
`mnodeman.Find(payee)` followed by the script of the collateral address of the
masternode found, and `CreateSuperblock` for what
`CSuperblockManager::CreateSuperblock` makes of `txNew` and `voutSuperblockRet`.
`activeMasternodeVin` and `activePubKeyMasternode` stand for
`activeMasternode.vin.prevout` and `activeMasternode.pubKeyMasternode`,
`SignMessage` for the signature `CMessageSigner::SignMessage` makes of a vote
message with `activeMasternode.keyMasternode` (`none` when it fails), and
`GetNextMasternodeInQueueForPayment` for the script of the collateral address
of the masternode that call finds (`none` for `NULL`).  `MAX_INV_SZ` is the
constant of that name of `net.h`. -/
structure Env where
  hashOf : COutPoint → Int → CScript → uint256
  MNPAYMENTS_SIGNATURES_REQUIRED : Int
  MNPAYMENTS_SIGNATURES_TOTAL : Int
  MIN_MASTERNODE_PAYMENT_PROTO_VERSION : Int
  GetMasternodePayment : CAmount
  fLiteMode : Bool
  fMasterNode : Bool
  IsMasternodeListSynced : Bool
  IsSynced : Bool
  IsWinnersListSynced : Bool
  IsSporkActive : Spork → Bool
  mnodemanFind : COutPoint → Option Int
  GetMasternodeRank : COutPoint → Int → Int → Int
  GetMasternodeInfo : COutPoint → Option CPubKey
  VerifyMessage : CPubKey → List Nat → COutPoint → Int → CScript → Bool
  GetBlockHash : Int → Option uint256
  mnodemanSize : Nat
  CountMasternodes : Int
  storageScale : Nat → Int
  nMinBlocksToStore : Int
  HasFulfilledRequest : Nat → Bool
  consensus : Params
  GetPaymentsLimit : Int → CAmount
  IsValidBlockHeight : Int → Bool
  IsSuperblockTriggered : Int → Bool
  SuperblockIsValid : CTransaction → Int → CAmount → Bool
  GetTime : Int
  COIN : CAmount
  YEAR_POW_REWARD : Nat → CAmount
  YEAR_MASTERNODE_PAYMENT : Nat → CAmount
  chainActiveTip : Option CBlockIndex
  mnodemanFindPayee : CScript → Option CScript
  CreateSuperblock : CTransaction → Int → List CTxOut → CTransaction × List CTxOut
  activeMasternodeVin : COutPoint
  activePubKeyMasternode : CPubKey
  SignMessage : COutPoint → Int → CScript → Option (List Nat)
  GetNextMasternodeInQueueForPayment : Int → Option CScript
  MAX_INV_SZ : Nat

/-- Calls into other components made while a message is handled, in call order. -/
inductive Effect where
  | Misbehaving (nodeId : Int) (howmuch : Int)
  | AskForMN (nodeId : Int) (vin : COutPoint)
  | EraseAskFor (nodeId : Int) (hash : uint256)
  | RelayInv (hash : uint256)
  | AddedPaymentVote
  | AddFulfilledRequest (addr : Nat)
  | PushInventory (nodeId : Int) (hash : uint256)
  | PushSyncStatusCount (nodeId : Int) (nInvCount : Int)
deriving DecidableEq

/-! ## Registry operations -/

namespace CMasternodeBlockPayees

/-- Loop of `AddPayee` (lines 635-642): the first entry with the vote's payee takes
the hash; when there is none a new entry with that one hash is appended. -/
def addPayeeLoop (payee : CScript) (hash : uint256) : List CMasternodePayee → List CMasternodePayee
  | [] => [⟨payee, [hash]⟩]
  | p :: rest =>
    if p.GetPayee = payee then p.AddVoteHash hash :: rest
    else p :: addPayeeLoop payee hash rest

/-- The method `CMasternodeBlockPayees::AddPayee` (lines 631-643). -/
def AddPayee (env : Env) (self : CMasternodeBlockPayees) (vote : CMasternodePaymentVote) :
    CMasternodeBlockPayees :=
  { self with vecPayees := addPayeeLoop vote.payee (vote.GetHash env.hashOf) self.vecPayees }

end CMasternodeBlockPayees

namespace CMasternodePayments

/-- The method `CMasternodePayments::GetMinMasternodePaymentsProto` (lines 432-434):
the flag itself, converted to `int`. -/
def GetMinMasternodePaymentsProto (env : Env) : Int :=
  if env.IsSporkActive Spork.SPORK_10_MASTERNODE_PAY_UPDATED_NODES then 1 else 0

/-- The method `CMasternodePayments::GetStorageLimit` (lines 1073-1076);
`env.storageScale n` is `int(n * nStorageCoeff)`, a floating point product. -/
def GetStorageLimit (env : Env) : Int :=
  max (env.storageScale env.mnodemanSize) env.nMinBlocksToStore

/-- The method `CMasternodePayments::Clear` (lines 247-252). -/
def Clear (self : CMasternodePayments) : CMasternodePayments :=
  { self with mapMasternodeBlocks := [], mapMasternodePaymentVotes := [] }

/-- The method `CMasternodePayments::CanVote` (lines 254-265): the verdict and the
registry with the last-vote record written. -/
def CanVote (self : CMasternodePayments) (outMasternode : COutPoint) (nBlockHeight : Int) :
    Bool × CMasternodePayments :=
  if mapCount self.mapMasternodesLastVote outMasternode ≠ 0 ∧
      mapFind self.mapMasternodesLastVote outMasternode = some nBlockHeight then
    (false, self)
  else
    (true, { self with
      mapMasternodesLastVote := mapInsert self.mapMasternodesLastVote outMasternode nBlockHeight })

/-- The method `CMasternodePayments::HasVerifiedPaymentVote` (lines 624-629). -/
def HasVerifiedPaymentVote (self : CMasternodePayments) (hashIn : uint256) : Bool :=
  match mapFind self.mapMasternodePaymentVotes hashIn with
  | some vote => vote.IsVerified
  | none => false

/-- The method `CMasternodePayments::AddPaymentVote` (lines 603-622). -/
def AddPaymentVote (env : Env) (self : CMasternodePayments) (vote : CMasternodePaymentVote) :
    Bool × CMasternodePayments :=
  match env.GetBlockHash (vote.nBlockHeight - 101) with
  | none => (false, self)
  | some _ =>
    if self.HasVerifiedPaymentVote (vote.GetHash env.hashOf) then (false, self)
    else
      let votes := mapInsert self.mapMasternodePaymentVotes (vote.GetHash env.hashOf) vote
      let blocks :=
        if mapCount self.mapMasternodeBlocks vote.nBlockHeight = 0 then
          mapInsert self.mapMasternodeBlocks vote.nBlockHeight ⟨vote.nBlockHeight, []⟩
        else self.mapMasternodeBlocks
      let blockPayees := (mapFind blocks vote.nBlockHeight).getD ⟨0, []⟩
      (true, { self with
        mapMasternodePaymentVotes := votes
        mapMasternodeBlocks := mapInsert blocks vote.nBlockHeight (blockPayees.AddPayee env vote) })

/-- The method `CMasternodePayments::GetBlockPayee` (lines 572-579): the result and
the final content of the reference parameter `payee`. -/
def GetBlockPayee (self : CMasternodePayments) (nBlockHeight : Int) (payee : CScript) :
    Bool × CScript :=
  match mapFind self.mapMasternodeBlocks nBlockHeight with
  | some blockPayees => blockPayees.GetBestPayee payee
  | none => (false, payee)

/-- The method `CMasternodePayments::IsTransactionValid` (lines 757-766). -/
def IsTransactionValid (env : Env) (self : CMasternodePayments) (txNew : CTransaction)
    (nBlockHeight : Int) : Bool :=
  match mapFind self.mapMasternodeBlocks nBlockHeight with
  | some blockPayees =>
    blockPayees.IsTransactionValid env.MNPAYMENTS_SIGNATURES_REQUIRED env.GetMasternodePayment txNew
  | none => true

/-- Loop of `CheckAndRemove` (lines 776-787) over the votes still to visit: a vote
is dropped together with the tally of its height when the `int` difference
`nHeight - vote.nBlockHeight` of line 780 exceeds `nLimit`, any other vote is
kept.  The difference is the 32 bit one: the height of a stored vote is
whatever a peer sent (lines 490-493 store the vote before any range test).
Returns the votes kept and the tallies left. -/
def checkAndRemoveLoop (nHeight nLimit : Int) :
    List (uint256 × CMasternodePaymentVote) → List (Int × CMasternodeBlockPayees) →
    List (uint256 × CMasternodePaymentVote) × List (Int × CMasternodeBlockPayees)
  | [], blocks => ([], blocks)
  | (hash, vote) :: rest, blocks =>
    if wrapInt32 (nHeight - vote.nBlockHeight) > nLimit then
      checkAndRemoveLoop nHeight nLimit rest (mapErase blocks vote.nBlockHeight)
    else
      let r := checkAndRemoveLoop nHeight nLimit rest blocks
      ((hash, vote) :: r.1, r.2)

/-- The method `CMasternodePayments::CheckAndRemove` (lines 768-789). -/
def CheckAndRemove (env : Env) (self : CMasternodePayments) : CMasternodePayments :=
  match self.pCurrentBlockIndex with
  | none => self
  | some pindex =>
    let nLimit := GetStorageLimit env
    let r := checkAndRemoveLoop pindex.nHeight nLimit
      self.mapMasternodePaymentVotes self.mapMasternodeBlocks
    { self with mapMasternodePaymentVotes := r.1, mapMasternodeBlocks := r.2 }

end CMasternodePayments

/-! ## Vote validation and message handling -/

/-- Short text form of an outpoint (`COutPoint::ToStringShort`), used in messages only. -/
def COutPoint.ToStringShort (o : COutPoint) : String :=
  toString o.hash ++ "-" ++ toString o.n

namespace CMasternodePaymentVote

/-- The method `CMasternodePaymentVote::IsValid` (lines 791-840): the verdict, the
error text and the calls made on the way. -/
def IsValid (env : Env) (self : CMasternodePaymentVote) (pnode : CNode) (nValidationHeight : Int) :
    Bool × String × List Effect :=
  match env.mnodemanFind self.vinMasternode with
  | none =>
    (false, "Unknown Masternode: prevout=" ++ self.vinMasternode.ToStringShort,
      if env.IsMasternodeListSynced then [Effect.AskForMN pnode.id self.vinMasternode] else [])
  | some nProtocolVersion =>
    let nMinRequiredProtocol : Int :=
      if self.nBlockHeight ≥ nValidationHeight then
        CMasternodePayments.GetMinMasternodePaymentsProto env
      else env.MIN_MASTERNODE_PAYMENT_PROTO_VERSION
    if nProtocolVersion < nMinRequiredProtocol then
      (false, "Masternode protocol is too old: nProtocolVersion=" ++ toString nProtocolVersion ++
        ", nMinRequiredProtocol=" ++ toString nMinRequiredProtocol, [])
    else if !env.fMasterNode ∧ self.nBlockHeight < nValidationHeight then (true, "", [])
    else
      let nRank := env.GetMasternodeRank self.vinMasternode (self.nBlockHeight - 101)
        nMinRequiredProtocol
      if nRank > env.MNPAYMENTS_SIGNATURES_TOTAL then
        if nRank > env.MNPAYMENTS_SIGNATURES_TOTAL * 2 ∧ self.nBlockHeight > nValidationHeight then
          (false, "Masternode is not in the top " ++ toString (env.MNPAYMENTS_SIGNATURES_TOTAL * 2) ++
            " (" ++ toString nRank ++ ")", [Effect.Misbehaving pnode.id 20])
        else
          (false, "Masternode is not in the top " ++ toString env.MNPAYMENTS_SIGNATURES_TOTAL ++
            " (" ++ toString nRank ++ ")", [])
      else (true, "", [])

/-- The value of the local `nMinRequiredProtocol` of `IsValid` (lines 805-812). -/
def minRequiredProtocol (env : Env) (self : CMasternodePaymentVote) (nValidationHeight : Int) :
    Int :=
  if self.nBlockHeight ≥ nValidationHeight then
    CMasternodePayments.GetMinMasternodePaymentsProto env
  else env.MIN_MASTERNODE_PAYMENT_PROTO_VERSION

/-- The value of the local `nRank` of `IsValid` (line 823). -/
def rankAtVote (env : Env) (self : CMasternodePaymentVote) (nValidationHeight : Int) : Int :=
  env.GetMasternodeRank self.vinMasternode (self.nBlockHeight - 101)
    (self.minRequiredProtocol env nValidationHeight)

/-- The run of `IsValid` gets as far as the rank query of line 823: the masternode
is known (line 795), its protocol version is adequate (line 814) and the early
return of line 821 is not taken. -/
def reachesRankCheck (env : Env) (self : CMasternodePaymentVote) (nValidationHeight : Int) :
    Prop :=
  ∃ nProtocolVersion : Int, env.mnodemanFind self.vinMasternode = some nProtocolVersion ∧
    ¬ nProtocolVersion < self.minRequiredProtocol env nValidationHeight ∧
    ¬ (env.fMasterNode = false ∧ self.nBlockHeight < nValidationHeight)

/-- The method `CMasternodePaymentVote::CheckSignature` (lines 915-936): the verdict
and the final content of `nDos`. -/
def CheckSignature (env : Env) (self : CMasternodePaymentVote) (pubKeyMasternode : CPubKey)
    (nValidationHeight : Int) : Bool × Int :=
  if !env.VerifyMessage pubKeyMasternode self.vchSig self.vinMasternode self.nBlockHeight
      self.payee then
    if env.IsMasternodeListSynced ∧ self.nBlockHeight > nValidationHeight then (false, 20)
    else (false, 0)
  else (true, 0)

/-- The method `CMasternodePaymentVote::Relay` (lines 907-913). -/
def Relay (env : Env) (self : CMasternodePaymentVote) : List Effect :=
  if !env.IsWinnersListSynced then [] else [Effect.RelayInv (self.GetHash env.hashOf)]

end CMasternodePaymentVote

namespace CMasternodePayments

/-- The method `CMasternodePayments::Sync` (lines 951-974): one inventory push per
verified vote hash of the heights `tip .. tip + 19`, then the count. -/
def Sync (self : CMasternodePayments) (pnode : CNode) : List Effect :=
  match self.pCurrentBlockIndex with
  | none => []
  | some pindex =>
    let heights := (List.range 20).map (fun i => pindex.nHeight + (i : Int))
    let hashes := heights.flatMap (fun h =>
      match mapFind self.mapMasternodeBlocks h with
      | some blockPayees =>
        blockPayees.vecPayees.flatMap (fun payee =>
          payee.GetVoteHashes.filter (fun hash => self.HasVerifiedPaymentVote hash))
      | none => [])
    hashes.map (Effect.PushInventory pnode.id) ++
      [Effect.PushSyncStatusCount pnode.id (hashes.length : Int)]

end CMasternodePayments

/-- Payment messages by command string, with the payload already read from the
stream. -/
inductive NetMsg where
  | MASTERNODEPAYMENTSYNC (nCountNeeded : Int)
  | MASTERNODEPAYMENTVOTE (vote : CMasternodePaymentVote)
  | other
deriving DecidableEq

/-- The place at which `ProcessMessage` returned. -/
inductive Handled where
  | listNotSynced
  | liteMode
  | syncNotSynced
  | syncRepeated
  | syncSent
  | peerTooOld
  | noTip
  | seen
  | outOfRange
  | invalid
  | alreadyVoted
  | masternodeMissing
  | badSignature
  | notAdded
  | added
  | otherCommand
deriving DecidableEq

/-- What one call of `ProcessMessage` leaves behind. -/
structure Handling where
  registry : CMasternodePayments
  effects : List Effect
  outcome : Handled
deriving DecidableEq

namespace CMasternodePayments

/-- Lines 490-493 of `ProcessMessage`: the vote is stored under its hash and the
stored copy is marked as not verified. -/
def storeUnverified (env : Env) (self : CMasternodePayments) (vote : CMasternodePaymentVote) :
    CMasternodePayments :=
  { self with
    mapMasternodePaymentVotes :=
      mapInsert self.mapMasternodePaymentVotes (vote.GetHash env.hashOf) vote.MarkAsNotVerified }

/-- The vote branch of `ProcessMessage` (lines 469-549). -/
def processVote (env : Env) (self : CMasternodePayments) (pfrom : CNode)
    (vote : CMasternodePaymentVote) : Handling :=
  if pfrom.nVersion < GetMinMasternodePaymentsProto env then ⟨self, [], Handled.peerTooOld⟩
  else
  match self.pCurrentBlockIndex with
  | none => ⟨self, [], Handled.noTip⟩
  | some pindex =>
    let nHash := vote.GetHash env.hashOf
    let e0 := [Effect.EraseAskFor pfrom.id nHash]
    if mapCount self.mapMasternodePaymentVotes nHash ≠ 0 then ⟨self, e0, Handled.seen⟩
    else
    let s1 := self.storeUnverified env vote
    let nFirstBlock := pindex.nHeight - GetStorageLimit env
    if vote.nBlockHeight < nFirstBlock ∨ vote.nBlockHeight > pindex.nHeight + 20 then
      ⟨s1, e0, Handled.outOfRange⟩
    else
    let valid := vote.IsValid env pfrom pindex.nHeight
    if !valid.1 then ⟨s1, e0 ++ valid.2.2, Handled.invalid⟩
    else
    let e1 := e0 ++ valid.2.2
    let canVote := s1.CanVote vote.vinMasternode vote.nBlockHeight
    if !canVote.1 then ⟨canVote.2, e1, Handled.alreadyVoted⟩
    else
    let s2 := canVote.2
    match env.GetMasternodeInfo vote.vinMasternode with
    | none => ⟨s2, e1 ++ [Effect.AskForMN pfrom.id vote.vinMasternode], Handled.masternodeMissing⟩
    | some pubKeyMasternode =>
      let sig := vote.CheckSignature env pubKeyMasternode pindex.nHeight
      if !sig.1 then
        ⟨s2, e1 ++ (if sig.2 ≠ 0 then [Effect.Misbehaving pfrom.id sig.2] else []) ++
          [Effect.AskForMN pfrom.id vote.vinMasternode], Handled.badSignature⟩
      else
        let added := s2.AddPaymentVote env vote
        if added.1 then
          ⟨added.2, e1 ++ vote.Relay env ++ [Effect.AddedPaymentVote], Handled.added⟩
        else ⟨added.2, e1, Handled.notAdded⟩

/-- The method `CMasternodePayments::ProcessMessage` (lines 436-550). -/
def ProcessMessage (env : Env) (self : CMasternodePayments) (pfrom : CNode) (msg : NetMsg) :
    Handling :=
  if !env.IsMasternodeListSynced then ⟨self, [], Handled.listNotSynced⟩
  else if env.fLiteMode then ⟨self, [], Handled.liteMode⟩
  else
    match msg with
    | NetMsg.MASTERNODEPAYMENTSYNC _ =>
      if !env.IsSynced then ⟨self, [], Handled.syncNotSynced⟩
      else if env.CountMasternodes > 200 ∧ env.HasFulfilledRequest pfrom.addr then
        ⟨self, [Effect.Misbehaving pfrom.id 20], Handled.syncRepeated⟩
      else ⟨self, Effect.AddFulfilledRequest pfrom.addr :: self.Sync pfrom, Handled.syncSent⟩
    | NetMsg.MASTERNODEPAYMENTVOTE vote => processVote env self pfrom vote
    | NetMsg.other => ⟨self, [], Handled.otherCommand⟩

end CMasternodePayments

/-! ## The node's own vote and the tip update -/

namespace CMasternodePaymentVote

end CMasternodePaymentVote

namespace CMasternodePayments

end CMasternodePayments

/-! ## Requests for payment blocks with little data -/

namespace CMasternodePayments

/-- The test `vToFetch.size() == MAX_INV_SZ` with its body (lines 991-996 and
1041-1046) on the pair of the batch being filled and the `GETDATA` messages
sent so far: a full batch is sent and a new one started. -/
def flushIfFull (nMax : Nat) (st : List uint256 × List (List uint256)) :
    List uint256 × List (List uint256) :=
  if st.1.length = nMax then ([], st.2 ++ [st.1]) else st

/-- First loop of `RequestLowDataPaymentBlocks` (lines 987-1000) over the tip and
the blocks below it: while the block is less than `nLimit` below the tip, the
hash of a block whose height has no tally is put into the batch. -/
def lowDataChainLoop (nMax : Nat) (blocks : List (Int × CMasternodeBlockPayees))
    (nTipHeight nLimit : Int) :
    List (Int × uint256) → List uint256 × List (List uint256) →
      List uint256 × List (List uint256)
  | [], st => st
  | (nHeight, hash) :: rest, st =>
    if nTipHeight - nHeight < nLimit then
      lowDataChainLoop nMax blocks nTipHeight nLimit rest
        (if mapCount blocks nHeight = 0 then flushIfFull nMax (st.1 ++ [hash], st.2) else st)
    else st

/-- Loop over the entries of one tally (lines 1007-1013): the flag `fFound` and
the count `nTotalVotes`. -/
def lowDataScan (nSigRequired : Int) : List CMasternodePayee → Int → Bool × Int
  | [], nTotalVotes => (false, nTotalVotes)
  | payee :: rest, nTotalVotes =>
    if payee.GetVoteCount ≥ nSigRequired then (true, nTotalVotes)
    else lowDataScan nSigRequired rest (nTotalVotes + payee.GetVoteCount)

/-- Second loop of `RequestLowDataPaymentBlocks` (lines 1002-1048) over the block
map: a tally without a winner and with fewer votes than the average asks for
the block of its height, when the chain has one. -/
def lowDataBlocksLoop (env : Env) :
    List (Int × CMasternodeBlockPayees) → List uint256 × List (List uint256) →
      List uint256 × List (List uint256)
  | [], st => st
  | (nHeight, blockPayees) :: rest, st =>
    let r := lowDataScan env.MNPAYMENTS_SIGNATURES_REQUIRED blockPayees.vecPayees 0
    if r.1 = true ∨ r.2 ≥ Int.tdiv
        (env.MNPAYMENTS_SIGNATURES_TOTAL + env.MNPAYMENTS_SIGNATURES_REQUIRED) 2 then
      lowDataBlocksLoop env rest st
    else
      lowDataBlocksLoop env rest (flushIfFull env.MAX_INV_SZ
        (match env.GetBlockHash nHeight with
          | some hash => (st.1 ++ [hash], st.2)
          | none => st))

/-- The method `CMasternodePayments::RequestLowDataPaymentBlocks` (lines 977-1054):
the inventories of the `GETDATA` messages pushed to the peer, in the order they
are sent. -/
def RequestLowDataPaymentBlocks (env : Env) (self : CMasternodePayments) :
    List (List uint256) :=
  match self.pCurrentBlockIndex with
  | none => []
  | some pindex =>
    let st1 := lowDataChainLoop env.MAX_INV_SZ self.mapMasternodeBlocks pindex.nHeight
      (GetStorageLimit env) ((pindex.nHeight, pindex.hashBlock) :: pindex.ancestors) ([], [])
    let st2 := lowDataBlocksLoop env self.mapMasternodeBlocks st1
    if st2.1 ≠ [] then st2.2 ++ [st2.1] else st2.2

/-- The hashes the first loop of `RequestLowDataPaymentBlocks` puts into a batch
(the `push_back` of line 990), in order. -/
def lowDataChainItems (blocks : List (Int × CMasternodeBlockPayees)) (nTipHeight nLimit : Int) :
    List (Int × uint256) → List uint256
  | [] => []
  | (nHeight, hash) :: rest =>
    if nTipHeight - nHeight < nLimit then
      (if mapCount blocks nHeight = 0 then [hash] else []) ++
        lowDataChainItems blocks nTipHeight nLimit rest
    else []

/-- The hashes the second loop of `RequestLowDataPaymentBlocks` puts into a batch
(the `push_back` of line 1039), in order. -/
def lowDataBlockItems (env : Env) : List (Int × CMasternodeBlockPayees) → List uint256
  | [] => []
  | (nHeight, blockPayees) :: rest =>
    let r := lowDataScan env.MNPAYMENTS_SIGNATURES_REQUIRED blockPayees.vecPayees 0
    if r.1 = true ∨ r.2 ≥ Int.tdiv
        (env.MNPAYMENTS_SIGNATURES_TOTAL + env.MNPAYMENTS_SIGNATURES_REQUIRED) 2 then
      lowDataBlockItems env rest
    else
      (match env.GetBlockHash nHeight with
        | some hash => [hash]
        | none => []) ++ lowDataBlockItems env rest

end CMasternodePayments

/-! ## Block value check -/

/-- Modelled from the spec: `CTransaction::GetValueOut` (primitives/transaction.cpp
is not among the sources), "the total coinbase output value". -/
def CTransaction.GetValueOut (tx : CTransaction) : CAmount :=
  (tx.vout.map (fun txout => txout.nValue)).sum

/-- Modelled from the spec: class `CBlock` (primitives/block.h is not among the
sources): the coinbase transaction `vtx[0]` and the block time, an unsigned 32
bit number. -/
structure CBlock where
  vtx0 : CTransaction
  nTime : Nat
deriving DecidableEq

/-- Common start of the "coinbase pays too much" error texts. -/
def paysTooMuch (nBlockHeight : Int) (actual limit : CAmount) (why : String) : String :=
  "coinbase pays too much at height " ++ toString nBlockHeight ++ " (actual=" ++ toString actual ++
    " vs limit=" ++ toString limit ++ "), " ++ why

/-- The function `IsBlockValueValid` (lines 38-137): the verdict and the final
content of `strErrorRet`.  The operator `%` of C++ truncates, as `Int.tmod`; the
sum `block.nTime + 60*60` is unsigned 32 bit arithmetic, so it is taken modulo
`2^32` before it is compared with the 64 bit time. -/
def IsBlockValueValid (env : Env) (block : CBlock) (nBlockHeight : Int) (blockReward : CAmount) :
    Bool × String :=
  let isBlockRewardValueMet : Bool := decide (block.vtx0.GetValueOut ≤ blockReward)
  let consensusParams := env.consensus
  if nBlockHeight < consensusParams.nSuperblockStartBlock then
    let nOffset := Int.tmod nBlockHeight consensusParams.nBudgetPaymentsCycleBlocks
    if nBlockHeight ≥ consensusParams.nBudgetPaymentsStartBlock ∧
        nOffset < consensusParams.nBudgetPaymentsWindowBlocks then
      if env.IsSynced ∧ !env.IsSporkActive Spork.SPORK_13_OLD_SUPERBLOCK_FLAG then
        (isBlockRewardValueMet,
          if !isBlockRewardValueMet then
            paysTooMuch nBlockHeight block.vtx0.GetValueOut blockReward
              "exceeded block reward, budgets are disabled"
          else "")
      else (true, "")
    else
      (isBlockRewardValueMet,
        if !isBlockRewardValueMet then
          paysTooMuch nBlockHeight block.vtx0.GetValueOut blockReward
            "exceeded block reward, block is not in budget cycle window"
        else "")
  else
    let nSuperblockMaxValue := blockReward + env.GetPaymentsLimit nBlockHeight
    let isSuperblockMaxValueMet : Bool := decide (block.vtx0.GetValueOut ≤ nSuperblockMaxValue)
    if !env.IsSynced then
      if env.IsValidBlockHeight nBlockHeight then
        (isSuperblockMaxValueMet,
          if !isSuperblockMaxValueMet then
            paysTooMuch nBlockHeight block.vtx0.GetValueOut nSuperblockMaxValue
              "exceeded superblock max value"
          else "")
      else
        (isBlockRewardValueMet,
          if !isBlockRewardValueMet then
            paysTooMuch nBlockHeight block.vtx0.GetValueOut blockReward
              "exceeded block reward, only regular blocks are allowed at this height"
          else "")
    else if env.IsSporkActive Spork.SPORK_9_SUPERBLOCKS_ENABLED then
      if (((block.nTime + 60 * 60) % 4294967296 : Nat) : Int) < env.GetTime then (true, "")
      else if env.IsSuperblockTriggered nBlockHeight then
        if env.SuperblockIsValid block.vtx0 nBlockHeight blockReward then (true, "")
        else (false, "invalid superblock detected at height " ++ toString nBlockHeight)
      else
        (isBlockRewardValueMet,
          if !isBlockRewardValueMet then
            paysTooMuch nBlockHeight block.vtx0.GetValueOut blockReward
              "exceeded block reward, no triggered superblock detected"
          else "")
    else
      (isBlockRewardValueMet,
        if !isBlockRewardValueMet then
          paysTooMuch nBlockHeight block.vtx0.GetValueOut blockReward
            "exceeded block reward, superblocks are disabled"
        else "")

/-! ## Block payee check and coinbase construction -/

/-- The function `IsBlockPayeeValid` (lines 139-215); `self` is the global registry
`mnpayments`. -/
def IsBlockPayeeValid (env : Env) (self : CMasternodePayments) (txNew : CTransaction)
    (nBlockHeight : Int) (blockReward : CAmount) : Bool :=
  if !env.IsSynced then true
  else
    let consensusParams := env.consensus
    if nBlockHeight < consensusParams.nSuperblockStartBlock then
      if self.IsTransactionValid env txNew nBlockHeight then true
      else
        let nOffset := Int.tmod nBlockHeight consensusParams.nBudgetPaymentsCycleBlocks
        if nBlockHeight ≥ consensusParams.nBudgetPaymentsStartBlock ∧
            nOffset < consensusParams.nBudgetPaymentsWindowBlocks then
          if !env.IsSporkActive Spork.SPORK_13_OLD_SUPERBLOCK_FLAG then false
          else true
        else if env.IsSporkActive Spork.SPORK_8_MASTERNODE_PAYMENT_ENFORCEMENT then false
        else true
    else if !env.IsSporkActive Spork.SPORK_9_SUPERBLOCKS_ENABLED ∧
        env.IsSuperblockTriggered nBlockHeight then
      if env.SuperblockIsValid txNew nBlockHeight blockReward then true
      else false
    else if self.IsTransactionValid env txNew nBlockHeight then true
    else if env.IsSporkActive Spork.SPORK_8_MASTERNODE_PAYMENT_ENFORCEMENT then false
    else true

/-- Modelled from the spec: `chainActive.Height()` (chain.h is not among the
sources), "current tip height": the height of the tip, and `-1` for a chain
without blocks. -/
def chainActiveHeight (env : Env) : Int :=
  match env.chainActiveTip with
  | some pindex => pindex.nHeight
  | none => -1

/-- The ladder of `FillBlockPayee` that selects the block value by the chain height
(lines 303-339, and again lines 386-422 for `txNew.vout[0].nValue`). -/
def powRewardLadder (env : Env) (nHeight : Int) : CAmount :=
  if nHeight = 0 then 475000 * env.COIN
  else if nHeight ≥ 1 ∧ nHeight ≤ env.consensus.nYr1TotalBlocks then env.YEAR_POW_REWARD 1
  else if nHeight > env.consensus.nYr1TotalBlocks ∧ nHeight ≤ env.consensus.nYr2TotalBlocks then
    env.YEAR_POW_REWARD 2
  else if nHeight > env.consensus.nYr2TotalBlocks ∧ nHeight ≤ env.consensus.nYr3TotalBlocks then
    env.YEAR_POW_REWARD 3
  else if nHeight > env.consensus.nYr3TotalBlocks ∧ nHeight ≤ env.consensus.nYr4TotalBlocks then
    env.YEAR_POW_REWARD 4
  else if nHeight > env.consensus.nYr4TotalBlocks ∧ nHeight ≤ env.consensus.nYr5TotalBlocks then
    env.YEAR_POW_REWARD 5
  else if nHeight > env.consensus.nYr5TotalBlocks ∧ nHeight ≤ env.consensus.nYr6TotalBlocks then
    env.YEAR_POW_REWARD 6
  else if nHeight > env.consensus.nYr6TotalBlocks ∧ nHeight ≤ env.consensus.nYr7TotalBlocks then
    env.YEAR_POW_REWARD 7
  else if nHeight > env.consensus.nYr7TotalBlocks ∧ nHeight ≤ env.consensus.nYr8TotalBlocks then
    env.YEAR_POW_REWARD 8
  else if nHeight > env.consensus.nYr8TotalBlocks ∧ nHeight ≤ env.consensus.nYr9TotalBlocks then
    env.YEAR_POW_REWARD 9
  else if nHeight > env.consensus.nYr9TotalBlocks ∧ nHeight ≤ env.consensus.nYr10TotalBlocks then
    env.YEAR_POW_REWARD 10
  else if nHeight > env.consensus.nYr10TotalBlocks ∧ nHeight ≤ env.consensus.nYr11TotalBlocks then
    env.YEAR_POW_REWARD 11
  else if nHeight > env.consensus.nYr11TotalBlocks ∧ nHeight ≤ env.consensus.nYr12TotalBlocks then
    env.YEAR_POW_REWARD 12
  else if nHeight > env.consensus.nYr12TotalBlocks ∧ nHeight ≤ env.consensus.nYr13TotalBlocks then
    env.YEAR_POW_REWARD 13
  else if nHeight > env.consensus.nYr13TotalBlocks ∧ nHeight ≤ env.consensus.nYr14TotalBlocks then
    env.YEAR_POW_REWARD 14
  else if nHeight > env.consensus.nYr14TotalBlocks ∧ nHeight ≤ env.consensus.nYr15TotalBlocks then
    env.YEAR_POW_REWARD 15
  else if nHeight > env.consensus.nYr15TotalBlocks ∧ nHeight ≤ env.consensus.nYr16TotalBlocks then
    env.YEAR_POW_REWARD 16
  else if nHeight > env.consensus.nYr16TotalBlocks ∧ nHeight ≤ env.consensus.nYr17TotalBlocks then
    env.YEAR_POW_REWARD 17
  else if nHeight > env.consensus.nYr17TotalBlocks ∧ nHeight ≤ env.consensus.nYr18TotalBlocks then
    env.YEAR_POW_REWARD 18
  else if nHeight > env.consensus.nYr18TotalBlocks ∧ nHeight ≤ env.consensus.nYr19TotalBlocks then
    env.YEAR_POW_REWARD 19
  else if nHeight > env.consensus.nYr19TotalBlocks ∧ nHeight ≤ env.consensus.nYr20TotalBlocks then
    env.YEAR_POW_REWARD 20
  else if nHeight > env.consensus.nYr20TotalBlocks ∧ nHeight ≤ env.consensus.nYr21TotalBlocks then
    env.YEAR_POW_REWARD 21
  else if nHeight > env.consensus.nYr21TotalBlocks ∧ nHeight ≤ env.consensus.nYr22TotalBlocks then
    env.YEAR_POW_REWARD 22
  else if nHeight > env.consensus.nYr22TotalBlocks ∧ nHeight ≤ env.consensus.nYr23TotalBlocks then
    env.YEAR_POW_REWARD 23
  else if nHeight > env.consensus.nYr23TotalBlocks ∧ nHeight ≤ env.consensus.nYr24TotalBlocks then
    env.YEAR_POW_REWARD 24
  else if nHeight > env.consensus.nYr24TotalBlocks ∧ nHeight ≤ env.consensus.nYr25TotalBlocks then
    env.YEAR_POW_REWARD 25
  else if nHeight > env.consensus.nYr25TotalBlocks ∧ nHeight ≤ env.consensus.nYr26TotalBlocks then
    env.YEAR_POW_REWARD 26
  else if nHeight > env.consensus.nYr26TotalBlocks ∧ nHeight ≤ env.consensus.nYr27TotalBlocks then
    env.YEAR_POW_REWARD 27
  else if nHeight > env.consensus.nYr27TotalBlocks ∧ nHeight ≤ env.consensus.nYr28TotalBlocks then
    env.YEAR_POW_REWARD 28
  else if nHeight > env.consensus.nYr28TotalBlocks ∧ nHeight ≤ env.consensus.nYr29TotalBlocks then
    env.YEAR_POW_REWARD 29
  else if nHeight > env.consensus.nYr29TotalBlocks ∧ nHeight ≤ env.consensus.nYr30TotalBlocks then
    env.YEAR_POW_REWARD 30
  else if nHeight > env.consensus.nYr30TotalBlocks ∧ nHeight ≤ env.consensus.nYr31TotalBlocks then
    env.YEAR_POW_REWARD 31
  else if nHeight > env.consensus.nYr31TotalBlocks ∧ nHeight ≤ env.consensus.nYr32TotalBlocks then
    env.YEAR_POW_REWARD 32
  else if nHeight > env.consensus.nYr32TotalBlocks ∧ nHeight ≤ env.consensus.nYr33TotalBlocks then
    env.YEAR_POW_REWARD 33
  else if nHeight > env.consensus.nYr33TotalBlocks ∧ nHeight ≤ env.consensus.nYr34TotalBlocks then
    env.YEAR_POW_REWARD 34
  else if nHeight > env.consensus.nYr34TotalBlocks ∧ nHeight ≤ env.consensus.nYr35TotalBlocks then
    env.YEAR_POW_REWARD 35
  else env.YEAR_POW_REWARD 1

/-- The ladder of `FillBlockPayee` that selects the masternode payment by the chain
height (lines 341-376). -/
def masternodePaymentLadder (env : Env) (hasPayment : Bool) (nHeight : Int) : CAmount :=
  if hasPayment = true ∧ nHeight > env.consensus.nMasternodePaymentsStartBlock ∧
      nHeight ≤ env.consensus.nYr1TotalBlocks then env.YEAR_MASTERNODE_PAYMENT 1
  else if hasPayment = true ∧ nHeight > env.consensus.nYr1TotalBlocks ∧
      nHeight ≤ env.consensus.nYr2TotalBlocks then env.YEAR_MASTERNODE_PAYMENT 2
  else if hasPayment = true ∧ nHeight > env.consensus.nYr2TotalBlocks ∧
      nHeight ≤ env.consensus.nYr3TotalBlocks then env.YEAR_MASTERNODE_PAYMENT 3
  else if hasPayment = true ∧ nHeight > env.consensus.nYr3TotalBlocks ∧
      nHeight ≤ env.consensus.nYr4TotalBlocks then env.YEAR_MASTERNODE_PAYMENT 4
  else if hasPayment = true ∧ nHeight > env.consensus.nYr4TotalBlocks ∧
      nHeight ≤ env.consensus.nYr5TotalBlocks then env.YEAR_MASTERNODE_PAYMENT 5
  else if hasPayment = true ∧ nHeight > env.consensus.nYr5TotalBlocks ∧
      nHeight ≤ env.consensus.nYr6TotalBlocks then env.YEAR_MASTERNODE_PAYMENT 6
  else if hasPayment = true ∧ nHeight > env.consensus.nYr6TotalBlocks ∧
      nHeight ≤ env.consensus.nYr7TotalBlocks then env.YEAR_MASTERNODE_PAYMENT 7
  else if hasPayment = true ∧ nHeight > env.consensus.nYr7TotalBlocks ∧
      nHeight ≤ env.consensus.nYr8TotalBlocks then env.YEAR_MASTERNODE_PAYMENT 8
  else if hasPayment = true ∧ nHeight > env.consensus.nYr8TotalBlocks ∧
      nHeight ≤ env.consensus.nYr9TotalBlocks then env.YEAR_MASTERNODE_PAYMENT 9
  else if hasPayment = true ∧ nHeight > env.consensus.nYr9TotalBlocks ∧
      nHeight ≤ env.consensus.nYr10TotalBlocks then env.YEAR_MASTERNODE_PAYMENT 10
  else if hasPayment = true ∧ nHeight > env.consensus.nYr10TotalBlocks ∧
      nHeight ≤ env.consensus.nYr11TotalBlocks then env.YEAR_MASTERNODE_PAYMENT 11
  else if hasPayment = true ∧ nHeight > env.consensus.nYr11TotalBlocks ∧
      nHeight ≤ env.consensus.nYr12TotalBlocks then env.YEAR_MASTERNODE_PAYMENT 12
  else if hasPayment = true ∧ nHeight > env.consensus.nYr12TotalBlocks ∧
      nHeight ≤ env.consensus.nYr13TotalBlocks then env.YEAR_MASTERNODE_PAYMENT 13
  else if hasPayment = true ∧ nHeight > env.consensus.nYr13TotalBlocks ∧
      nHeight ≤ env.consensus.nYr14TotalBlocks then env.YEAR_MASTERNODE_PAYMENT 14
  else if hasPayment = true ∧ nHeight > env.consensus.nYr14TotalBlocks ∧
      nHeight ≤ env.consensus.nYr15TotalBlocks then env.YEAR_MASTERNODE_PAYMENT 15
  else if hasPayment = true ∧ nHeight > env.consensus.nYr15TotalBlocks ∧
      nHeight ≤ env.consensus.nYr16TotalBlocks then env.YEAR_MASTERNODE_PAYMENT 16
  else if hasPayment = true ∧ nHeight > env.consensus.nYr16TotalBlocks ∧
      nHeight ≤ env.consensus.nYr17TotalBlocks then env.YEAR_MASTERNODE_PAYMENT 17
  else if hasPayment = true ∧ nHeight > env.consensus.nYr17TotalBlocks ∧
      nHeight ≤ env.consensus.nYr18TotalBlocks then env.YEAR_MASTERNODE_PAYMENT 18
  else if hasPayment = true ∧ nHeight > env.consensus.nYr18TotalBlocks ∧
      nHeight ≤ env.consensus.nYr19TotalBlocks then env.YEAR_MASTERNODE_PAYMENT 19
  else if hasPayment = true ∧ nHeight > env.consensus.nYr19TotalBlocks ∧
      nHeight ≤ env.consensus.nYr20TotalBlocks then env.YEAR_MASTERNODE_PAYMENT 20
  else if hasPayment = true ∧ nHeight > env.consensus.nYr20TotalBlocks ∧
      nHeight ≤ env.consensus.nYr21TotalBlocks then env.YEAR_MASTERNODE_PAYMENT 21
  else if hasPayment = true ∧ nHeight > env.consensus.nYr21TotalBlocks ∧
      nHeight ≤ env.consensus.nYr22TotalBlocks then env.YEAR_MASTERNODE_PAYMENT 22
  else if hasPayment = true ∧ nHeight > env.consensus.nYr22TotalBlocks ∧
      nHeight ≤ env.consensus.nYr23TotalBlocks then env.YEAR_MASTERNODE_PAYMENT 23
  else if hasPayment = true ∧ nHeight > env.consensus.nYr23TotalBlocks ∧
      nHeight ≤ env.consensus.nYr24TotalBlocks then env.YEAR_MASTERNODE_PAYMENT 24
  else if hasPayment = true ∧ nHeight > env.consensus.nYr24TotalBlocks ∧
      nHeight ≤ env.consensus.nYr25TotalBlocks then env.YEAR_MASTERNODE_PAYMENT 25
  else if hasPayment = true ∧ nHeight > env.consensus.nYr25TotalBlocks ∧
      nHeight ≤ env.consensus.nYr26TotalBlocks then env.YEAR_MASTERNODE_PAYMENT 26
  else if hasPayment = true ∧ nHeight > env.consensus.nYr26TotalBlocks ∧
      nHeight ≤ env.consensus.nYr27TotalBlocks then env.YEAR_MASTERNODE_PAYMENT 27
  else if hasPayment = true ∧ nHeight > env.consensus.nYr27TotalBlocks ∧
      nHeight ≤ env.consensus.nYr28TotalBlocks then env.YEAR_MASTERNODE_PAYMENT 28
  else if hasPayment = true ∧ nHeight > env.consensus.nYr28TotalBlocks ∧
      nHeight ≤ env.consensus.nYr29TotalBlocks then env.YEAR_MASTERNODE_PAYMENT 29
  else if hasPayment = true ∧ nHeight > env.consensus.nYr29TotalBlocks ∧
      nHeight ≤ env.consensus.nYr30TotalBlocks then env.YEAR_MASTERNODE_PAYMENT 30
  else if hasPayment = true ∧ nHeight > env.consensus.nYr30TotalBlocks ∧
      nHeight ≤ env.consensus.nYr31TotalBlocks then env.YEAR_MASTERNODE_PAYMENT 31
  else if hasPayment = true ∧ nHeight > env.consensus.nYr31TotalBlocks ∧
      nHeight ≤ env.consensus.nYr32TotalBlocks then env.YEAR_MASTERNODE_PAYMENT 32
  else if hasPayment = true ∧ nHeight > env.consensus.nYr32TotalBlocks ∧
      nHeight ≤ env.consensus.nYr33TotalBlocks then env.YEAR_MASTERNODE_PAYMENT 33
  else if hasPayment = true ∧ nHeight > env.consensus.nYr33TotalBlocks ∧
      nHeight ≤ env.consensus.nYr34TotalBlocks then env.YEAR_MASTERNODE_PAYMENT 34
  else if hasPayment = true ∧ nHeight > env.consensus.nYr34TotalBlocks ∧
      nHeight ≤ env.consensus.nYr35TotalBlocks then env.YEAR_MASTERNODE_PAYMENT 35
  else env.YEAR_MASTERNODE_PAYMENT 1

/-- A ladder of tiers read as a loop: walking the boundaries in order, with `prev`
the boundary before and `i` the index of the tier at hand, the first tier with
`prev < h ≤ bound` gives `value i`; `fallback` when no tier takes `h`. -/
def tierScan (h : Int) (value : Nat → CAmount) (fallback : CAmount) :
    Int → Nat → List Int → CAmount
  | _, _, [] => fallback
  | prev, i, bound :: rest =>
    if h > prev ∧ h ≤ bound then value i else tierScan h value fallback bound (i + 1) rest

/-- Test for a strictly increasing list whose first entry is above `prev`. -/
def increasingFrom : Int → List Int → Bool
  | _, [] => true
  | prev, b :: rest => decide (prev < b) && increasingFrom b rest

/-- The tier boundaries are positive and strictly increasing:
`0 < nYr1TotalBlocks < nYr2TotalBlocks < ... < nYr35TotalBlocks`. -/
def Params.tiersIncreasing (p : Params) : Prop :=
  increasingFrom 0 p.tierBounds = true

instance (p : Params) : Decidable p.tiersIncreasing :=
  inferInstanceAs (Decidable (increasingFrom 0 p.tierBounds = true))

namespace CMasternodePayments

/-- Lines 278-298 of `FillBlockPayee`: the flag `hasPayment` and the script `payee`
as they stand before the amounts are selected. -/
def fillPayee (env : Env) (self : CMasternodePayments) (pindexPrev : CBlockIndex) :
    Bool × CScript :=
  let hasPayment : Bool :=
    if chainActiveHeight env ≤ env.consensus.nMasternodePaymentsStartBlock then false else true
  let found := self.GetBlockPayee (pindexPrev.nHeight + 1) []
  if !found.1 then
    match env.mnodemanFindPayee found.2 with
    | some script => (hasPayment, script)
    | none => (false, found.2)
  else (hasPayment, found.2)

/-- The method `CMasternodePayments::FillBlockPayee` (lines 273-430): the coinbase
transaction after the call.  The second parameter of the source (`nFees`) is
never read.  Writing `txNew.vout[0]` needs a first output: for a transaction
without outputs the source has no defined result and the model gives `none`.
With a payment the outputs are cut or filled to two (`resize(2)`), the second
one is overwritten with the payee and the payment, and the value of the first
one is selected once more. -/
def FillBlockPayee (env : Env) (self : CMasternodePayments) (txNew : CTransaction) :
    Option CTransaction :=
  match env.chainActiveTip with
  | none => some txNew
  | some pindexPrev =>
    let hp := self.fillPayee env pindexPrev
    let hasPayment := hp.1
    let payee := hp.2
    let blockValue := powRewardLadder env (chainActiveHeight env)
    let masternodePayment := masternodePaymentLadder env hasPayment (chainActiveHeight env)
    match txNew.vout with
    | [] => none
    | out0 :: rest =>
      let first : CTxOut := { out0 with nValue := blockValue }
      if hasPayment then
        some ⟨[{ first with nValue := powRewardLadder env (chainActiveHeight env) },
          { nValue := masternodePayment, scriptPubKey := payee }]⟩
      else some ⟨first :: rest⟩

end CMasternodePayments

/-- The function `FillBlockPayments` (lines 217-234): the coinbase transaction and
the two output parameters after the call (`none` as in `FillBlockPayee`). -/
def FillBlockPayments (env : Env) (self : CMasternodePayments) (txNew : CTransaction)
    (nBlockHeight : Int) (txoutMasternodeRet : CTxOut) (voutSuperblockRet : List CTxOut) :
    Option (CTransaction × CTxOut × List CTxOut) :=
  if env.IsSporkActive Spork.SPORK_9_SUPERBLOCKS_ENABLED ∧
      env.IsSuperblockTriggered nBlockHeight then
    let r := env.CreateSuperblock txNew nBlockHeight voutSuperblockRet
    some (r.1, txoutMasternodeRet, r.2)
  else if chainActiveHeight env > env.consensus.nMasternodePaymentsStartBlock then
    match self.FillBlockPayee env txNew with
    | some tx => some (tx, txoutMasternodeRet, voutSuperblockRet)
    | none => none
  else some (txNew, txoutMasternodeRet, voutSuperblockRet)

/-! ## Amount units (qt/creditsunits.cpp) -/

/-- Text of the Qt library (`QString`) as a list of characters. -/
abbrev QString := List Char

namespace QString

/-- The call `QString::number(qint64)`: the decimal digits, after a minus sign for
a negative number. -/
def number (n : Int) : QString :=
  if n < 0 then '-' :: Nat.toDigits 10 n.natAbs else Nat.toDigits 10 n.toNat

/-- The call `QString::rightJustified(width, fill)`: the text padded on the left
up to `width` characters; a longer text is returned as it is. -/
def rightJustified (s : QString) (width : Int) (fill : Char) : QString :=
  List.replicate (width.toNat - s.length) fill ++ s

/-- The call `QString::leftJustified(width, fill)`: the text padded on the right
up to `width` characters; a longer text is returned as it is. -/
def leftJustified (s : QString) (width : Int) (fill : Char) : QString :=
  s ++ List.replicate (width.toNat - s.length) fill

/-- The call `QString::insert(position, ch)` for a position within the text. -/
def insert (s : QString) (position : Nat) (ch : Char) : QString :=
  s.take position ++ ch :: s.drop position

/-- The call `QString::split(sep)` for a one character separator: the parts
between the separators, empty parts kept; a text without separator is the one
part. -/
def split (sep : Char) : QString → List QString
  | [] => [[]]
  | c :: rest =>
    if c = sep then [] :: split sep rest
    else
      match split sep rest with
      | [] => [[c]]
      | part :: parts => (c :: part) :: parts

/-- Value of a text of decimal digits read after the value `acc`; `none` when a
character is not a decimal digit. -/
def decimalValue : QString → Nat → Option Nat
  | [], acc => some acc
  | c :: rest, acc =>
    if c.isDigit then decimalValue rest (acc * 10 + (c.toNat - 48)) else none

/-- The sign read by `QString::toLongLong`: is the first character a minus sign? -/
def isNegative : QString → Bool
  | '-' :: _ => true
  | _ => false

/-- The text `QString::toLongLong` reads the digits from: the text after its
sign, if it has one. -/
def unsignedPart : QString → QString
  | '-' :: rest => rest
  | '+' :: rest => rest
  | s => s

/-- The call `QString::toLongLong(&ok)` in base 10 on a text without white space:
an optional sign and at least one digit, the value within 64 bits; returns
the value and `ok`, the value being 0 when `ok` is false. -/
def toLongLong (s : QString) : Int × Bool :=
  if unsignedPart s = [] then (0, false)
  else
    match decimalValue (unsignedPart s) 0 with
    | none => (0, false)
    | some v =>
      let x : Int := if isNegative s then -(v : Int) else (v : Int)
      if -9223372036854775808 ≤ x ∧ x ≤ 9223372036854775807 then (x, true) else (0, false)

end QString

namespace CreditsUnits

/-- The unit codes named by the case labels of `valid`, `factor` and `decimals`
(the `enum Unit` itself is declared in `creditsunits.h`, which is not among the
sources); `other` stands for every other `int`. -/
inductive Unit where
  | CRDS
  | mCRDS
  | uCRDS
  | satoshis
  | other
deriving DecidableEq

/-- The values of `SeparatorStyle` used by `format` (the `enum` is declared in
`creditsunits.h`). -/
inductive SeparatorStyle where
  | separatorNever
  | separatorStandard
  | separatorAlways
deriving DecidableEq

/-- The function `CreditsUnits::valid` (lines 32-44). -/
def valid : Unit → Bool
  | Unit.CRDS => true
  | Unit.mCRDS => true
  | Unit.uCRDS => true
  | Unit.satoshis => true
  | Unit.other => false

/-- The function `CreditsUnits::factor` (lines 110-120). -/
def factor : Unit → Int
  | Unit.CRDS => 100000000
  | Unit.mCRDS => 100000
  | Unit.uCRDS => 100
  | Unit.satoshis => 1
  | Unit.other => 100000000

/-- The function `CreditsUnits::decimals` (lines 122-132). -/
def decimals : Unit → Int
  | Unit.CRDS => 8
  | Unit.mCRDS => 5
  | Unit.uCRDS => 2
  | Unit.satoshis => 0
  | Unit.other => 0

/-- The loop of `format` (lines 153-155) that inserts `thin_sp` every three digits
from the right: `i` runs over 3, 6, ... below `q_size`. -/
def separatorLoop (thin_sp : Char) (q_size : Nat) : Nat → Nat → QString → QString
  | 0, _, quotient_str => quotient_str
  | fuel + 1, i, quotient_str =>
    if i < q_size then
      separatorLoop thin_sp q_size fuel (i + 3) (QString.insert quotient_str (q_size - i) thin_sp)
    else quotient_str

/-- The function `CreditsUnits::format` (lines 134-166).  The character
`THIN_SP_CP` is defined in `creditsunits.h` and is the parameter `thin_sp`;
the operators `/` and `%` of C++ truncate. -/
def format (thin_sp : Char) (unit : Unit) (nIn : CAmount) (fPlus : Bool)
    (separators : SeparatorStyle) : QString :=
  if !valid unit then []
  else
    let n : Int := nIn
    let coin := factor unit
    let num_decimals := decimals unit
    let n_abs := if n > 0 then n else -n
    let quotient := Int.tdiv n_abs coin
    let remainder := Int.tmod n_abs coin
    let quotient_str := QString.number quotient
    let remainder_str := QString.rightJustified (QString.number remainder) num_decimals '0'
    let q_size := quotient_str.length
    let separated :=
      if separators = SeparatorStyle.separatorAlways ∨
          (separators = SeparatorStyle.separatorStandard ∧ q_size > 4) then
        separatorLoop thin_sp q_size q_size 3 quotient_str
      else quotient_str
    let signed :=
      if n < 0 then '-' :: separated
      else if fPlus = true ∧ n > 0 then '+' :: separated
      else separated
    if num_decimals ≤ 0 then signed
    else signed ++ ['.'] ++ remainder_str

/-- The function `CreditsUnits::parse` (lines 207-244): the result and the value
written to `*val_out`, if one is written.  The helper `removeSpaces` is
defined in `creditsunits.h` and is a parameter. -/
def parse (removeSpaces : QString → QString) (unit : Unit) (value : QString) :
    Bool × Option CAmount :=
  if !valid unit ∨ value = [] then (false, none)
  else
    let num_decimals := decimals unit
    let parts := QString.split '.' (removeSpaces value)
    if parts.length > 2 then (false, none)
    else
      let whole : QString := parts.headD []
      let decimalPart : QString := if parts.length > 1 then parts.getD 1 [] else []
      if (decimalPart.length : Int) > num_decimals then (false, none)
      else
        let str := whole ++ QString.leftJustified decimalPart num_decimals '0'
        if str.length > 18 then (false, none)
        else
          let r := QString.toLongLong str
          (r.2, some r.1)

end CreditsUnits

/-! ## Runs of AddPayee -/

namespace CMasternodeBlockPayees

/-- A run of successive `AddPayee` calls on one `CMasternodeBlockPayees`, in list
order. -/
def addPayees (env : Env) (self : CMasternodeBlockPayees) :
    List CMasternodePaymentVote → CMasternodeBlockPayees
  | [] => self
  | vote :: rest => addPayees env (self.AddPayee env vote) rest

end CMasternodeBlockPayees

/-! ## Runs of calls -/

/-- One operation of the registry with its arguments: a peer message handled by
`ProcessMessage`, a direct `AddPaymentVote` (the node's own vote), a
`CheckAndRemove`, a `Clear`, or the assignment `pCurrentBlockIndex = pindex`
made by `UpdatedBlockTip` (line 1080). -/
inductive RegistryOp where
  | message (env : Env) (pfrom : CNode) (msg : NetMsg)
  | addPaymentVote (env : Env) (vote : CMasternodePaymentVote)
  | checkAndRemove (env : Env)
  | clear
  | setTip (pindex : CBlockIndex)

namespace CMasternodePayments

/-- The registry after one operation. -/
def applyOp (self : CMasternodePayments) : RegistryOp → CMasternodePayments
  | RegistryOp.message env pfrom msg => (ProcessMessage env self pfrom msg).registry
  | RegistryOp.addPaymentVote env vote => (self.AddPaymentVote env vote).2
  | RegistryOp.checkAndRemove env => self.CheckAndRemove env
  | RegistryOp.clear => self.Clear
  | RegistryOp.setTip pindex => { self with pCurrentBlockIndex := some pindex }

/-- A run of successive `CanVote` calls on the registry: the verdicts in call
order and the registry left by the last call. -/
def canVoteRun (self : CMasternodePayments) :
    List (COutPoint × Int) → List Bool × CMasternodePayments
  | [] => ([], self)
  | (outMasternode, nBlockHeight) :: rest =>
    let r := self.CanVote outMasternode nBlockHeight
    let rr := canVoteRun r.2 rest
    (r.1 :: rr.1, rr.2)

/-- A run of operations on the registry: the registry left by the last one. -/
def applyOps (self : CMasternodePayments) : List RegistryOp → CMasternodePayments
  | [] => self
  | op :: rest => applyOps (self.applyOp op) rest

end CMasternodePayments

/-! ## Reachable registry states -/

/-- The operation computes vote hashes with the digest `hashOf`. -/
def RegistryOp.usesHash (hashOf : COutPoint → Int → CScript → uint256) : RegistryOp → Prop
  | RegistryOp.message env _ _ => env.hashOf = hashOf
  | RegistryOp.addPaymentVote env _ => env.hashOf = hashOf
  | RegistryOp.checkAndRemove _ => True
  | RegistryOp.clear => True
  | RegistryOp.setTip _ => True

namespace CMasternodePayments

/-- The registry states reachable from the empty registry by a run of peer
messages, direct `AddPaymentVote` calls, `CheckAndRemove`, `Clear` and tip
assignments, all of them hashing votes with the same digest `hashOf`. -/
def reachable (hashOf : COutPoint → Int → CScript → uint256) (self : CMasternodePayments) : Prop :=
  ∃ ops : List RegistryOp, (∀ op ∈ ops, op.usesHash hashOf) ∧
    self = applyOps ⟨[], [], [], none⟩ ops

/-- Every stored vote sits under its own hash, every stored vote marked verified
has that hash among the hashes of an entry for its payee in the tally of its
height, and in every tally the scripts are pairwise different and no entry
holds a hash twice. -/
def votesTallied (hashOf : COutPoint → Int → CScript → uint256) (self : CMasternodePayments) :
    Prop :=
  (∀ e ∈ self.mapMasternodePaymentVotes, e.2.GetHash hashOf = e.1 ∧
    (e.2.IsVerified = true →
      ∃ bp, mapFind self.mapMasternodeBlocks e.2.nBlockHeight = some bp ∧
        ∃ p ∈ bp.vecPayees, p.GetPayee = e.2.payee ∧ e.1 ∈ p.GetVoteHashes)) ∧
  (∀ e ∈ self.mapMasternodeBlocks, (e.2.vecPayees.map CMasternodePayee.GetPayee).Nodup ∧
    ∀ p ∈ e.2.vecPayees, p.GetVoteHashes.Nodup)

/-- Every stored vote sits under its own hash, and every hash held by an entry of
the tally of a height is a key of the vote map whose vote has that height and
the script of the entry. -/
def talliesBacked (hashOf : COutPoint → Int → CScript → uint256) (self : CMasternodePayments) :
    Prop :=
  (∀ e ∈ self.mapMasternodePaymentVotes, e.2.GetHash hashOf = e.1) ∧
  (∀ h bp, mapFind self.mapMasternodeBlocks h = some bp → ∀ p ∈ bp.vecPayees,
    ∀ k ∈ p.GetVoteHashes, ∃ v, mapFind self.mapMasternodePaymentVotes k = some v ∧
      v.nBlockHeight = h ∧ v.payee = p.GetPayee)

end CMasternodePayments

/-! ## Sample surroundings for the worked instances -/

/-- Sample surroundings: list and node synced, every masternode known with
protocol 70208 and rank 1, every signature good, every height has a block, six
of ten signatures required, storage limit `max 3 50 = 50`, main net consensus
parameters, no superblock in sight, chain tip at height 1000, tier `i` paying
`1000 - 10 i` to the miner and `500 - 5 i` to the masternode. -/
def demoEnv : Env where
  hashOf := fun o h p => o.hash * 1000000 + h.toNat * 1000 + p.sum
  MNPAYMENTS_SIGNATURES_REQUIRED := 6
  MNPAYMENTS_SIGNATURES_TOTAL := 10
  MIN_MASTERNODE_PAYMENT_PROTO_VERSION := 70206
  GetMasternodePayment := 100
  fLiteMode := false
  fMasterNode := false
  IsMasternodeListSynced := true
  IsSynced := true
  IsWinnersListSynced := true
  IsSporkActive := fun _ => false
  mnodemanFind := fun _ => some 70208
  GetMasternodeRank := fun _ _ _ => 1
  GetMasternodeInfo := fun o => some o.hash
  VerifyMessage := fun _ _ _ _ _ => true
  GetBlockHash := fun h => some h.toNat
  mnodemanSize := 3
  CountMasternodes := 3
  storageScale := fun n => (n : Int)
  nMinBlocksToStore := 50
  HasFulfilledRequest := fun _ => false
  consensus := mainConsensus
  GetPaymentsLimit := fun _ => 0
  IsValidBlockHeight := fun _ => false
  IsSuperblockTriggered := fun _ => false
  SuperblockIsValid := fun _ _ _ => false
  GetTime := 0
  COIN := 100000000
  YEAR_POW_REWARD := fun i => 1000 - 10 * (i : Int)
  YEAR_MASTERNODE_PAYMENT := fun i => 500 - 5 * (i : Int)
  chainActiveTip := some ⟨1000, 77, []⟩
  mnodemanFindPayee := fun _ => none
  CreateSuperblock := fun txNew _ voutSuperblockRet => (txNew, voutSuperblockRet)
  activeMasternodeVin := ⟨9, 0⟩
  activePubKeyMasternode := 9
  SignMessage := fun _ _ _ => some [1]
  GetNextMasternodeInQueueForPayment := fun _ => some [7]
  MAX_INV_SZ := 50000

/-- Sample surroundings with superblocks switched on: as `demoEnv`, but `SPORK_9` is
the one active flag, the clock shows 1500000000, a superblock is triggered at
height 41090 only, and the superblock validator accepts exactly the coinbases
worth 5000. -/
def demoEnvSuperblocks : Env :=
  { demoEnv with
    IsSporkActive := fun spork => decide (spork = Spork.SPORK_9_SUPERBLOCKS_ENABLED)
    IsSuperblockTriggered := fun h => decide (h = 41090)
    SuperblockIsValid := fun tx _ _ => decide (tx.GetValueOut = 5000)
    GetTime := 1500000000 }

/-- Sample surroundings with an outdated masternode: as `demoEnv`, but
`SPORK_10` (and every other flag) is active and every masternode advertises
protocol version 2. -/
def demoEnvOldNode : Env :=
  { demoEnv with
    IsSporkActive := fun _ => true
    mnodemanFind := fun _ => some 2 }

/-- Sample surroundings with a digest without collisions: as `demoEnv`, but the
vote hash is the code number of the tuple (outpoint, height, payee). -/
def demoEnvInjective : Env :=
  { demoEnv with hashOf := fun o h p => Encodable.encode (o.hash, o.n, h, p) }

/-- Sample thin space: the character U+2009. -/
def demoThinSp : Char := Char.ofNat 8201

/-- Sample `removeSpaces`: drops every space and every thin space. -/
def demoRemoveSpaces (text : QString) : QString :=
  text.filter (fun c => decide (c ≠ ' ' ∧ c ≠ demoThinSp))

/-- Sample peer. -/
def demoPeer : CNode := ⟨1, 1, 70208⟩

/-- Sample registry: nothing stored, tip at height 1000. -/
def demoRegistry : CMasternodePayments := ⟨[], [], [], some ⟨1000, 77, []⟩⟩

/-- Sample vote of masternode `(m, 0)` for `payee` at height `h`, signed and verified. -/
def demoVote (m : Nat) (h : Int) (payee : CScript) : CMasternodePaymentVote :=
  ⟨⟨m, 0⟩, h, payee, [1], true⟩

/-! ## Lemmas on the tally loops -/

namespace CMasternodeBlockPayees

theorem maxSignaturesLoop_lt (nSigRequired : Int) (l : List CMasternodePayee) :
    ∀ acc : Int, acc < nSigRequired → (∀ p ∈ l, p.GetVoteCount < nSigRequired) →
      maxSignaturesLoop l acc < nSigRequired := by
  induction l with
  | nil => intro acc hacc _; simpa [maxSignaturesLoop] using hacc
  | cons p rest ih =>
    intro acc hacc hl
    have hp : p.GetVoteCount < nSigRequired := hl p (List.mem_cons_self _ _)
    have hrest : ∀ q ∈ rest, q.GetVoteCount < nSigRequired :=
      fun q hq => hl q (List.mem_cons_of_mem _ hq)
    unfold maxSignaturesLoop
    split
    · exact ih _ hp hrest
    · exact ih _ hacc hrest

theorem maxSignaturesLoop_ge_acc (l : List CMasternodePayee) :
    ∀ acc : Int, acc ≤ maxSignaturesLoop l acc := by
  induction l with
  | nil => intro acc; simp [maxSignaturesLoop]
  | cons p rest ih =>
    intro acc
    unfold maxSignaturesLoop
    split
    · next h => exact le_trans h (ih _)
    · exact ih _

theorem maxSignaturesLoop_ge_mem (l : List CMasternodePayee) :
    ∀ acc : Int, ∀ p ∈ l, p.GetVoteCount ≤ maxSignaturesLoop l acc := by
  induction l with
  | nil => intro acc p hp; simp at hp
  | cons q rest ih =>
    intro acc p hp
    unfold maxSignaturesLoop
    rcases List.mem_cons.mp hp with rfl | hp
    · split
      · exact maxSignaturesLoop_ge_acc rest _
      · next h => exact le_trans (le_of_lt (not_le.mp h)) (maxSignaturesLoop_ge_acc rest _)
    · split
      · exact ih _ p hp
      · exact ih _ p hp

theorem outputsPay_iff (payee : CMasternodePayee) (nMasternodePayment : CAmount)
    (vout : List CTxOut) :
    outputsPay payee nMasternodePayment vout = true ↔
      ∃ txout ∈ vout, txout.scriptPubKey = payee.GetPayee ∧ txout.nValue = nMasternodePayment := by
  induction vout with
  | nil => simp [outputsPay]
  | cons t rest ih =>
    unfold outputsPay
    split
    · next h =>
      simp only [true_iff]
      exact ⟨t, List.mem_cons_self _ _, h.1.symm, h.2.symm⟩
    · next h =>
      rw [ih]
      constructor
      · rintro ⟨x, hx, hx2⟩
        exact ⟨x, List.mem_cons_of_mem _ hx, hx2⟩
      · rintro ⟨x, hx, hx2⟩
        rcases List.mem_cons.mp hx with rfl | hx
        · exact absurd ⟨hx2.1.symm, hx2.2.symm⟩ h
        · exact ⟨x, hx, hx2⟩

theorem requiredPaymentLoop_iff (nSigRequired : Int) (nMasternodePayment : CAmount)
    (txNew : CTransaction) (l : List CMasternodePayee) :
    requiredPaymentLoop nSigRequired nMasternodePayment txNew l = true ↔
      ∃ payee ∈ l, payee.GetVoteCount ≥ nSigRequired ∧
        ∃ txout ∈ txNew.vout,
          txout.scriptPubKey = payee.GetPayee ∧ txout.nValue = nMasternodePayment := by
  induction l with
  | nil => simp [requiredPaymentLoop]
  | cons p rest ih =>
    unfold requiredPaymentLoop
    split
    · next hge =>
      split
      · next hpay =>
        simp only [true_iff]
        exact ⟨p, List.mem_cons_self _ _, hge, (outputsPay_iff _ _ _).mp hpay⟩
      · next hpay =>
        rw [ih]
        constructor
        · rintro ⟨x, hx, hx2⟩
          exact ⟨x, List.mem_cons_of_mem _ hx, hx2⟩
        · rintro ⟨x, hx, hx2⟩
          rcases List.mem_cons.mp hx with rfl | hx
          · exact absurd ((outputsPay_iff _ _ _).mpr hx2.2) hpay
          · exact ⟨x, hx, hx2⟩
    · next hge =>
      rw [ih]
      constructor
      · rintro ⟨x, hx, hx2⟩
        exact ⟨x, List.mem_cons_of_mem _ hx, hx2⟩
      · rintro ⟨x, hx, hx2⟩
        rcases List.mem_cons.mp hx with rfl | hx
        · exact absurd hx2.1 hge
        · exact ⟨x, hx, hx2⟩

end CMasternodeBlockPayees

namespace CMasternodeBlockPayees

theorem GetVoteCount_nonneg (p : CMasternodePayee) : 0 ≤ p.GetVoteCount := by
  unfold CMasternodePayee.GetVoteCount
  exact Int.ofNat_nonneg _

/-- The loop of `GetBestPayee` either meets no entry above the starting count and
keeps its start, or ends on the first entry holding the largest count. -/
theorem bestPayeeLoop_spec (l : List CMasternodePayee) :
    ∀ (r0 : CScript) (n0 : Int),
      ((∀ q ∈ l, q.GetVoteCount ≤ n0) ∧ bestPayeeLoop l (r0, n0) = (r0, n0)) ∨
      (∃ pre p post, l = pre ++ p :: post ∧ (∀ q ∈ pre, q.GetVoteCount < p.GetVoteCount) ∧
        (∀ q ∈ post, q.GetVoteCount ≤ p.GetVoteCount) ∧ n0 < p.GetVoteCount ∧
        bestPayeeLoop l (r0, n0) = (p.GetPayee, p.GetVoteCount)) := by
  induction l with
  | nil => intro r0 n0; left; simp [bestPayeeLoop]
  | cons a rest ih =>
    intro r0 n0
    unfold bestPayeeLoop
    split
    · next hgt =>
      rcases ih a.GetPayee a.GetVoteCount with ⟨hall, hres⟩ | ⟨pre, p, post, hl, hpre, hpost, hn, hres⟩
      · right
        exact ⟨[], a, rest, rfl, by simp, hall, hgt, hres⟩
      · right
        refine ⟨a :: pre, p, post, by simp [hl], ?_, hpost, lt_trans hgt hn, hres⟩
        intro q hq
        rcases List.mem_cons.mp hq with rfl | hq
        · exact hn
        · exact hpre q hq
    · next hgt =>
      have hle : a.GetVoteCount ≤ n0 := not_lt.mp hgt
      rcases ih r0 n0 with ⟨hall, hres⟩ | ⟨pre, p, post, hl, hpre, hpost, hn, hres⟩
      · left
        refine ⟨?_, hres⟩
        intro q hq
        rcases List.mem_cons.mp hq with rfl | hq
        · exact hle
        · exact hall q hq
      · right
        refine ⟨a :: pre, p, post, by simp [hl], ?_, hpost, hn, hres⟩
        intro q hq
        rcases List.mem_cons.mp hq with rfl | hq
        · exact lt_of_le_of_lt hle hn
        · exact hpre q hq

end CMasternodeBlockPayees

/-! ## Claims on the per-height tally -/

/-- Claim C1.  When every payee entry has fewer votes than the required number of
signatures (a positive constant), and in particular when there is no entry,
`CMasternodeBlockPayees::IsTransactionValid` accepts every transaction. -/
theorem C1_IsTransactionValid_below_threshold (nSigRequired : Int) (nMasternodePayment : CAmount)
    (blockPayees : CMasternodeBlockPayees) (txNew : CTransaction)
    (hPos : 0 < nSigRequired)
    (hLow : ∀ payee ∈ blockPayees.vecPayees, payee.GetVoteCount < nSigRequired) :
    blockPayees.IsTransactionValid nSigRequired nMasternodePayment txNew = true := by
  unfold CMasternodeBlockPayees.IsTransactionValid
  simp [CMasternodeBlockPayees.maxSignaturesLoop_lt nSigRequired blockPayees.vecPayees 0 hPos hLow]

/-- Witness for C1: six signatures required, five votes for the payee with script
`[1]`, and a coinbase that pays script `[2]` is accepted all the same. -/
theorem C1_IsTransactionValid_below_threshold_witness :
    (0 : Int) < 6 ∧
    CMasternodeBlockPayees.IsTransactionValid 6 100 ⟨7, [⟨[1], [10, 11, 12, 13, 14]⟩]⟩
      ⟨[⟨900, [0]⟩, ⟨100, [2]⟩]⟩ = true :=
  ⟨by decide,
    C1_IsTransactionValid_below_threshold 6 100 ⟨7, [⟨[1], [10, 11, 12, 13, 14]⟩]⟩
      ⟨[⟨900, [0]⟩, ⟨100, [2]⟩]⟩ (by decide) (by decide)⟩

/-- Claim C2.  When some payee entry has at least the required number of votes,
`CMasternodeBlockPayees::IsTransactionValid` returns true exactly when the
transaction has an output that pays the masternode payment amount to the script
of an entry with at least that many votes, and false otherwise. -/
theorem C2_IsTransactionValid_at_threshold (nSigRequired : Int) (nMasternodePayment : CAmount)
    (blockPayees : CMasternodeBlockPayees) (txNew : CTransaction)
    (hSome : ∃ payee ∈ blockPayees.vecPayees, payee.GetVoteCount ≥ nSigRequired) :
    blockPayees.IsTransactionValid nSigRequired nMasternodePayment txNew = true ↔
      ∃ payee ∈ blockPayees.vecPayees, payee.GetVoteCount ≥ nSigRequired ∧
        ∃ txout ∈ txNew.vout,
          txout.scriptPubKey = payee.GetPayee ∧ txout.nValue = nMasternodePayment := by
  obtain ⟨p, hp, hge⟩ := hSome
  have hmax : ¬ CMasternodeBlockPayees.maxSignaturesLoop blockPayees.vecPayees 0 < nSigRequired :=
    not_lt.mpr (le_trans hge
      (CMasternodeBlockPayees.maxSignaturesLoop_ge_mem blockPayees.vecPayees 0 p hp))
  unfold CMasternodeBlockPayees.IsTransactionValid
  simp only [hmax, if_false]
  exact CMasternodeBlockPayees.requiredPaymentLoop_iff _ _ _ _

/-- Witness for C2: two signatures required, the entry `[1]` has two votes and the
entry `[2]` one; a coinbase paying 100 to `[2]` only is refused and a coinbase
with an output of 100 to `[1]` is accepted. -/
theorem C2_IsTransactionValid_at_threshold_witness :
    (⟨[1], [10, 11]⟩ : CMasternodePayee).GetVoteCount ≥ 2 ∧
    CMasternodeBlockPayees.IsTransactionValid 2 100 ⟨7, [⟨[2], [12]⟩, ⟨[1], [10, 11]⟩]⟩
        ⟨[⟨100, [2]⟩]⟩ = false ∧
    CMasternodeBlockPayees.IsTransactionValid 2 100 ⟨7, [⟨[2], [12]⟩, ⟨[1], [10, 11]⟩]⟩
        ⟨[⟨900, [0]⟩, ⟨100, [1]⟩]⟩ = true :=
  ⟨by decide,
    Bool.eq_false_iff.mpr (mt (C2_IsTransactionValid_at_threshold 2 100
      ⟨7, [⟨[2], [12]⟩, ⟨[1], [10, 11]⟩]⟩ ⟨[⟨100, [2]⟩]⟩
      ⟨⟨[1], [10, 11]⟩, by decide, by decide⟩).mp (by decide)),
    (C2_IsTransactionValid_at_threshold 2 100
      ⟨7, [⟨[2], [12]⟩, ⟨[1], [10, 11]⟩]⟩ ⟨[⟨900, [0]⟩, ⟨100, [1]⟩]⟩
      ⟨⟨[1], [10, 11]⟩, by decide, by decide⟩).mpr
      ⟨⟨[1], [10, 11]⟩, by decide, by decide, ⟨100, [1]⟩, by decide, rfl, rfl⟩⟩

/-- Claim C3.  `CMasternodeBlockPayees::GetBestPayee` returns false exactly when
there is no entry, and then leaves `payeeRet` as it was; otherwise it returns
true with the script of the first entry, in insertion order, whose vote count
is the largest of all entries. -/
theorem C3_GetBestPayee_first_maximum (blockPayees : CMasternodeBlockPayees) (payeeRet : CScript) :
    ((blockPayees.GetBestPayee payeeRet).1 = false ↔ blockPayees.vecPayees = []) ∧
    ((blockPayees.vecPayees = [] ∧ blockPayees.GetBestPayee payeeRet = (false, payeeRet)) ∨
      (∃ pre p post, blockPayees.vecPayees = pre ++ p :: post ∧
        (∀ q ∈ pre, q.GetVoteCount < p.GetVoteCount) ∧
        (∀ q ∈ post, q.GetVoteCount ≤ p.GetVoteCount) ∧
        blockPayees.GetBestPayee payeeRet = (true, p.GetPayee))) := by
  have key : (blockPayees.vecPayees = [] ∧ blockPayees.GetBestPayee payeeRet = (false, payeeRet)) ∨
      (∃ pre p post, blockPayees.vecPayees = pre ++ p :: post ∧
        (∀ q ∈ pre, q.GetVoteCount < p.GetVoteCount) ∧
        (∀ q ∈ post, q.GetVoteCount ≤ p.GetVoteCount) ∧
        blockPayees.GetBestPayee payeeRet = (true, p.GetPayee)) := by
    cases hv : blockPayees.vecPayees with
    | nil => left; simp [CMasternodeBlockPayees.GetBestPayee, hv]
    | cons a rest =>
      right
      rcases CMasternodeBlockPayees.bestPayeeLoop_spec (a :: rest) payeeRet (-1) with
        ⟨hall, _⟩ | ⟨pre, p, post, hl, hpre, hpost, hn, hres⟩
      · have h1 := hall a (List.mem_cons_self _ _)
        have h2 := CMasternodeBlockPayees.GetVoteCount_nonneg a
        omega
      · refine ⟨pre, p, post, hl, hpre, hpost, ?_⟩
        simp [CMasternodeBlockPayees.GetBestPayee, hv, hres, hn]
  refine ⟨?_, key⟩
  rcases key with ⟨hnil, hres⟩ | ⟨pre, p, post, hl, _, _, hres⟩
  · simp [hnil, hres]
  · simp [hl, hres]

/-- Witness for C3: three votes for the script `[1]` and one later vote for the
script `[2]` yield `[1]`. -/
theorem C3_GetBestPayee_first_maximum_witness :
    (((⟨7, [⟨[1], [10, 11, 12]⟩, ⟨[2], [13]⟩]⟩ : CMasternodeBlockPayees).GetBestPayee []).1 = false ↔
      (⟨7, [⟨[1], [10, 11, 12]⟩, ⟨[2], [13]⟩]⟩ : CMasternodeBlockPayees).vecPayees = []) ∧
    (⟨7, [⟨[1], [10, 11, 12]⟩, ⟨[2], [13]⟩]⟩ : CMasternodeBlockPayees).GetBestPayee [] =
      (true, [1]) :=
  ⟨(C3_GetBestPayee_first_maximum ⟨7, [⟨[1], [10, 11, 12]⟩, ⟨[2], [13]⟩]⟩ []).1, by decide⟩

/-! ## Lemmas on maps -/

section MapLemmas
variable {K V : Type} [DecidableEq K]

theorem mapCount_ne_zero_iff (m : List (K × V)) (k : K) :
    mapCount m k ≠ 0 ↔ (mapFind m k).isSome = true := by
  unfold mapCount
  split <;> simp_all

theorem mapCount_eq_zero_iff (m : List (K × V)) (k : K) :
    mapCount m k = 0 ↔ mapFind m k = none := by
  unfold mapCount
  cases h : mapFind m k <;> simp

theorem mapFind_mapErase_self (m : List (K × V)) (k : K) : mapFind (mapErase m k) k = none := by
  induction m with
  | nil => simp [mapErase, mapFind]
  | cons e rest ih =>
    obtain ⟨k', v⟩ := e
    by_cases h : k' = k
    · simpa [mapErase, h] using ih
    · simpa [mapErase, h, mapFind] using ih

theorem mapFind_mapErase_ne (m : List (K × V)) (k k2 : K) (hne : k2 ≠ k) :
    mapFind (mapErase m k) k2 = mapFind m k2 := by
  induction m with
  | nil => simp [mapErase, mapFind]
  | cons e rest ih =>
    obtain ⟨k', v⟩ := e
    by_cases h : k' = k
    · subst h
      have h2 : ¬ k' = k2 := fun h3 => hne h3.symm
      simpa [mapErase, mapFind, h2] using ih
    · by_cases h2 : k' = k2
      · subst h2
        simp [mapErase, mapFind, h]
      · simpa [mapErase, mapFind, h, h2] using ih

theorem mapFind_mapErase_of_none (m : List (K × V)) (k k2 : K) (hnone : mapFind m k2 = none) :
    mapFind (mapErase m k) k2 = none := by
  by_cases h : k2 = k
  · subst h; exact mapFind_mapErase_self m k2
  · rw [mapFind_mapErase_ne m k k2 h]; exact hnone

variable [LT K] [DecidableRel (fun a b : K => a < b)]

theorem mapFind_mapInsert_self (m : List (K × V)) (k : K) (v : V) :
    mapFind (mapInsert m k v) k = some v := by
  induction m with
  | nil => simp [mapInsert, mapFind]
  | cons e rest ih =>
    obtain ⟨k', v'⟩ := e
    unfold mapInsert
    split
    · simp [mapFind]
    · next h =>
      split
      · simp [mapFind]
      · simpa [mapFind, h] using ih

theorem mapFind_mapInsert_ne (m : List (K × V)) (k k2 : K) (v : V) (hne : k2 ≠ k) :
    mapFind (mapInsert m k v) k2 = mapFind m k2 := by
  have hne2 : ¬ k = k2 := fun h => hne h.symm
  induction m with
  | nil => simp [mapInsert, mapFind, hne2]
  | cons e rest ih =>
    obtain ⟨k', v'⟩ := e
    unfold mapInsert
    split
    · next h =>
      subst h
      simp [mapFind, hne2]
    · next h =>
      split
      · simp [mapFind, hne2]
      · by_cases h2 : k' = k2
        · simp [mapFind, h2]
        · simpa [mapFind, h2] using ih

end MapLemmas

/-! ## One vote per masternode and height -/

namespace CMasternodePayments

theorem CanVote_false_iff (self : CMasternodePayments) (outMasternode : COutPoint)
    (nBlockHeight : Int) :
    (self.CanVote outMasternode nBlockHeight).1 = false ↔
      mapFind self.mapMasternodesLastVote outMasternode = some nBlockHeight := by
  unfold CanVote
  split
  · next h => simp [h.2]
  · next h =>
    simp only [Bool.true_eq_false, false_iff]
    intro hf
    exact h ⟨(mapCount_ne_zero_iff _ _).mpr (by simp [hf]), hf⟩

theorem CanVote_records (self : CMasternodePayments) (outMasternode : COutPoint)
    (nBlockHeight : Int) :
    mapFind (self.CanVote outMasternode nBlockHeight).2.mapMasternodesLastVote outMasternode =
      some nBlockHeight := by
  unfold CanVote
  split
  · next h => exact h.2
  · exact mapFind_mapInsert_self _ _ _

theorem CanVote_keeps_record (self : CMasternodePayments) (M : COutPoint) (H : Int)
    (outMasternode : COutPoint) (nBlockHeight : Int)
    (hSame : outMasternode = M → nBlockHeight = H)
    (hRec : mapFind self.mapMasternodesLastVote M = some H) :
    mapFind (self.CanVote outMasternode nBlockHeight).2.mapMasternodesLastVote M = some H := by
  by_cases hM : outMasternode = M
  · subst hM
    rw [hSame rfl]
    exact CanVote_records self outMasternode H
  · unfold CanVote
    split
    · exact hRec
    · simp only
      rw [mapFind_mapInsert_ne _ _ _ _ (fun h => hM h.symm)]
      exact hRec

theorem CanVote_other_fields (self : CMasternodePayments) (outMasternode : COutPoint)
    (nBlockHeight : Int) :
    (self.CanVote outMasternode nBlockHeight).2.mapMasternodeBlocks = self.mapMasternodeBlocks ∧
    (self.CanVote outMasternode nBlockHeight).2.mapMasternodePaymentVotes =
      self.mapMasternodePaymentVotes ∧
    (self.CanVote outMasternode nBlockHeight).2.pCurrentBlockIndex = self.pCurrentBlockIndex := by
  unfold CanVote
  split <;> simp

theorem canVoteRun_keeps_record (M : COutPoint) (H : Int) (calls : List (COutPoint × Int)) :
    ∀ self : CMasternodePayments, (∀ c ∈ calls, c.1 = M → c.2 = H) →
      mapFind self.mapMasternodesLastVote M = some H →
      mapFind (self.canVoteRun calls).2.mapMasternodesLastVote M = some H := by
  induction calls with
  | nil => intro self _ hRec; simpa [canVoteRun] using hRec
  | cons c rest ih =>
    intro self hCalls hRec
    obtain ⟨o, h⟩ := c
    simp only [canVoteRun]
    apply ih
    · intro c hc; exact hCalls c (List.mem_cons_of_mem _ hc)
    · exact CanVote_keeps_record self M H o h (hCalls (o, h) (List.mem_cons_self _ _)) hRec

end CMasternodePayments

/-- Counterexample to C5: on the empty registry the masternode `(1, 0)` asks for
height 5, then for height 6, then for height 5 again; all three calls of
`CanVote` return true, so `CanVote(M, 5)` returned true twice. -/
theorem C5_CanVote_twice_counterexample :
    ((⟨[], [], [], none⟩ : CMasternodePayments).canVoteRun
      [(⟨1, 0⟩, 5), (⟨1, 0⟩, 6), (⟨1, 0⟩, 5)]).1 = [true, true, true] := by
  decide

/-- Claim C5, amended.  `CanVote(M, H)` returns false exactly when the height last
recorded for `M` is `H`; so after a call for `M` at `H`, a later call for `M` at
`H` is rejected whenever no call for `M` at another height came in between
(calls for other masternodes may). -/
theorem C5_CanVote_rejects_last_height (self : CMasternodePayments) (M : COutPoint) (H : Int)
    (calls : List (COutPoint × Int)) (hNoOther : ∀ c ∈ calls, c.1 = M → c.2 = H) :
    ((self.CanVote M H).1 = false ↔ mapFind self.mapMasternodesLastVote M = some H) ∧
    (((self.CanVote M H).2.canVoteRun calls).2.CanVote M H).1 = false :=
  ⟨CMasternodePayments.CanVote_false_iff self M H,
    (CMasternodePayments.CanVote_false_iff _ M H).mpr
      (CMasternodePayments.canVoteRun_keeps_record M H calls _ hNoOther
        (CMasternodePayments.CanVote_records self M H))⟩

/-- Witness for the amended C5: after `(1, 0)` voted at height 5, calls for
`(2, 0)` at heights 5 and 6 and a repeated call for `(1, 0)` at 5 come in, and
the next call for `(1, 0)` at 5 is rejected. -/
theorem C5_CanVote_rejects_last_height_witness :
    ((((⟨[], [], [], none⟩ : CMasternodePayments).CanVote ⟨1, 0⟩ 5).2.canVoteRun
      [(⟨2, 0⟩, 5), (⟨2, 0⟩, 6), (⟨1, 0⟩, 5)]).2.CanVote ⟨1, 0⟩ 5).1 = false :=
  (C5_CanVote_rejects_last_height ⟨[], [], [], none⟩ ⟨1, 0⟩ 5
    [(⟨2, 0⟩, 5), (⟨2, 0⟩, 6), (⟨1, 0⟩, 5)] (by decide)).2

/-! ## Lemmas on vote handling -/

namespace CMasternodePayments

theorem AddPaymentVote_false (env : Env) (self : CMasternodePayments)
    (vote : CMasternodePaymentVote) (h : (self.AddPaymentVote env vote).1 = false) :
    (self.AddPaymentVote env vote).2 = self := by
  unfold AddPaymentVote at h ⊢
  split
  · rfl
  · split
    · rfl
    · next hb hv => simp [hb, hv] at h

theorem AddPaymentVote_lastVote (env : Env) (self : CMasternodePayments)
    (vote : CMasternodePaymentVote) :
    (self.AddPaymentVote env vote).2.mapMasternodesLastVote = self.mapMasternodesLastVote := by
  unfold AddPaymentVote
  split
  · rfl
  · split <;> rfl

theorem CanVote_false_registry (self : CMasternodePayments) (outMasternode : COutPoint)
    (nBlockHeight : Int) (h : (self.CanVote outMasternode nBlockHeight).1 = false) :
    (self.CanVote outMasternode nBlockHeight).2 = self := by
  unfold CanVote at h ⊢
  split
  · rfl
  · next hc => simp [hc] at h

/-- The ways out of the vote branch, with the registry each one leaves. -/
theorem processVote_cases (env : Env) (self : CMasternodePayments) (pfrom : CNode)
    (vote : CMasternodePaymentVote) :
    (((processVote env self pfrom vote).outcome = Handled.peerTooOld ∨
        (processVote env self pfrom vote).outcome = Handled.noTip ∨
        (processVote env self pfrom vote).outcome = Handled.seen) ∧
      (processVote env self pfrom vote).registry = self) ∨
    (((processVote env self pfrom vote).outcome = Handled.outOfRange ∨
        (processVote env self pfrom vote).outcome = Handled.invalid) ∧
      (processVote env self pfrom vote).registry = self.storeUnverified env vote) ∨
    ((processVote env self pfrom vote).outcome = Handled.alreadyVoted ∧
      (processVote env self pfrom vote).registry = self.storeUnverified env vote ∧
      ((self.storeUnverified env vote).CanVote vote.vinMasternode vote.nBlockHeight).1 = false) ∨
    (((processVote env self pfrom vote).outcome = Handled.masternodeMissing ∨
        (processVote env self pfrom vote).outcome = Handled.badSignature ∨
        (processVote env self pfrom vote).outcome = Handled.notAdded) ∧
      (processVote env self pfrom vote).registry =
        ((self.storeUnverified env vote).CanVote vote.vinMasternode vote.nBlockHeight).2 ∧
      ((self.storeUnverified env vote).CanVote vote.vinMasternode vote.nBlockHeight).1 = true) ∨
    ((processVote env self pfrom vote).outcome = Handled.added ∧
      (processVote env self pfrom vote).registry =
        (((self.storeUnverified env vote).CanVote vote.vinMasternode
          vote.nBlockHeight).2.AddPaymentVote env vote).2 ∧
      (((self.storeUnverified env vote).CanVote vote.vinMasternode
          vote.nBlockHeight).2.AddPaymentVote env vote).1 = true ∧
      ((self.storeUnverified env vote).CanVote vote.vinMasternode vote.nBlockHeight).1 = true) := by
  by_cases h1 : pfrom.nVersion < GetMinMasternodePaymentsProto env
  · left; simp [processVote, h1]
  cases hTip : self.pCurrentBlockIndex with
  | none => left; simp [processVote, h1, hTip]
  | some pindex =>
    by_cases h2 : mapCount self.mapMasternodePaymentVotes (vote.GetHash env.hashOf) ≠ 0
    · left; simp [processVote, h1, hTip, h2]
    by_cases h3 : vote.nBlockHeight < pindex.nHeight - GetStorageLimit env ∨
        vote.nBlockHeight > pindex.nHeight + 20
    · right; left; simp [processVote, h1, hTip, h2, h3]
    by_cases h4 : (vote.IsValid env pfrom pindex.nHeight).1 = true
    swap
    · right; left; simp [processVote, h1, hTip, h2, h3, h4]
    by_cases h5 : ((self.storeUnverified env vote).CanVote vote.vinMasternode
        vote.nBlockHeight).1 = true
    swap
    · right; right; left
      have h5f : ((self.storeUnverified env vote).CanVote vote.vinMasternode
          vote.nBlockHeight).1 = false := by simpa using h5
      simp [processVote, h1, hTip, h2, h3, h4, h5f, CanVote_false_registry _ _ _ h5f]
    right; right; right
    cases h6 : env.GetMasternodeInfo vote.vinMasternode with
    | none => left; simp [processVote, h1, hTip, h2, h3, h4, h5, h6]
    | some pubKeyMasternode =>
      by_cases h7 : (vote.CheckSignature env pubKeyMasternode pindex.nHeight).1 = true
      swap
      · left; simp [processVote, h1, hTip, h2, h3, h4, h5, h6, h7]
      by_cases h8 : (((self.storeUnverified env vote).CanVote vote.vinMasternode
          vote.nBlockHeight).2.AddPaymentVote env vote).1 = true
      · right; simp [processVote, h1, hTip, h2, h3, h4, h5, h6, h7, h8]
      · left
        have h8f : (((self.storeUnverified env vote).CanVote vote.vinMasternode
          vote.nBlockHeight).2.AddPaymentVote env vote).1 = false := by simpa using h8
        simp [processVote, h1, hTip, h2, h3, h4, h5, h6, h7, h8f,
          AddPaymentVote_false _ _ _ h8f]

theorem storeUnverified_fields (env : Env) (self : CMasternodePayments)
    (vote : CMasternodePaymentVote) :
    (self.storeUnverified env vote).mapMasternodeBlocks = self.mapMasternodeBlocks ∧
    (self.storeUnverified env vote).mapMasternodesLastVote = self.mapMasternodesLastVote ∧
    (self.storeUnverified env vote).pCurrentBlockIndex = self.pCurrentBlockIndex := by
  simp [storeUnverified]

/-- With a tip in place, the vote branch returns at the range check exactly when
the peer version check and the seen-hash check passed and the height is out of
range. -/
theorem processVote_outOfRange_iff (env : Env) (self : CMasternodePayments) (pfrom : CNode)
    (vote : CMasternodePaymentVote) (pindex : CBlockIndex)
    (hTip : self.pCurrentBlockIndex = some pindex) :
    (processVote env self pfrom vote).outcome = Handled.outOfRange ↔
      (¬ pfrom.nVersion < GetMinMasternodePaymentsProto env ∧
        mapCount self.mapMasternodePaymentVotes (vote.GetHash env.hashOf) = 0 ∧
        (vote.nBlockHeight < pindex.nHeight - GetStorageLimit env ∨
          vote.nBlockHeight > pindex.nHeight + 20)) := by
  by_cases h1 : pfrom.nVersion < GetMinMasternodePaymentsProto env
  · simp [processVote, h1]
  by_cases h2 : mapCount self.mapMasternodePaymentVotes (vote.GetHash env.hashOf) ≠ 0
  · simp [processVote, h1, hTip, h2]
  by_cases h3 : vote.nBlockHeight < pindex.nHeight - GetStorageLimit env ∨
      vote.nBlockHeight > pindex.nHeight + 20
  · have h2e : mapCount self.mapMasternodePaymentVotes (vote.GetHash env.hashOf) = 0 := by
      simpa using h2
    simp only [processVote, h1, hTip, h2, h3, if_true, if_false, not_false_eq_true, true_and]
    simp [h2e]
  have hne : (processVote env self pfrom vote).outcome ≠ Handled.outOfRange := by
    by_cases h4 : (vote.IsValid env pfrom pindex.nHeight).1 = true
    swap
    · simp [processVote, h1, hTip, h2, h3, h4]
    by_cases h5 : ((self.storeUnverified env vote).CanVote vote.vinMasternode
        vote.nBlockHeight).1 = true
    swap
    · simp [processVote, h1, hTip, h2, h3, h4, h5]
    cases h6 : env.GetMasternodeInfo vote.vinMasternode with
    | none => simp [processVote, h1, hTip, h2, h3, h4, h5, h6]
    | some pubKeyMasternode =>
      by_cases h7 : (vote.CheckSignature env pubKeyMasternode pindex.nHeight).1 = true
      swap
      · simp [processVote, h1, hTip, h2, h3, h4, h5, h6, h7]
      by_cases h8 : (((self.storeUnverified env vote).CanVote vote.vinMasternode
          vote.nBlockHeight).2.AddPaymentVote env vote).1 = true
      · simp [processVote, h1, hTip, h2, h3, h4, h5, h6, h7, h8]
      · simp [processVote, h1, hTip, h2, h3, h4, h5, h6, h7, h8]
  constructor
  · intro h; exact absurd h hne
  · rintro ⟨_, _, h⟩; exact absurd h h3

theorem ProcessMessage_vote (env : Env) (self : CMasternodePayments) (pfrom : CNode)
    (vote : CMasternodePaymentVote) :
    ProcessMessage env self pfrom (NetMsg.MASTERNODEPAYMENTVOTE vote) =
      (if !env.IsMasternodeListSynced then ⟨self, [], Handled.listNotSynced⟩
       else if env.fLiteMode then ⟨self, [], Handled.liteMode⟩
       else processVote env self pfrom vote) := by
  unfold ProcessMessage
  split
  · rfl
  · split <;> rfl

end CMasternodePayments

/-! ## Claims on vote admission -/

/-- Claim C4.  For a vote that reaches the range check of `ProcessMessage` (list
synced, not in lite mode, peer recent enough, a tip of height `T`, hash not yet
seen), the handler returns at the range check exactly when the height is not
within `T - L .. T + 20`, `L` being the storage limit; it then has only stored
the unverified copy of the vote and has run no validation. -/
theorem C4_vote_range_check (env : Env) (self : CMasternodePayments) (pfrom : CNode)
    (vote : CMasternodePaymentVote) (pindex : CBlockIndex)
    (hSynced : env.IsMasternodeListSynced = true) (hLite : env.fLiteMode = false)
    (hVersion : ¬ pfrom.nVersion < CMasternodePayments.GetMinMasternodePaymentsProto env)
    (hTip : self.pCurrentBlockIndex = some pindex)
    (hNew : mapCount self.mapMasternodePaymentVotes (vote.GetHash env.hashOf) = 0) :
    ((CMasternodePayments.ProcessMessage env self pfrom
        (NetMsg.MASTERNODEPAYMENTVOTE vote)).outcome ≠ Handled.outOfRange ↔
      (pindex.nHeight - CMasternodePayments.GetStorageLimit env ≤ vote.nBlockHeight ∧
        vote.nBlockHeight ≤ pindex.nHeight + 20)) ∧
    ((CMasternodePayments.ProcessMessage env self pfrom
        (NetMsg.MASTERNODEPAYMENTVOTE vote)).outcome = Handled.outOfRange →
      CMasternodePayments.ProcessMessage env self pfrom (NetMsg.MASTERNODEPAYMENTVOTE vote) =
        ⟨self.storeUnverified env vote,
          [Effect.EraseAskFor pfrom.id (vote.GetHash env.hashOf)], Handled.outOfRange⟩) := by
  have hPM : CMasternodePayments.ProcessMessage env self pfrom (NetMsg.MASTERNODEPAYMENTVOTE vote) =
      CMasternodePayments.processVote env self pfrom vote := by
    rw [CMasternodePayments.ProcessMessage_vote]; simp [hSynced, hLite]
  rw [hPM]
  have hiff := CMasternodePayments.processVote_outOfRange_iff env self pfrom vote pindex hTip
  constructor
  · rw [Ne, hiff]
    constructor
    · intro h
      by_contra hc
      apply h
      refine ⟨hVersion, hNew, ?_⟩
      by_contra hc2
      apply hc
      push_neg at hc2
      exact ⟨hc2.1, hc2.2⟩
    · rintro ⟨ha, hb⟩ ⟨_, _, hc⟩
      rcases hc with hc | hc <;> omega
  · intro hout
    obtain ⟨_, _, h3⟩ := hiff.mp hout
    simp [CMasternodePayments.processVote, hVersion, hTip, hNew, h3]

/-- Witness for C4: tip 1000 and storage limit 50; a vote for height 950 passes the
range check and a vote for height 949 is dropped there. -/
theorem C4_vote_range_check_witness :
    CMasternodePayments.GetStorageLimit demoEnv = 50 ∧
    (CMasternodePayments.ProcessMessage demoEnv demoRegistry demoPeer
      (NetMsg.MASTERNODEPAYMENTVOTE (demoVote 1 950 [1]))).outcome ≠ Handled.outOfRange ∧
    (CMasternodePayments.ProcessMessage demoEnv demoRegistry demoPeer
      (NetMsg.MASTERNODEPAYMENTVOTE (demoVote 1 949 [1]))).outcome = Handled.outOfRange :=
  ⟨by decide,
    (C4_vote_range_check demoEnv demoRegistry demoPeer (demoVote 1 950 [1]) ⟨1000, 77, []⟩
      rfl rfl (by decide) rfl (by decide)).1.mpr ⟨by decide, by decide⟩,
    not_not.mp (mt (C4_vote_range_check demoEnv demoRegistry demoPeer (demoVote 1 949 [1])
      ⟨1000, 77, []⟩ rfl rfl (by decide) rfl (by decide)).1.mp (by decide))⟩

/-! ## Lemmas for repeated votes -/

namespace CMasternodePayments

/-- A message that is not a vote of `M` for another height keeps the record
"`M` last voted at `H`". -/
theorem ProcessMessage_keeps_record (env : Env) (self : CMasternodePayments) (pfrom : CNode)
    (msg : NetMsg) (M : COutPoint) (H : Int)
    (hMsg : ∀ v, msg = NetMsg.MASTERNODEPAYMENTVOTE v → v.vinMasternode = M → v.nBlockHeight = H)
    (hRec : mapFind self.mapMasternodesLastVote M = some H) :
    mapFind (ProcessMessage env self pfrom msg).registry.mapMasternodesLastVote M = some H := by
  cases msg with
  | MASTERNODEPAYMENTSYNC n =>
    unfold ProcessMessage
    split
    · exact hRec
    · split
      · exact hRec
      · simp only
        split
        · exact hRec
        · split <;> exact hRec
  | other =>
    unfold ProcessMessage
    split
    · exact hRec
    · split <;> exact hRec
  | MASTERNODEPAYMENTVOTE vote =>
    rw [ProcessMessage_vote]
    split
    · exact hRec
    · split
      · exact hRec
      · have hs1 : mapFind (self.storeUnverified env vote).mapMasternodesLastVote M = some H := by
          rw [(storeUnverified_fields env self vote).2.1]; exact hRec
        have hs2 : mapFind ((self.storeUnverified env vote).CanVote vote.vinMasternode
            vote.nBlockHeight).2.mapMasternodesLastVote M = some H :=
          CanVote_keeps_record _ M H _ _ (hMsg vote rfl) hs1
        rcases processVote_cases env self pfrom vote with
          ⟨_, hr⟩ | ⟨_, hr⟩ | ⟨_, hr, _⟩ | ⟨_, hr, _⟩ | ⟨_, hr, _⟩
        · rw [hr]; exact hRec
        · rw [hr]; exact hs1
        · rw [hr]; exact hs1
        · rw [hr]; exact hs2
        · rw [hr, AddPaymentVote_lastVote]; exact hs2

/-- An operation that is not a vote message of `M` for another height keeps the
record "`M` last voted at `H`". -/
theorem applyOp_keeps_record (self : CMasternodePayments) (op : RegistryOp) (M : COutPoint)
    (H : Int)
    (hOp : ∀ env pfrom v, op = RegistryOp.message env pfrom (NetMsg.MASTERNODEPAYMENTVOTE v) →
      v.vinMasternode = M → v.nBlockHeight = H)
    (hRec : mapFind self.mapMasternodesLastVote M = some H) :
    mapFind (self.applyOp op).mapMasternodesLastVote M = some H := by
  cases op with
  | message env pfrom msg =>
    exact ProcessMessage_keeps_record env self pfrom msg M H
      (fun v hv => hOp env pfrom v (by rw [hv])) hRec
  | addPaymentVote env vote =>
    simp only [applyOp]
    rw [AddPaymentVote_lastVote]; exact hRec
  | checkAndRemove env =>
    simp only [applyOp, CheckAndRemove]
    split <;> exact hRec
  | clear => exact hRec
  | setTip pindex => exact hRec

theorem applyOps_keeps_record (M : COutPoint) (H : Int) (ops : List RegistryOp) :
    ∀ self : CMasternodePayments,
      (∀ op ∈ ops, ∀ env pfrom v,
        op = RegistryOp.message env pfrom (NetMsg.MASTERNODEPAYMENTVOTE v) →
        v.vinMasternode = M → v.nBlockHeight = H) →
      mapFind self.mapMasternodesLastVote M = some H →
      mapFind (self.applyOps ops).mapMasternodesLastVote M = some H := by
  induction ops with
  | nil => intro self _ hRec; simpa [applyOps] using hRec
  | cons op rest ih =>
    intro self hOps hRec
    simp only [applyOps]
    apply ih
    · intro y hy; exact hOps y (List.mem_cons_of_mem _ hy)
    · exact applyOp_keeps_record self op M H (hOps op (List.mem_cons_self _ _)) hRec

/-- An added vote leaves the record "its masternode last voted at its height". -/
theorem ProcessMessage_added_record (env : Env) (self : CMasternodePayments) (pfrom : CNode)
    (vote : CMasternodePaymentVote)
    (hAdded : (ProcessMessage env self pfrom (NetMsg.MASTERNODEPAYMENTVOTE vote)).outcome =
      Handled.added) :
    mapFind (ProcessMessage env self pfrom
      (NetMsg.MASTERNODEPAYMENTVOTE vote)).registry.mapMasternodesLastVote vote.vinMasternode =
        some vote.nBlockHeight := by
  rw [ProcessMessage_vote] at hAdded ⊢
  split at hAdded
  · simp at hAdded
  · split at hAdded
    · simp at hAdded
    · next h1 h2 =>
      rw [if_neg h1, if_neg h2]
      rcases processVote_cases env self pfrom vote with
        ⟨ho, _⟩ | ⟨ho, _⟩ | ⟨ho, _⟩ | ⟨ho, _⟩ | ⟨_, hr, _⟩
      · rw [hAdded] at ho; simp at ho
      · rw [hAdded] at ho; simp at ho
      · rw [hAdded] at ho; simp at ho
      · rw [hAdded] at ho; simp at ho
      · rw [hr, AddPaymentVote_lastVote]
        exact CanVote_records _ _ _

/-- A vote whose masternode is on record for the vote's height does not get past
the `CanVote` check, and no tally changes. -/
theorem ProcessMessage_recorded_vote (env : Env) (self : CMasternodePayments) (pfrom : CNode)
    (vote : CMasternodePaymentVote)
    (hRec : mapFind self.mapMasternodesLastVote vote.vinMasternode = some vote.nBlockHeight) :
    (ProcessMessage env self pfrom (NetMsg.MASTERNODEPAYMENTVOTE vote)).outcome ∈
      [Handled.listNotSynced, Handled.liteMode, Handled.peerTooOld, Handled.noTip, Handled.seen,
        Handled.outOfRange, Handled.invalid, Handled.alreadyVoted] ∧
    (ProcessMessage env self pfrom (NetMsg.MASTERNODEPAYMENTVOTE vote)).registry.mapMasternodeBlocks =
      self.mapMasternodeBlocks := by
  have hcv : ((self.storeUnverified env vote).CanVote vote.vinMasternode vote.nBlockHeight).1 =
      false := by
    rw [CanVote_false_iff, (storeUnverified_fields env self vote).2.1]; exact hRec
  rw [ProcessMessage_vote]
  split
  · simp
  · split
    · simp
    · rcases processVote_cases env self pfrom vote with
        ⟨ho, hr⟩ | ⟨ho, hr⟩ | ⟨ho, hr, _⟩ | ⟨_, _, hc⟩ | ⟨_, _, _, hc⟩
      · rw [hr]; rcases ho with ho | ho | ho <;> simp [ho]
      · rw [hr, (storeUnverified_fields env self vote).1]
        rcases ho with ho | ho <;> simp [ho]
      · rw [hr, (storeUnverified_fields env self vote).1]; simp [ho]
      · rw [hcv] at hc; simp at hc
      · rw [hcv] at hc; simp at hc

/-- A vote that passes every check before `CanVote` while its masternode is on
record for the vote's height returns at the `CanVote` check. -/
theorem ProcessMessage_recorded_vote_checked (env : Env) (self : CMasternodePayments)
    (pfrom : CNode) (vote : CMasternodePaymentVote) (pindex : CBlockIndex)
    (hRec : mapFind self.mapMasternodesLastVote vote.vinMasternode = some vote.nBlockHeight)
    (hSynced : env.IsMasternodeListSynced = true) (hLite : env.fLiteMode = false)
    (hVersion : ¬ pfrom.nVersion < GetMinMasternodePaymentsProto env)
    (hTip : self.pCurrentBlockIndex = some pindex)
    (hNew : mapCount self.mapMasternodePaymentVotes (vote.GetHash env.hashOf) = 0)
    (hLow : pindex.nHeight - GetStorageLimit env ≤ vote.nBlockHeight)
    (hHigh : vote.nBlockHeight ≤ pindex.nHeight + 20)
    (hValid : (vote.IsValid env pfrom pindex.nHeight).1 = true) :
    (ProcessMessage env self pfrom (NetMsg.MASTERNODEPAYMENTVOTE vote)).outcome =
      Handled.alreadyVoted := by
  have hcv : ((self.storeUnverified env vote).CanVote vote.vinMasternode vote.nBlockHeight).1 =
      false := by
    rw [CanVote_false_iff, (storeUnverified_fields env self vote).2.1]; exact hRec
  have h3 : ¬ (vote.nBlockHeight < pindex.nHeight - GetStorageLimit env ∨
      vote.nBlockHeight > pindex.nHeight + 20) := by
    rintro (h | h) <;> omega
  rw [ProcessMessage_vote]
  simp [hSynced, hLite, processVote, hVersion, hTip, hNew, h3, hValid, hcv]

end CMasternodePayments

namespace CMasternodePayments

theorem AddPaymentVote_true_find (env : Env) (self : CMasternodePayments)
    (vote : CMasternodePaymentVote) (h : (self.AddPaymentVote env vote).1 = true) :
    mapFind (self.AddPaymentVote env vote).2.mapMasternodePaymentVotes (vote.GetHash env.hashOf) =
      some vote := by
  unfold AddPaymentVote at h ⊢
  split
  · next hb => simp [hb] at h
  · next hb =>
    split
    · next hv => simp [hb, hv] at h
    · exact mapFind_mapInsert_self _ _ _

/-- A hash stored with a verified vote is refused by `AddPaymentVote`. -/
theorem AddPaymentVote_verified_hash (env : Env) (self : CMasternodePayments)
    (vote : CMasternodePaymentVote)
    (h : self.HasVerifiedPaymentVote (vote.GetHash env.hashOf) = true) :
    self.AddPaymentVote env vote = (false, self) := by
  unfold AddPaymentVote
  split
  · rfl
  · simp [h]

/-- A hash that is a key of the vote map is dropped by the vote branch at the
latest at the seen-hash check. -/
theorem ProcessMessage_seen_hash (env : Env) (self : CMasternodePayments) (pfrom : CNode)
    (vote : CMasternodePaymentVote)
    (h : mapCount self.mapMasternodePaymentVotes (vote.GetHash env.hashOf) ≠ 0) :
    (ProcessMessage env self pfrom (NetMsg.MASTERNODEPAYMENTVOTE vote)).registry = self ∧
    (ProcessMessage env self pfrom (NetMsg.MASTERNODEPAYMENTVOTE vote)).outcome ∈
      [Handled.listNotSynced, Handled.liteMode, Handled.peerTooOld, Handled.noTip,
        Handled.seen] := by
  rw [ProcessMessage_vote]
  split
  · simp
  · split
    · simp
    · by_cases h1 : pfrom.nVersion < GetMinMasternodePaymentsProto env
      · simp [processVote, h1]
      · cases hTip : self.pCurrentBlockIndex with
        | none => simp [processVote, h1, hTip]
        | some pindex => simp [processVote, h1, hTip, h]

end CMasternodePayments

/-- Claim C6.  After a vote of masternode `M` for height `H` has been added, and
after any further registry operations none of which is a vote message of `M`
(messages of others, own votes, pruning, clearing, new tips), a vote message of
the same `M` for the same `H` (whatever payee it names) never gets past the
`CanVote` check, returns exactly there when it passes the checks before it, and
leaves every tally, so every vote count, as it was. -/
theorem C6_second_vote_same_height_rejected
    (env1 : Env) (s0 : CMasternodePayments) (peer1 : CNode) (v1 : CMasternodePaymentVote)
    (between : List RegistryOp)
    (env2 : Env) (peer2 : CNode) (v2 : CMasternodePaymentVote)
    (hAdded : (CMasternodePayments.ProcessMessage env1 s0 peer1
      (NetMsg.MASTERNODEPAYMENTVOTE v1)).outcome = Handled.added)
    (hBetween : ∀ op ∈ between, ∀ env pfrom v,
      op = RegistryOp.message env pfrom (NetMsg.MASTERNODEPAYMENTVOTE v) →
      v.vinMasternode ≠ v1.vinMasternode)
    (hM : v2.vinMasternode = v1.vinMasternode) (hH : v2.nBlockHeight = v1.nBlockHeight) :
    (CMasternodePayments.ProcessMessage env2
        ((CMasternodePayments.ProcessMessage env1 s0 peer1
          (NetMsg.MASTERNODEPAYMENTVOTE v1)).registry.applyOps between) peer2
        (NetMsg.MASTERNODEPAYMENTVOTE v2)).outcome ∈
      [Handled.listNotSynced, Handled.liteMode, Handled.peerTooOld, Handled.noTip, Handled.seen,
        Handled.outOfRange, Handled.invalid, Handled.alreadyVoted] ∧
    (CMasternodePayments.ProcessMessage env2
        ((CMasternodePayments.ProcessMessage env1 s0 peer1
          (NetMsg.MASTERNODEPAYMENTVOTE v1)).registry.applyOps between) peer2
        (NetMsg.MASTERNODEPAYMENTVOTE v2)).registry.mapMasternodeBlocks =
      ((CMasternodePayments.ProcessMessage env1 s0 peer1
          (NetMsg.MASTERNODEPAYMENTVOTE v1)).registry.applyOps between).mapMasternodeBlocks ∧
    (∀ pindex : CBlockIndex,
      env2.IsMasternodeListSynced = true → env2.fLiteMode = false →
      ¬ peer2.nVersion < CMasternodePayments.GetMinMasternodePaymentsProto env2 →
      ((CMasternodePayments.ProcessMessage env1 s0 peer1
          (NetMsg.MASTERNODEPAYMENTVOTE v1)).registry.applyOps between).pCurrentBlockIndex =
        some pindex →
      mapCount ((CMasternodePayments.ProcessMessage env1 s0 peer1
          (NetMsg.MASTERNODEPAYMENTVOTE v1)).registry.applyOps between).mapMasternodePaymentVotes
        (v2.GetHash env2.hashOf) = 0 →
      pindex.nHeight - CMasternodePayments.GetStorageLimit env2 ≤ v2.nBlockHeight →
      v2.nBlockHeight ≤ pindex.nHeight + 20 →
      (v2.IsValid env2 peer2 pindex.nHeight).1 = true →
      (CMasternodePayments.ProcessMessage env2
        ((CMasternodePayments.ProcessMessage env1 s0 peer1
          (NetMsg.MASTERNODEPAYMENTVOTE v1)).registry.applyOps between) peer2
        (NetMsg.MASTERNODEPAYMENTVOTE v2)).outcome = Handled.alreadyVoted) := by
  have hRec : mapFind ((CMasternodePayments.ProcessMessage env1 s0 peer1
      (NetMsg.MASTERNODEPAYMENTVOTE v1)).registry.applyOps between).mapMasternodesLastVote
      v2.vinMasternode = some v2.nBlockHeight := by
    rw [hM, hH]
    apply CMasternodePayments.applyOps_keeps_record
    · intro op hop env pfrom v hv hvin
      exact absurd hvin (hBetween op hop env pfrom v hv)
    · exact CMasternodePayments.ProcessMessage_added_record env1 s0 peer1 v1 hAdded
  refine ⟨(CMasternodePayments.ProcessMessage_recorded_vote env2 _ peer2 v2 hRec).1,
    (CMasternodePayments.ProcessMessage_recorded_vote env2 _ peer2 v2 hRec).2, ?_⟩
  intro pindex hSynced hLite hVersion hTip hNew hLow hHigh hValid
  exact CMasternodePayments.ProcessMessage_recorded_vote_checked env2 _ peer2 v2 pindex hRec
    hSynced hLite hVersion hTip hNew hLow hHigh hValid

/-- Witness for C6: tip 1000; masternode `(1, 0)` votes for script `[1]` at height
1005 and is added, masternode `(2, 0)` votes for `[2]`, the tip moves to 1001
and the registry is pruned, then `(1, 0)` votes for `[3]` at 1005: that vote returns at the `CanVote` check and the tally of 1005
still shows one vote for `[1]` and one for `[2]`. -/
theorem C6_second_vote_same_height_rejected_witness :
    (CMasternodePayments.ProcessMessage demoEnv demoRegistry demoPeer
      (NetMsg.MASTERNODEPAYMENTVOTE (demoVote 1 1005 [1]))).outcome = Handled.added ∧
    (CMasternodePayments.ProcessMessage demoEnv
        ((CMasternodePayments.ProcessMessage demoEnv demoRegistry demoPeer
          (NetMsg.MASTERNODEPAYMENTVOTE (demoVote 1 1005 [1]))).registry.applyOps
          [RegistryOp.message demoEnv demoPeer (NetMsg.MASTERNODEPAYMENTVOTE (demoVote 2 1005 [2])),
            RegistryOp.setTip ⟨1001, 78, [(1000, 77)]⟩, RegistryOp.checkAndRemove demoEnv])
        demoPeer
        (NetMsg.MASTERNODEPAYMENTVOTE (demoVote 1 1005 [3]))).outcome = Handled.alreadyVoted ∧
    (CMasternodePayments.ProcessMessage demoEnv
        ((CMasternodePayments.ProcessMessage demoEnv demoRegistry demoPeer
          (NetMsg.MASTERNODEPAYMENTVOTE (demoVote 1 1005 [1]))).registry.applyOps
          [RegistryOp.message demoEnv demoPeer (NetMsg.MASTERNODEPAYMENTVOTE (demoVote 2 1005 [2])),
            RegistryOp.setTip ⟨1001, 78, [(1000, 77)]⟩, RegistryOp.checkAndRemove demoEnv])
        demoPeer
        (NetMsg.MASTERNODEPAYMENTVOTE (demoVote 1 1005 [3]))).registry.mapMasternodeBlocks =
      [(1005, ⟨1005, [⟨[1], [2005001]⟩, ⟨[2], [3005002]⟩]⟩)] :=
  ⟨by decide,
    (C6_second_vote_same_height_rejected demoEnv demoRegistry demoPeer (demoVote 1 1005 [1])
      [RegistryOp.message demoEnv demoPeer (NetMsg.MASTERNODEPAYMENTVOTE (demoVote 2 1005 [2])),
        RegistryOp.setTip ⟨1001, 78, [(1000, 77)]⟩, RegistryOp.checkAndRemove demoEnv]
      demoEnv demoPeer (demoVote 1 1005 [3]) (by decide) (by simp [demoVote]) rfl rfl).2.2
      ⟨1001, 78, [(1000, 77)]⟩ rfl rfl (by decide) (by decide) (by decide) (by decide) (by decide)
      (by decide),
    by decide⟩

/-- Claim C7.  Once `AddPaymentVote` has returned true for a verified vote, a
second `AddPaymentVote` with the same hash returns false and a peer delivery of
that hash through `ProcessMessage` is dropped no later than at the seen-hash
check; both leave the registry, so every vote count, exactly as it was. -/
theorem C7_same_hash_not_counted_twice (env env2 : Env) (self : CMasternodePayments)
    (vote vote2 : CMasternodePaymentVote) (pfrom : CNode)
    (hAdded : (self.AddPaymentVote env vote).1 = true)
    (hVerified : vote.IsVerified = true)
    (hHash : vote2.GetHash env2.hashOf = vote.GetHash env.hashOf) :
    (self.AddPaymentVote env vote).2.AddPaymentVote env2 vote2 =
      (false, (self.AddPaymentVote env vote).2) ∧
    (CMasternodePayments.ProcessMessage env2 (self.AddPaymentVote env vote).2 pfrom
      (NetMsg.MASTERNODEPAYMENTVOTE vote2)).registry = (self.AddPaymentVote env vote).2 ∧
    (CMasternodePayments.ProcessMessage env2 (self.AddPaymentVote env vote).2 pfrom
      (NetMsg.MASTERNODEPAYMENTVOTE vote2)).outcome ∈
      [Handled.listNotSynced, Handled.liteMode, Handled.peerTooOld, Handled.noTip,
        Handled.seen] := by
  have hfind : mapFind (self.AddPaymentVote env vote).2.mapMasternodePaymentVotes
      (vote2.GetHash env2.hashOf) = some vote := by
    rw [hHash]; exact CMasternodePayments.AddPaymentVote_true_find env self vote hAdded
  have hver : (self.AddPaymentVote env vote).2.HasVerifiedPaymentVote
      (vote2.GetHash env2.hashOf) = true := by
    unfold CMasternodePayments.HasVerifiedPaymentVote
    rw [hfind]; exact hVerified
  have hcount : mapCount (self.AddPaymentVote env vote).2.mapMasternodePaymentVotes
      (vote2.GetHash env2.hashOf) ≠ 0 := by
    rw [mapCount_ne_zero_iff, hfind]; rfl
  exact ⟨CMasternodePayments.AddPaymentVote_verified_hash env2 _ vote2 hver,
    CMasternodePayments.ProcessMessage_seen_hash env2 _ pfrom vote2 hcount⟩

/-- Witness for C7: the verified vote of `(1, 0)` for `[1]` at height 1005 is
added to the sample registry; adding it again returns false, a peer delivery
with another signature (same hash) ends at the seen-hash check, and the tally
still holds the single hash. -/
theorem C7_same_hash_not_counted_twice_witness :
    (demoRegistry.AddPaymentVote demoEnv (demoVote 1 1005 [1])).1 = true ∧
    ((demoRegistry.AddPaymentVote demoEnv (demoVote 1 1005 [1])).2.AddPaymentVote demoEnv
      (demoVote 1 1005 [1])).1 = false ∧
    (CMasternodePayments.ProcessMessage demoEnv
      (demoRegistry.AddPaymentVote demoEnv (demoVote 1 1005 [1])).2 demoPeer
      (NetMsg.MASTERNODEPAYMENTVOTE ⟨⟨1, 0⟩, 1005, [1], [2, 2], true⟩)).registry.mapMasternodeBlocks =
      [(1005, ⟨1005, [⟨[1], [2005001]⟩]⟩)] :=
  ⟨by decide,
    by
      rw [(C7_same_hash_not_counted_twice demoEnv demoEnv demoRegistry (demoVote 1 1005 [1])
        (demoVote 1 1005 [1]) demoPeer (by decide) rfl rfl).1],
    by
      rw [(C7_same_hash_not_counted_twice demoEnv demoEnv demoRegistry (demoVote 1 1005 [1])
        ⟨⟨1, 0⟩, 1005, [1], [2, 2], true⟩ demoPeer (by decide) rfl rfl).2.1]
      decide⟩

/-! ## Lemmas on pruning -/

theorem wrapInt32_le (x : Int) (h : -2147483648 ≤ x) : wrapInt32 x ≤ x := by
  unfold wrapInt32
  omega

theorem wrapInt32_eq (x : Int) (h1 : -2147483648 ≤ x) (h2 : x ≤ 2147483647) :
    wrapInt32 x = x := by
  unfold wrapInt32
  omega

namespace CMasternodePayments

theorem checkAndRemoveLoop_votes (nHeight nLimit : Int)
    (votes : List (uint256 × CMasternodePaymentVote)) :
    ∀ blocks : List (Int × CMasternodeBlockPayees),
      (checkAndRemoveLoop nHeight nLimit votes blocks).1 =
        votes.filter (fun e => decide (wrapInt32 (nHeight - e.2.nBlockHeight) ≤ nLimit)) := by
  induction votes with
  | nil => intro blocks; simp [checkAndRemoveLoop]
  | cons e rest ih =>
    intro blocks
    obtain ⟨hash, vote⟩ := e
    unfold checkAndRemoveLoop
    split
    · next h =>
      have hk : ¬ wrapInt32 (nHeight - vote.nBlockHeight) ≤ nLimit := by omega
      rw [ih]
      exact (List.filter_cons_of_neg (by simpa using hk)).symm
    · next h =>
      have hk : wrapInt32 (nHeight - vote.nBlockHeight) ≤ nLimit := by omega
      simp only [ih]
      exact (List.filter_cons_of_pos (by simpa using hk)).symm

theorem checkAndRemoveLoop_find_kept (nHeight nLimit : Int) (h : Int)
    (hKeep : wrapInt32 (nHeight - h) ≤ nLimit)
    (votes : List (uint256 × CMasternodePaymentVote)) :
    ∀ blocks : List (Int × CMasternodeBlockPayees),
      mapFind (checkAndRemoveLoop nHeight nLimit votes blocks).2 h = mapFind blocks h := by
  induction votes with
  | nil => intro blocks; simp [checkAndRemoveLoop]
  | cons e rest ih =>
    intro blocks
    obtain ⟨hash, vote⟩ := e
    unfold checkAndRemoveLoop
    split
    · next hgt =>
      rw [ih]
      refine mapFind_mapErase_ne _ _ _ ?_
      intro heq
      rw [heq] at hKeep
      omega
    · simpa using ih blocks

theorem checkAndRemoveLoop_find_none (nHeight nLimit : Int) (h : Int)
    (votes : List (uint256 × CMasternodePaymentVote)) :
    ∀ blocks : List (Int × CMasternodeBlockPayees), mapFind blocks h = none →
      mapFind (checkAndRemoveLoop nHeight nLimit votes blocks).2 h = none := by
  induction votes with
  | nil => intro blocks hb; simpa [checkAndRemoveLoop] using hb
  | cons e rest ih =>
    intro blocks hb
    obtain ⟨hash, vote⟩ := e
    unfold checkAndRemoveLoop
    split
    · exact ih _ (mapFind_mapErase_of_none _ _ _ hb)
    · simpa using ih blocks hb

theorem checkAndRemoveLoop_find_pruned (nHeight nLimit : Int)
    (votes : List (uint256 × CMasternodePaymentVote)) :
    ∀ blocks : List (Int × CMasternodeBlockPayees), ∀ e ∈ votes,
      nLimit < wrapInt32 (nHeight - e.2.nBlockHeight) →
      mapFind (checkAndRemoveLoop nHeight nLimit votes blocks).2 e.2.nBlockHeight = none := by
  induction votes with
  | nil => intro blocks e he; simp at he
  | cons a rest ih =>
    intro blocks e he hlt
    obtain ⟨hash, vote⟩ := a
    unfold checkAndRemoveLoop
    rcases List.mem_cons.mp he with rfl | he
    · have hgt : wrapInt32 (nHeight - vote.nBlockHeight) > nLimit := hlt
      simp only [hgt, if_true]
      exact checkAndRemoveLoop_find_none _ _ _ _ _ (mapFind_mapErase_self _ _)
    · split
      · exact ih _ e he hlt
      · simpa using ih blocks e he hlt

end CMasternodePayments

/-! ## Claims on pruning -/

/-- Claim C9.  When `CheckAndRemove` runs with tip height `T` and storage limit `L`,
no tally is left for the height of any vote the run removed, and the tally of
every height `h` with `T - L ≤ h` is exactly what it was (present or absent).
Heights are values of the 32 bit `int` of the source and the tip is a block of
the chain, of height 0 or more: `0 ≤ T` and `h ≤ 2147483647`.  The votes the
run removes include every stored vote with `h < T - L` whose difference
`T - h` fits the 32 bit `int`, so no tally is left at such a height either. -/
theorem C9_CheckAndRemove_blocks (env : Env) (self : CMasternodePayments) (pindex : CBlockIndex)
    (hTip : self.pCurrentBlockIndex = some pindex) :
    (∀ e ∈ self.mapMasternodePaymentVotes,
      e ∉ (self.CheckAndRemove env).mapMasternodePaymentVotes →
      mapFind (self.CheckAndRemove env).mapMasternodeBlocks e.2.nBlockHeight = none) ∧
    (∀ h : Int, pindex.nHeight - CMasternodePayments.GetStorageLimit env ≤ h →
      0 ≤ pindex.nHeight → h ≤ 2147483647 →
      mapFind (self.CheckAndRemove env).mapMasternodeBlocks h =
        mapFind self.mapMasternodeBlocks h) ∧
    (∀ e ∈ self.mapMasternodePaymentVotes,
      e.2.nBlockHeight < pindex.nHeight - CMasternodePayments.GetStorageLimit env →
      -2147483648 ≤ pindex.nHeight - e.2.nBlockHeight →
      pindex.nHeight - e.2.nBlockHeight ≤ 2147483647 →
      mapFind (self.CheckAndRemove env).mapMasternodeBlocks e.2.nBlockHeight = none) := by
  refine ⟨?_, ?_, ?_⟩
  · intro e he hgone
    have hlt : CMasternodePayments.GetStorageLimit env <
        wrapInt32 (pindex.nHeight - e.2.nBlockHeight) := by
      by_contra hc
      apply hgone
      unfold CMasternodePayments.CheckAndRemove
      simp only [hTip]
      rw [CMasternodePayments.checkAndRemoveLoop_votes]
      exact List.mem_filter.mpr ⟨he, by simpa using hc⟩
    unfold CMasternodePayments.CheckAndRemove
    simp only [hTip]
    exact CMasternodePayments.checkAndRemoveLoop_find_pruned _ _ _ _ e he hlt
  · intro h hge hT hh
    have hKeep : wrapInt32 (pindex.nHeight - h) ≤ CMasternodePayments.GetStorageLimit env := by
      have := wrapInt32_le (pindex.nHeight - h) (by omega)
      omega
    unfold CMasternodePayments.CheckAndRemove
    simp only [hTip]
    exact CMasternodePayments.checkAndRemoveLoop_find_kept _ _ h hKeep _ _
  · intro e he hlow hlo hhi
    have hlt : CMasternodePayments.GetStorageLimit env <
        wrapInt32 (pindex.nHeight - e.2.nBlockHeight) := by
      rw [wrapInt32_eq _ hlo hhi]
      omega
    unfold CMasternodePayments.CheckAndRemove
    simp only [hTip]
    exact CMasternodePayments.checkAndRemoveLoop_find_pruned _ _ _ _ e he hlt

/-- Witness for C9: tip 1000 and storage limit 50, tallies for heights 949 and 950
with one vote each: the tally of 949 goes with its vote, the tally of 950
stays as it was. -/
theorem C9_CheckAndRemove_blocks_witness :
    mapFind ((⟨[(949, ⟨949, [⟨[1], [5]⟩]⟩), (950, ⟨950, [⟨[1], [6]⟩]⟩)],
        [(5, demoVote 1 949 [1]), (6, demoVote 2 950 [1])], [],
        some ⟨1000, 77, []⟩⟩ : CMasternodePayments).CheckAndRemove
      demoEnv).mapMasternodeBlocks 949 = none ∧
    mapFind ((⟨[(949, ⟨949, [⟨[1], [5]⟩]⟩), (950, ⟨950, [⟨[1], [6]⟩]⟩)],
        [(5, demoVote 1 949 [1]), (6, demoVote 2 950 [1])], [],
        some ⟨1000, 77, []⟩⟩ : CMasternodePayments).CheckAndRemove
      demoEnv).mapMasternodeBlocks 950 = some ⟨950, [⟨[1], [6]⟩]⟩ :=
  ⟨(C9_CheckAndRemove_blocks demoEnv
      ⟨[(949, ⟨949, [⟨[1], [5]⟩]⟩), (950, ⟨950, [⟨[1], [6]⟩]⟩)],
        [(5, demoVote 1 949 [1]), (6, demoVote 2 950 [1])], [], some ⟨1000, 77, []⟩⟩
      ⟨1000, 77, []⟩ rfl).1 (5, demoVote 1 949 [1]) (by decide) (by decide),
    ((C9_CheckAndRemove_blocks demoEnv
      ⟨[(949, ⟨949, [⟨[1], [5]⟩]⟩), (950, ⟨950, [⟨[1], [6]⟩]⟩)],
        [(5, demoVote 1 949 [1]), (6, demoVote 2 950 [1])], [], some ⟨1000, 77, []⟩⟩
      ⟨1000, 77, []⟩ rfl).2.1 950 (by decide) (by decide) (by decide)).trans (by decide)⟩

/-! ## Claims on the block value check -/

/-- Claim C10.  Legacy era of `IsBlockValueValid`, heights below
`nSuperblockStartBlock`: outside the budget window (height below
`nBudgetPaymentsStartBlock`, or `height % nBudgetPaymentsCycleBlocks` not below
`nBudgetPaymentsWindowBlocks`) the verdict is "coinbase value ≤ block reward";
inside the window it is the same when the node is synced and
`SPORK_13_OLD_SUPERBLOCK_FLAG` is inactive, and true in every other case. -/
theorem C10_IsBlockValueValid_legacy (env : Env) (block : CBlock) (nBlockHeight : Int)
    (blockReward : CAmount) (hLegacy : nBlockHeight < env.consensus.nSuperblockStartBlock) :
    ((nBlockHeight < env.consensus.nBudgetPaymentsStartBlock ∨
        Int.tmod nBlockHeight env.consensus.nBudgetPaymentsCycleBlocks ≥
          env.consensus.nBudgetPaymentsWindowBlocks) →
      (IsBlockValueValid env block nBlockHeight blockReward).1 =
        decide (block.vtx0.GetValueOut ≤ blockReward)) ∧
    ((nBlockHeight ≥ env.consensus.nBudgetPaymentsStartBlock ∧
        Int.tmod nBlockHeight env.consensus.nBudgetPaymentsCycleBlocks <
          env.consensus.nBudgetPaymentsWindowBlocks) →
      (env.IsSynced = true ∧ env.IsSporkActive Spork.SPORK_13_OLD_SUPERBLOCK_FLAG = false →
        (IsBlockValueValid env block nBlockHeight blockReward).1 =
          decide (block.vtx0.GetValueOut ≤ blockReward)) ∧
      (env.IsSynced = false ∨ env.IsSporkActive Spork.SPORK_13_OLD_SUPERBLOCK_FLAG = true →
        (IsBlockValueValid env block nBlockHeight blockReward).1 = true)) := by
  refine ⟨?_, ?_⟩
  · intro hOut
    have hw : ¬ (nBlockHeight ≥ env.consensus.nBudgetPaymentsStartBlock ∧
        Int.tmod nBlockHeight env.consensus.nBudgetPaymentsCycleBlocks <
          env.consensus.nBudgetPaymentsWindowBlocks) := by
      rintro ⟨h1, h2⟩
      rcases hOut with h | h <;> omega
    unfold IsBlockValueValid
    simp only [hLegacy, if_true, hw, if_false]
  · intro hIn
    refine ⟨?_, ?_⟩
    · rintro ⟨hs, hf⟩
      unfold IsBlockValueValid
      simp only [hLegacy, if_true, hIn, and_self, hs, hf]
      simp
    · intro hOr
      have hc : ¬ (env.IsSynced = true ∧
          (!env.IsSporkActive Spork.SPORK_13_OLD_SUPERBLOCK_FLAG) = true) := by
        rintro ⟨h1, h2⟩
        rcases hOr with h | h
        · rw [h] at h1; exact absurd h1 (by decide)
        · rw [h] at h2; exact absurd h2 (by decide)
      unfold IsBlockValueValid
      simp only [hLegacy, if_true, hIn, and_self, hc, if_false]

/-- Witness for C10: main net heights; 20545 is below the superblock start 20546
and inside the budget window, the node is synced and the old superblock flag is
off: a coinbase of 500 against a reward of 400 is refused. -/
theorem C10_IsBlockValueValid_legacy_witness :
    (20545 : Int) < demoEnv.consensus.nSuperblockStartBlock ∧
    (IsBlockValueValid demoEnv ⟨⟨[⟨500, [0]⟩]⟩, 0⟩ 20545 400).1 = false :=
  ⟨by decide,
    (((C10_IsBlockValueValid_legacy demoEnv ⟨⟨[⟨500, [0]⟩]⟩, 0⟩ 20545 400 (by decide)).2
      ⟨by decide, by decide⟩).1 ⟨rfl, rfl⟩).trans (by decide)⟩

/-! ## Claims on the block checks in the superblock era -/

/-- Claim C12.  While the node is not synced `IsBlockPayeeValid` returns true,
whatever the transaction, the height, the block reward, the registry and the
feature flags are. -/
theorem C12_IsBlockPayeeValid_unsynced (env : Env) (self : CMasternodePayments)
    (txNew : CTransaction) (nBlockHeight : Int) (blockReward : CAmount)
    (hUnsynced : env.IsSynced = false) :
    IsBlockPayeeValid env self txNew nBlockHeight blockReward = true := by
  unfold IsBlockPayeeValid
  simp [hUnsynced]

/-- Witness for C12: an unsynced node with every flag active accepts a coinbase
that does not pay the payee holding seven votes at height 30000. -/
theorem C12_IsBlockPayeeValid_unsynced_witness :
    IsBlockPayeeValid { demoEnv with IsSynced := false, IsSporkActive := fun _ => true }
      ⟨[(30000, ⟨30000, [⟨[1], [1, 2, 3, 4, 5, 6, 7]⟩]⟩)], [], [], none⟩
      ⟨[⟨900, [0]⟩]⟩ 30000 1000 = true :=
  C12_IsBlockPayeeValid_unsynced { demoEnv with IsSynced := false, IsSporkActive := fun _ => true }
    ⟨[(30000, ⟨30000, [⟨[1], [1, 2, 3, 4, 5, 6, 7]⟩]⟩)], [], [], none⟩ ⟨[⟨900, [0]⟩]⟩ 30000 1000 rfl

/-- Counterexample to C13: main net, node synced, every flag inactive (`SPORK_8`
and `SPORK_13` among them), height 20545 (legacy era, inside the budget window),
seven votes for the script `[1]` and a coinbase that pays `[0]` only: the block
is rejected although payment enforcement is off. -/
theorem C13_IsBlockPayeeValid_legacy_counterexample :
    demoEnv.IsSynced = true ∧
    (20545 : Int) < demoEnv.consensus.nSuperblockStartBlock ∧
    demoEnv.IsSporkActive Spork.SPORK_8_MASTERNODE_PAYMENT_ENFORCEMENT = false ∧
    IsBlockPayeeValid demoEnv
      ⟨[(20545, ⟨20545, [⟨[1], [1, 2, 3, 4, 5, 6, 7]⟩]⟩)], [], [], none⟩
      ⟨[⟨900, [0]⟩]⟩ 20545 1000 = false := by
  decide

/-- Claim C13, amended.  Legacy era of `IsBlockPayeeValid`, node synced and height
below `nSuperblockStartBlock`: the block is accepted when the registry's
`IsTransactionValid` passes; else, inside a budget window, it is accepted
exactly when `SPORK_13` is active (whatever `SPORK_8`); else, outside the
window, it is accepted exactly when `SPORK_8` is inactive. -/
theorem C13_IsBlockPayeeValid_legacy (env : Env) (self : CMasternodePayments)
    (txNew : CTransaction) (nBlockHeight : Int) (blockReward : CAmount)
    (hSynced : env.IsSynced = true)
    (hLegacy : nBlockHeight < env.consensus.nSuperblockStartBlock) :
    IsBlockPayeeValid env self txNew nBlockHeight blockReward =
      (self.IsTransactionValid env txNew nBlockHeight ||
        (if nBlockHeight ≥ env.consensus.nBudgetPaymentsStartBlock ∧
            Int.tmod nBlockHeight env.consensus.nBudgetPaymentsCycleBlocks <
              env.consensus.nBudgetPaymentsWindowBlocks
          then env.IsSporkActive Spork.SPORK_13_OLD_SUPERBLOCK_FLAG
          else !env.IsSporkActive Spork.SPORK_8_MASTERNODE_PAYMENT_ENFORCEMENT)) := by
  unfold IsBlockPayeeValid
  simp only [hSynced, hLegacy, if_true, Bool.not_true, Bool.false_eq_true, if_false]
  cases hv : self.IsTransactionValid env txNew nBlockHeight
  · simp only [Bool.false_eq_true, if_false, Bool.false_or]
    split
    · cases h13 : env.IsSporkActive Spork.SPORK_13_OLD_SUPERBLOCK_FLAG <;> simp
    · cases h8 : env.IsSporkActive Spork.SPORK_8_MASTERNODE_PAYMENT_ENFORCEMENT <;> simp
  · simp

/-- Witness for the amended C13: main net, synced, every flag inactive, height 100
(legacy era, outside the budget window), seven votes for `[1]` and a coinbase
paying `[0]` only: accepted, payment enforcement being off. -/
theorem C13_IsBlockPayeeValid_legacy_witness :
    demoEnv.IsSynced = true ∧ (100 : Int) < demoEnv.consensus.nSuperblockStartBlock ∧
    IsBlockPayeeValid demoEnv ⟨[(100, ⟨100, [⟨[1], [1, 2, 3, 4, 5, 6, 7]⟩]⟩)], [], [], none⟩
      ⟨[⟨900, [0]⟩]⟩ 100 1000 = true :=
  ⟨rfl, by decide,
    (C13_IsBlockPayeeValid_legacy demoEnv ⟨[(100, ⟨100, [⟨[1], [1, 2, 3, 4, 5, 6, 7]⟩]⟩)], [], [], none⟩
      ⟨[⟨900, [0]⟩]⟩ 100 1000 rfl (by decide)).trans (by decide)⟩

/-- Claim C14.  Superblock era of `IsBlockPayeeValid`, node synced and height from
`nSuperblockStartBlock` on: with `SPORK_9` inactive and a superblock triggered
at the height the result is the verdict of the superblock validator on the
transaction; in every other case it is "the registry's `IsTransactionValid`
passes, or `SPORK_8` is inactive". -/
theorem C14_IsBlockPayeeValid_superblock_era (env : Env) (self : CMasternodePayments)
    (txNew : CTransaction) (nBlockHeight : Int) (blockReward : CAmount)
    (hSynced : env.IsSynced = true)
    (hEra : env.consensus.nSuperblockStartBlock ≤ nBlockHeight) :
    IsBlockPayeeValid env self txNew nBlockHeight blockReward =
      (if env.IsSporkActive Spork.SPORK_9_SUPERBLOCKS_ENABLED = false ∧
          env.IsSuperblockTriggered nBlockHeight = true
        then env.SuperblockIsValid txNew nBlockHeight blockReward
        else (self.IsTransactionValid env txNew nBlockHeight ||
          !env.IsSporkActive Spork.SPORK_8_MASTERNODE_PAYMENT_ENFORCEMENT)) := by
  have hEra2 : ¬ nBlockHeight < env.consensus.nSuperblockStartBlock := not_lt.mpr hEra
  unfold IsBlockPayeeValid
  simp only [hSynced, hEra2, if_true, Bool.not_true, Bool.false_eq_true, if_false]
  by_cases hc : env.IsSporkActive Spork.SPORK_9_SUPERBLOCKS_ENABLED = false ∧
      env.IsSuperblockTriggered nBlockHeight = true
  · have hc2 : (!env.IsSporkActive Spork.SPORK_9_SUPERBLOCKS_ENABLED) = true ∧
        env.IsSuperblockTriggered nBlockHeight = true := by simp [hc.1, hc.2]
    rw [if_pos hc, if_pos hc2]
    cases hval : env.SuperblockIsValid txNew nBlockHeight blockReward <;> simp
  · have hc2 : ¬ ((!env.IsSporkActive Spork.SPORK_9_SUPERBLOCKS_ENABLED) = true ∧
        env.IsSuperblockTriggered nBlockHeight = true) := by
      intro h; apply hc; simpa using h
    rw [if_neg hc, if_neg hc2]
    cases hv : self.IsTransactionValid env txNew nBlockHeight
    · cases h8 : env.IsSporkActive Spork.SPORK_8_MASTERNODE_PAYMENT_ENFORCEMENT <;> simp
    · simp

/-- Witness for C14: main net, synced, `SPORK_9` inactive, a superblock triggered
at height 41090 and refused by the validator: the block is rejected although
payment enforcement is off and the registry holds no tally for the height. -/
theorem C14_IsBlockPayeeValid_superblock_era_witness :
    ({ demoEnv with IsSuperblockTriggered := fun _ => true } : Env).consensus.nSuperblockStartBlock ≤
      41090 ∧
    IsBlockPayeeValid { demoEnv with IsSuperblockTriggered := fun _ => true }
      ⟨[], [], [], none⟩ ⟨[⟨900, [0]⟩]⟩ 41090 1000 = false :=
  ⟨by decide,
    (C14_IsBlockPayeeValid_superblock_era { demoEnv with IsSuperblockTriggered := fun _ => true }
      ⟨[], [], [], none⟩ ⟨[⟨900, [0]⟩]⟩ 41090 1000 rfl (by decide)).trans (by decide)⟩

/-! ## Claims on coinbase construction -/

/-- Claim C15.  While the chain height has not passed
`nMasternodePaymentsStartBlock` and the superblock path is not taken,
`FillBlockPayments` leaves the coinbase transaction and both output parameters
as they were, whatever the registry holds; and `FillBlockPayee` itself, at such
a height, appends no masternode output: it only writes the value of the first
output. -/
theorem C15_FillBlockPayments_before_start (env : Env) (self : CMasternodePayments)
    (txNew : CTransaction) (nBlockHeight : Int) (txoutMasternodeRet : CTxOut)
    (voutSuperblockRet : List CTxOut)
    (hHeight : chainActiveHeight env ≤ env.consensus.nMasternodePaymentsStartBlock)
    (hNoSuperblock : ¬ (env.IsSporkActive Spork.SPORK_9_SUPERBLOCKS_ENABLED = true ∧
      env.IsSuperblockTriggered nBlockHeight = true)) :
    FillBlockPayments env self txNew nBlockHeight txoutMasternodeRet voutSuperblockRet =
      some (txNew, txoutMasternodeRet, voutSuperblockRet) ∧
    (∀ out0 rest, txNew.vout = out0 :: rest → env.chainActiveTip ≠ none →
      self.FillBlockPayee env txNew =
        some ⟨{ out0 with nValue := powRewardLadder env (chainActiveHeight env) } :: rest⟩) := by
  refine ⟨?_, ?_⟩
  · have h2 : ¬ chainActiveHeight env > env.consensus.nMasternodePaymentsStartBlock :=
      not_lt.mpr hHeight
    unfold FillBlockPayments
    rw [if_neg hNoSuperblock, if_neg h2]
  · intro out0 rest hvout hTip
    cases hT : env.chainActiveTip with
    | none => exact absurd hT hTip
    | some pindexPrev =>
      have hp : (self.fillPayee env pindexPrev).1 = false := by
        unfold CMasternodePayments.fillPayee
        simp only [hHeight, if_true]
        split
        · split <;> rfl
        · rfl
      unfold CMasternodePayments.FillBlockPayee
      simp only [hT, hvout, hp]
      simp

/-- Witness for C15: main net (payments start after block 100), chain tip at
height 100, seven votes for `[1]` at height 101: the coinbase keeps its single
output. -/
theorem C15_FillBlockPayments_before_start_witness :
    FillBlockPayments { demoEnv with chainActiveTip := some ⟨100, 7, []⟩ }
      ⟨[(101, ⟨101, [⟨[1], [1, 2, 3, 4, 5, 6, 7]⟩]⟩)], [], [], some ⟨100, 7, []⟩⟩
      ⟨[⟨900, [0]⟩]⟩ 101 ⟨0, []⟩ [] = some (⟨[⟨900, [0]⟩]⟩, ⟨0, []⟩, []) :=
  (C15_FillBlockPayments_before_start { demoEnv with chainActiveTip := some ⟨100, 7, []⟩ }
    ⟨[(101, ⟨101, [⟨[1], [1, 2, 3, 4, 5, 6, 7]⟩]⟩)], [], [], some ⟨100, 7, []⟩⟩
    ⟨[⟨900, [0]⟩]⟩ 101 ⟨0, []⟩ [] (by decide) (by decide)).1

/-! ## Claims on vote validation -/

/-- Claim C19.  `CheckSignature` returns true with DoS score 0 when the signature
verifies; when it does not, it returns false with DoS score 20 if the
masternode list is synced and the vote is for a height above
`nValidationHeight`, and with DoS score 0 otherwise. -/
theorem C19_CheckSignature_dos (env : Env) (vote : CMasternodePaymentVote)
    (pubKeyMasternode : CPubKey) (nValidationHeight : Int) :
    vote.CheckSignature env pubKeyMasternode nValidationHeight =
      (if env.VerifyMessage pubKeyMasternode vote.vchSig vote.vinMasternode vote.nBlockHeight
          vote.payee = true then (true, 0)
        else (false, if env.IsMasternodeListSynced = true ∧ vote.nBlockHeight > nValidationHeight
          then 20 else 0)) := by
  unfold CMasternodePaymentVote.CheckSignature
  cases hv : env.VerifyMessage pubKeyMasternode vote.vchSig vote.vinMasternode vote.nBlockHeight
    vote.payee
  · simp only [Bool.not_false, if_true, Bool.false_eq_true, if_false]
    split <;> rfl
  · simp

/-- Witness for C19: every signature bad, list synced, validation height 1000: a
vote for height 1005 costs the peer 20, a vote for height 1000 nothing. -/
theorem C19_CheckSignature_dos_witness :
    (demoVote 1 1005 [1]).CheckSignature { demoEnv with VerifyMessage := fun _ _ _ _ _ => false }
      7 1000 = (false, 20) ∧
    (demoVote 1 1000 [1]).CheckSignature { demoEnv with VerifyMessage := fun _ _ _ _ _ => false }
      7 1000 = (false, 0) :=
  ⟨(C19_CheckSignature_dos { demoEnv with VerifyMessage := fun _ _ _ _ _ => false }
      (demoVote 1 1005 [1]) 7 1000).trans (by decide),
    by decide⟩

/-- Evaluation for C20: `GetMinMasternodePaymentsProto` returns the flag `SPORK_10`
itself as a number, 1 or 0; with `SPORK_10` active it is 1, below the minimum 70206 for older votes; a masternode advertising protocol
version 2 has its vote for the future height 1005 accepted by `IsValid` while
its vote for the past height 990 is refused as too old. -/
theorem C20_new_vote_minimum_is_the_flag :
    (∀ env : Env, CMasternodePayments.GetMinMasternodePaymentsProto env =
      if env.IsSporkActive Spork.SPORK_10_MASTERNODE_PAY_UPDATED_NODES then 1 else 0) ∧
    CMasternodePayments.GetMinMasternodePaymentsProto demoEnvOldNode = 1 ∧
    demoEnvOldNode.MIN_MASTERNODE_PAYMENT_PROTO_VERSION = 70206 ∧
    ((demoVote 1 1005 [1]).IsValid demoEnvOldNode demoPeer 1000).1 = true ∧
    ((demoVote 1 990 [1]).IsValid demoEnvOldNode demoPeer 1000).1 = false :=
  ⟨fun _ => rfl, by decide⟩

/-! ## Lemmas on the reward ladders -/

theorem tierScan_hit (h : Int) (value : Nat → CAmount) (fallback : CAmount) (bounds : List Int) :
    ∀ (prev : Int) (i k : Nat), prev < h → k < bounds.length → h ≤ bounds.getD k 0 →
      (∀ j, j < k → bounds.getD j 0 < h) →
      tierScan h value fallback prev i bounds = value (i + k) := by
  induction bounds with
  | nil => intro prev i k _ hk; simp at hk
  | cons b rest ih =>
    intro prev i k hprev hk hle hlt
    cases k with
    | zero =>
      have hb : h ≤ b := by simpa using hle
      simp [tierScan, hprev, hb]
    | succ k =>
      have hb : b < h := by simpa using hlt 0 (Nat.succ_pos k)
      have hnot : ¬ (h > prev ∧ h ≤ b) := fun hc => absurd hc.2 (not_le.mpr hb)
      have hrec := ih b (i + 1) k hb (by simpa using hk) (by simpa using hle)
        (fun j hj => by simpa using hlt (j + 1) (Nat.succ_lt_succ hj))
      simp only [tierScan, hnot, if_false]
      rw [hrec]
      congr 1
      omega

theorem tierScan_miss (h : Int) (value : Nat → CAmount) (fallback : CAmount) (bounds : List Int) :
    ∀ (prev : Int) (i : Nat), (∀ b ∈ bounds, b < h) →
      tierScan h value fallback prev i bounds = fallback := by
  induction bounds with
  | nil => intro prev i _; rfl
  | cons b rest ih =>
    intro prev i hall
    have hb : b < h := hall b (List.mem_cons_self _ _)
    have hnot : ¬ (h > prev ∧ h ≤ b) := fun hc => absurd hc.2 (not_le.mpr hb)
    simp only [tierScan, hnot, if_false]
    exact ih b (i + 1) (fun c hc => hall c (List.mem_cons_of_mem _ hc))

/-- The first boundary that is not below `h`, when there is one. -/
theorem first_bound_index (h : Int) (bounds : List Int) :
    (∃ b ∈ bounds, h ≤ b) →
      ∃ k, k < bounds.length ∧ h ≤ bounds.getD k 0 ∧ ∀ j, j < k → bounds.getD j 0 < h := by
  induction bounds with
  | nil => rintro ⟨b, hb, _⟩; simp at hb
  | cons b rest ih =>
    rintro ⟨c, hc, hle⟩
    by_cases hb : h ≤ b
    · exact ⟨0, by simp, by simpa using hb, fun j hj => absurd hj (Nat.not_lt_zero j)⟩
    · have hrest : ∃ c ∈ rest, h ≤ c := by
        rcases List.mem_cons.mp hc with rfl | hc
        · exact absurd hle hb
        · exact ⟨c, hc, hle⟩
      obtain ⟨k, hk, hle2, hlt⟩ := ih hrest
      refine ⟨k + 1, by simpa using hk, by simpa using hle2, ?_⟩
      intro j hj
      cases j with
      | zero => simpa using not_le.mp hb
      | succ j => simpa using hlt j (Nat.lt_of_succ_lt_succ hj)

theorem powRewardLadder_eq_tierScan (env : Env) (nHeight : Int) :
    powRewardLadder env nHeight =
      if nHeight = 0 then 475000 * env.COIN
      else tierScan nHeight env.YEAR_POW_REWARD (env.YEAR_POW_REWARD 1) 0 1
        env.consensus.tierBounds := by
  have h1 : (nHeight ≥ 1) = (nHeight > 0) := by
    apply propext; constructor <;> intro h <;> omega
  unfold powRewardLadder
  simp only [Params.tierBounds, tierScan, h1]

theorem masternodePaymentLadder_true (env : Env) (nHeight : Int) :
    masternodePaymentLadder env true nHeight =
      tierScan nHeight env.YEAR_MASTERNODE_PAYMENT (env.YEAR_MASTERNODE_PAYMENT 1)
        env.consensus.nMasternodePaymentsStartBlock 1 env.consensus.tierBounds := by
  unfold masternodePaymentLadder
  simp only [Params.tierBounds, tierScan, true_and]

theorem masternodePaymentLadder_false (env : Env) (nHeight : Int) :
    masternodePaymentLadder env false nHeight = env.YEAR_MASTERNODE_PAYMENT 1 := by
  unfold masternodePaymentLadder
  simp only [Bool.false_eq_true, false_and, if_false]

theorem tierBounds_length (p : Params) : p.tierBounds.length = 35 := rfl

theorem nYr35_mem_tierBounds (p : Params) : p.nYr35TotalBlocks ∈ p.tierBounds := by
  simp [Params.tierBounds]

theorem nYrTotalBlocks_succ (p : Params) (k : Nat) :
    p.nYrTotalBlocks (k + 1) = p.tierBounds.getD k 0 := rfl

/-- With increasing boundaries the first boundary is positive and every boundary is
at most the last one. -/
theorem tierBounds_le_last (p : Params) (hInc : p.tiersIncreasing) :
    0 < p.nYr1TotalBlocks ∧ ∀ b ∈ p.tierBounds, b ≤ p.nYr35TotalBlocks := by
  simp only [Params.tiersIncreasing, Params.tierBounds, increasingFrom, Bool.and_eq_true,
    decide_eq_true_eq, and_true] at hInc
  refine ⟨by omega, ?_⟩
  intro b hb
  simp only [Params.tierBounds, List.mem_cons, List.mem_singleton, List.not_mem_nil,
    or_false] at hb
  omega

namespace CMasternodePayments

/-- A payment is only planned above the payments start block. -/
theorem fillPayee_true_height (env : Env) (self : CMasternodePayments) (pindexPrev : CBlockIndex)
    (h : (self.fillPayee env pindexPrev).1 = true) :
    env.consensus.nMasternodePaymentsStartBlock < chainActiveHeight env := by
  by_contra hc
  have hle : chainActiveHeight env ≤ env.consensus.nMasternodePaymentsStartBlock := not_lt.mp hc
  have hp : (self.fillPayee env pindexPrev).1 = false := by
    unfold fillPayee
    simp only [hle, if_true]
    split
    · split <;> rfl
    · rfl
  rw [hp] at h
  exact absurd h (by decide)

/-- The result of `FillBlockPayee` on a chain with a tip and a coinbase with a first
output, in terms of the two ladders. -/
theorem FillBlockPayee_eq (env : Env) (self : CMasternodePayments) (txNew : CTransaction)
    (pindexPrev : CBlockIndex) (out0 : CTxOut) (rest : List CTxOut)
    (hTip : env.chainActiveTip = some pindexPrev) (hVout : txNew.vout = out0 :: rest) :
    self.FillBlockPayee env txNew =
      some (if (self.fillPayee env pindexPrev).1 = true then
          ⟨[{ out0 with nValue := powRewardLadder env pindexPrev.nHeight },
            { nValue := masternodePaymentLadder env true pindexPrev.nHeight,
              scriptPubKey := (self.fillPayee env pindexPrev).2 }]⟩
        else ⟨{ out0 with nValue := powRewardLadder env pindexPrev.nHeight } :: rest⟩) := by
  have hH : chainActiveHeight env = pindexPrev.nHeight := by
    unfold chainActiveHeight; rw [hTip]
  unfold FillBlockPayee
  simp only [hTip, hVout, hH]
  cases hp : (self.fillPayee env pindexPrev).1 <;> simp

end CMasternodePayments

/-! ## Claims on the reward schedule -/

/-- Claim C16.  Reward tier selection in `FillBlockPayee`, chain height `h`.  For
`1 ≤ h ≤ nYr35TotalBlocks` there is a tier index `i` in 1..35, the smallest one
with `h ≤ nYr<i>TotalBlocks`, such that the first output gets
`YEAR_<i>_POW_REWARD` and, when a masternode output is appended, that output
gets `YEAR_<i>_MASTERNODE_PAYMENT`.  At height 0 (payments start block not
negative) the first output gets `475000 * COIN` and no output is appended. -/
theorem C16_FillBlockPayee_tier_selection (env : Env) (self : CMasternodePayments)
    (txNew : CTransaction) (pindexPrev : CBlockIndex) (out0 : CTxOut) (rest : List CTxOut)
    (hTip : env.chainActiveTip = some pindexPrev) (hVout : txNew.vout = out0 :: rest) :
    (1 ≤ pindexPrev.nHeight → pindexPrev.nHeight ≤ env.consensus.nYr35TotalBlocks →
      ∃ i : Nat, 1 ≤ i ∧ i ≤ 35 ∧ pindexPrev.nHeight ≤ env.consensus.nYrTotalBlocks i ∧
        (∀ j : Nat, 1 ≤ j → j < i → env.consensus.nYrTotalBlocks j < pindexPrev.nHeight) ∧
        self.FillBlockPayee env txNew =
          some (if (self.fillPayee env pindexPrev).1 = true then
              ⟨[{ out0 with nValue := env.YEAR_POW_REWARD i },
                { nValue := env.YEAR_MASTERNODE_PAYMENT i,
                  scriptPubKey := (self.fillPayee env pindexPrev).2 }]⟩
            else ⟨{ out0 with nValue := env.YEAR_POW_REWARD i } :: rest⟩)) ∧
    (pindexPrev.nHeight = 0 → 0 ≤ env.consensus.nMasternodePaymentsStartBlock →
      self.FillBlockPayee env txNew =
        some ⟨{ out0 with nValue := 475000 * env.COIN } :: rest⟩) := by
  have hH : chainActiveHeight env = pindexPrev.nHeight := by
    unfold chainActiveHeight; rw [hTip]
  have hEq := CMasternodePayments.FillBlockPayee_eq env self txNew pindexPrev out0 rest hTip hVout
  refine ⟨?_, ?_⟩
  · intro h1 h35
    obtain ⟨k, hk, hle, hlt⟩ := first_bound_index pindexPrev.nHeight env.consensus.tierBounds
      ⟨_, nYr35_mem_tierBounds env.consensus, h35⟩
    have hk35 : k < 35 := by rw [tierBounds_length] at hk; exact hk
    have hpow : powRewardLadder env pindexPrev.nHeight = env.YEAR_POW_REWARD (k + 1) := by
      have hne : ¬ pindexPrev.nHeight = 0 := by omega
      rw [powRewardLadder_eq_tierScan, if_neg hne,
        tierScan_hit _ _ _ _ 0 1 k (by omega) hk hle hlt, Nat.add_comm]
    refine ⟨k + 1, by omega, by omega, ?_, ?_, ?_⟩
    · rw [nYrTotalBlocks_succ]; exact hle
    · intro j hj1 hjk
      obtain ⟨j', rfl⟩ : ∃ j', j = j' + 1 := ⟨j - 1, by omega⟩
      rw [nYrTotalBlocks_succ]
      exact hlt j' (by omega)
    · rw [hEq, hpow]
      by_cases hp : (self.fillPayee env pindexPrev).1 = true
      · have hstart := CMasternodePayments.fillPayee_true_height env self pindexPrev hp
        rw [hH] at hstart
        have hmn : masternodePaymentLadder env true pindexPrev.nHeight =
            env.YEAR_MASTERNODE_PAYMENT (k + 1) := by
          rw [masternodePaymentLadder_true,
            tierScan_hit _ _ _ _ _ 1 k hstart hk hle hlt, Nat.add_comm]
        simp only [hp, if_true, hmn]
      · simp [hp]
  · intro h0 hstart
    have hp : (self.fillPayee env pindexPrev).1 = false := by
      cases hc : (self.fillPayee env pindexPrev).1
      · rfl
      · have := CMasternodePayments.fillPayee_true_height env self pindexPrev hc
        rw [hH] at this
        omega
    rw [hEq, powRewardLadder_eq_tierScan, if_pos h0]
    simp [hp]

/-- Witness for C16: main net, chain tip at height 300000 (tier 2, as
`246544 < 300000 ≤ 493088`), seven votes for the script `[1]` at height 300001:
the miner output gets `YEAR_2_POW_REWARD` (980 here) and the appended output
pays `YEAR_2_MASTERNODE_PAYMENT` (490 here) to `[1]`. -/
theorem C16_FillBlockPayee_tier_selection_witness :
    CMasternodePayments.FillBlockPayee { demoEnv with chainActiveTip := some ⟨300000, 7, []⟩ }
      ⟨[(300001, ⟨300001, [⟨[1], [1, 2, 3, 4, 5, 6, 7]⟩]⟩)], [], [], none⟩ ⟨[⟨0, [0]⟩]⟩ =
      some ⟨[⟨980, [0]⟩, ⟨490, [1]⟩]⟩ ∧
    CMasternodePayments.FillBlockPayee { demoEnv with chainActiveTip := some ⟨0, 7, []⟩ }
      ⟨[], [], [], none⟩ ⟨[⟨0, [0]⟩]⟩ = some ⟨[⟨47500000000000, [0]⟩]⟩ :=
  ⟨by decide,
    ((C16_FillBlockPayee_tier_selection { demoEnv with chainActiveTip := some ⟨0, 7, []⟩ }
      ⟨[], [], [], none⟩ ⟨[⟨0, [0]⟩]⟩ ⟨0, 7, []⟩ ⟨0, [0]⟩ [] rfl rfl).2 rfl (by decide)).trans
      (by decide)⟩

/-- Claim C17.  Above the last tier boundary (boundaries positive and increasing,
as on every network) `FillBlockPayee` falls back to the amounts of tier 1:
the first output gets `YEAR_1_POW_REWARD` and an appended masternode output
gets `YEAR_1_MASTERNODE_PAYMENT`. -/
theorem C17_FillBlockPayee_beyond_last_tier (env : Env) (self : CMasternodePayments)
    (txNew : CTransaction) (pindexPrev : CBlockIndex) (out0 : CTxOut) (rest : List CTxOut)
    (hTip : env.chainActiveTip = some pindexPrev) (hVout : txNew.vout = out0 :: rest)
    (hInc : env.consensus.tiersIncreasing)
    (hBeyond : env.consensus.nYr35TotalBlocks < pindexPrev.nHeight) :
    powRewardLadder env pindexPrev.nHeight = env.YEAR_POW_REWARD 1 ∧
    (∀ hasPayment : Bool, masternodePaymentLadder env hasPayment pindexPrev.nHeight =
      env.YEAR_MASTERNODE_PAYMENT 1) ∧
    self.FillBlockPayee env txNew =
      some (if (self.fillPayee env pindexPrev).1 = true then
          ⟨[{ out0 with nValue := env.YEAR_POW_REWARD 1 },
            { nValue := env.YEAR_MASTERNODE_PAYMENT 1,
              scriptPubKey := (self.fillPayee env pindexPrev).2 }]⟩
        else ⟨{ out0 with nValue := env.YEAR_POW_REWARD 1 } :: rest⟩) := by
  have hall : ∀ b ∈ env.consensus.tierBounds, b < pindexPrev.nHeight :=
    fun b hb => lt_of_le_of_lt ((tierBounds_le_last env.consensus hInc).2 b hb) hBeyond
  have hpos : 0 < env.consensus.nYr35TotalBlocks := by
    have h1 := (tierBounds_le_last env.consensus hInc).1
    have h2 := (tierBounds_le_last env.consensus hInc).2 env.consensus.nYr1TotalBlocks
      (by simp [Params.tierBounds])
    omega
  have hne : ¬ pindexPrev.nHeight = 0 := by omega
  have hpow : powRewardLadder env pindexPrev.nHeight = env.YEAR_POW_REWARD 1 := by
    rw [powRewardLadder_eq_tierScan, if_neg hne, tierScan_miss _ _ _ _ _ _ hall]
  have hmn : ∀ hasPayment : Bool, masternodePaymentLadder env hasPayment pindexPrev.nHeight =
      env.YEAR_MASTERNODE_PAYMENT 1 := by
    intro hasPayment
    cases hasPayment
    · exact masternodePaymentLadder_false env _
    · rw [masternodePaymentLadder_true, tierScan_miss _ _ _ _ _ _ hall]
  refine ⟨hpow, hmn, ?_⟩
  rw [CMasternodePayments.FillBlockPayee_eq env self txNew pindexPrev out0 rest hTip hVout,
    hpow, hmn true]

/-- Witness for C17: main net, chain tip at height 9000000, above
`nYr35TotalBlocks = 8629031`, seven votes for `[1]` at the next height: the
outputs get the tier 1 amounts (990 and 495 here). -/
theorem C17_FillBlockPayee_beyond_last_tier_witness :
    CMasternodePayments.FillBlockPayee { demoEnv with chainActiveTip := some ⟨9000000, 7, []⟩ }
      ⟨[(9000001, ⟨9000001, [⟨[1], [1, 2, 3, 4, 5, 6, 7]⟩]⟩)], [], [], none⟩ ⟨[⟨0, [0]⟩]⟩ =
      some ⟨[⟨990, [0]⟩, ⟨495, [1]⟩]⟩ :=
  ((C17_FillBlockPayee_beyond_last_tier { demoEnv with chainActiveTip := some ⟨9000000, 7, []⟩ }
    ⟨[(9000001, ⟨9000001, [⟨[1], [1, 2, 3, 4, 5, 6, 7]⟩]⟩)], [], [], none⟩ ⟨[⟨0, [0]⟩]⟩
    ⟨9000000, 7, []⟩ ⟨0, [0]⟩ [] rfl rfl (by decide) (by decide)).2.2).trans (by decide)

theorem increasingFrom_getD (l : List Int) :
    ∀ prev : Int, increasingFrom prev l = true →
      (∀ k, k < l.length → prev < l.getD k 0) ∧
      (∀ a b, a < b → b < l.length → l.getD a 0 < l.getD b 0) := by
  induction l with
  | nil =>
    intro prev _
    exact ⟨fun k hk => absurd hk (Nat.not_lt_zero k), fun a b _ hb => absurd hb (Nat.not_lt_zero b)⟩
  | cons c rest ih =>
    intro prev hInc
    simp only [increasingFrom, Bool.and_eq_true, decide_eq_true_eq] at hInc
    obtain ⟨hAbove, hPairs⟩ := ih c hInc.2
    refine ⟨?_, ?_⟩
    · intro k hk
      cases k with
      | zero => simpa using hInc.1
      | succ k =>
        have := hAbove k (by simpa using hk)
        simp only [List.getD_cons_succ]
        omega
    · intro a b hab hb
      cases b with
      | zero => exact absurd hab (Nat.not_lt_zero a)
      | succ b =>
        cases a with
        | zero =>
          simpa using hAbove b (by simpa using hb)
        | succ a =>
          simpa using hPairs a b (Nat.lt_of_succ_lt_succ hab) (by simpa using hb)

/-- With increasing boundaries the boundary is a strictly increasing function of
the index on 0..35 (index 0 standing for height 0). -/
theorem nYrTotalBlocks_strictMono (p : Params) (hInc : p.tiersIncreasing) (a b : Nat)
    (hab : a < b) (hb : b ≤ 35) : p.nYrTotalBlocks a < p.nYrTotalBlocks b := by
  obtain ⟨hAbove, hPairs⟩ := increasingFrom_getD p.tierBounds 0 hInc
  obtain ⟨b', rfl⟩ : ∃ b', b = b' + 1 := ⟨b - 1, by omega⟩
  have hb' : b' < p.tierBounds.length := by rw [tierBounds_length]; omega
  cases a with
  | zero => exact hAbove b' hb'
  | succ a => exact hPairs a b' (by omega) hb'

/-- With increasing boundaries every height in `1 .. nYr35TotalBlocks` lies in
exactly one tier. -/
theorem tier_unique (p : Params) (hInc : p.tiersIncreasing) (h : Int) (h1 : 1 ≤ h)
    (h35 : h ≤ p.nYr35TotalBlocks) :
    ∃! i : Nat, 1 ≤ i ∧ i ≤ 35 ∧ p.nYrTotalBlocks (i - 1) < h ∧ h ≤ p.nYrTotalBlocks i := by
  obtain ⟨k, hk, hle, hlt⟩ := first_bound_index h p.tierBounds ⟨_, nYr35_mem_tierBounds p, h35⟩
  have hk35 : k < 35 := by rw [tierBounds_length] at hk; exact hk
  refine ⟨k + 1, ⟨by omega, by omega, ?_, ?_⟩, ?_⟩
  · cases k with
    | zero => show (0 : Int) < h; omega
    | succ k => exact hlt k (Nat.lt_succ_self k)
  · exact hle
  · rintro i ⟨hi1, hi35, hlow, hup⟩
    by_contra hne
    rcases Nat.lt_or_gt_of_ne hne with hlt2 | hgt
    · -- `i ≤ k`: the boundary of tier `i` is below `h`
      obtain ⟨i', rfl⟩ : ∃ i', i = i' + 1 := ⟨i - 1, by omega⟩
      have := hlt i' (by omega)
      rw [nYrTotalBlocks_succ] at hup
      omega
    · -- `k + 1 < i`: the lower end of tier `i` is at least the boundary of tier `k + 1`
      have hmono : p.nYrTotalBlocks (k + 1) ≤ p.nYrTotalBlocks (i - 1) := by
        rcases Nat.eq_or_lt_of_le (show k + 1 ≤ i - 1 by omega) with heq | hlt3
        · rw [heq]
        · exact le_of_lt (nYrTotalBlocks_strictMono p hInc _ _ hlt3 (by omega))
      rw [nYrTotalBlocks_succ] at hmono
      omega

/-- Claim C18.  On the main, test and regression test networks the 35 reward tier
boundaries are positive and strictly increasing, and every height in
`1 .. nYr35TotalBlocks` lies in exactly one tier `i`, the one with
`nYr<i-1>TotalBlocks < h ≤ nYr<i>TotalBlocks` (height 0 below tier 1). -/
theorem C18_tier_boundaries_increasing :
    ∀ p ∈ [mainConsensus, testNetConsensus, regTestConsensus],
      0 < p.nYr1TotalBlocks ∧
      (∀ i : Nat, 1 ≤ i → i < 35 → p.nYrTotalBlocks i < p.nYrTotalBlocks (i + 1)) ∧
      (∀ h : Int, 1 ≤ h → h ≤ p.nYr35TotalBlocks →
        ∃! i : Nat, 1 ≤ i ∧ i ≤ 35 ∧ p.nYrTotalBlocks (i - 1) < h ∧ h ≤ p.nYrTotalBlocks i) := by
  have key : ∀ p : Params, p.tiersIncreasing →
      0 < p.nYr1TotalBlocks ∧
      (∀ i : Nat, 1 ≤ i → i < 35 → p.nYrTotalBlocks i < p.nYrTotalBlocks (i + 1)) ∧
      (∀ h : Int, 1 ≤ h → h ≤ p.nYr35TotalBlocks →
        ∃! i : Nat, 1 ≤ i ∧ i ≤ 35 ∧ p.nYrTotalBlocks (i - 1) < h ∧
          h ≤ p.nYrTotalBlocks i) :=
    fun p hInc => ⟨(tierBounds_le_last p hInc).1,
      fun i _ hi => nYrTotalBlocks_strictMono p hInc i (i + 1) (Nat.lt_succ_self i) (by omega),
      fun h h1 h35 => tier_unique p hInc h h1 h35⟩
  intro p hp
  simp only [List.mem_cons, List.mem_singleton, List.not_mem_nil, or_false] at hp
  rcases hp with rfl | rfl | rfl
  · exact key _ (by decide)
  · exact key _ (by decide)
  · exact key _ (by decide)

/-- Witness for C18: on the main network height 246544 is the last height of tier 1
and height 246545 the first of tier 2. -/
theorem C18_tier_boundaries_increasing_witness :
    mainConsensus.nYrTotalBlocks 1 < mainConsensus.nYrTotalBlocks 2 ∧
    mainConsensus.nYrTotalBlocks 1 = 246544 ∧ mainConsensus.nYr35TotalBlocks = 8629031 :=
  ⟨(C18_tier_boundaries_increasing mainConsensus (by simp)).2.1 1 (by decide) (by decide),
    by decide, by decide⟩


/-! ## Lemmas on the rank check -/

theorem IsValid_reached (env : Env) (vote : CMasternodePaymentVote) (pnode : CNode)
    (nValidationHeight : Int) (h : vote.reachesRankCheck env nValidationHeight) :
    vote.IsValid env pnode nValidationHeight =
      if vote.rankAtVote env nValidationHeight > env.MNPAYMENTS_SIGNATURES_TOTAL then
        if vote.rankAtVote env nValidationHeight > env.MNPAYMENTS_SIGNATURES_TOTAL * 2 ∧
            vote.nBlockHeight > nValidationHeight then
          (false, "Masternode is not in the top " ++
            toString (env.MNPAYMENTS_SIGNATURES_TOTAL * 2) ++
            " (" ++ toString (vote.rankAtVote env nValidationHeight) ++ ")",
            [Effect.Misbehaving pnode.id 20])
        else
          (false, "Masternode is not in the top " ++ toString env.MNPAYMENTS_SIGNATURES_TOTAL ++
            " (" ++ toString (vote.rankAtVote env nValidationHeight) ++ ")", [])
      else (true, "", []) := by
  obtain ⟨v, hv, hold, hskip⟩ := h
  have hskip2 : ¬ ((!env.fMasterNode) = true ∧ vote.nBlockHeight < nValidationHeight) := by
    intro hc
    exact hskip ⟨by simpa using hc.1, hc.2⟩
  unfold CMasternodePaymentVote.minRequiredProtocol at hold
  simp only [CMasternodePaymentVote.IsValid, hv, CMasternodePaymentVote.rankAtVote,
    CMasternodePaymentVote.minRequiredProtocol]
  rw [if_neg hold, if_neg hskip2]

theorem IsValid_not_reached (env : Env) (vote : CMasternodePaymentVote) (pnode : CNode)
    (nValidationHeight : Int) (h : ¬ vote.reachesRankCheck env nValidationHeight) :
    ∀ (id howmuch : Int), Effect.Misbehaving id howmuch ∉
      (vote.IsValid env pnode nValidationHeight).2.2 := by
  intro id howmuch
  unfold CMasternodePaymentVote.IsValid
  cases hv : env.mnodemanFind vote.vinMasternode with
  | none =>
    simp only
    split <;> simp
  | some v =>
    simp only
    by_cases hold : v < (if vote.nBlockHeight ≥ nValidationHeight then
        CMasternodePayments.GetMinMasternodePaymentsProto env
      else env.MIN_MASTERNODE_PAYMENT_PROTO_VERSION)
    · rw [if_pos hold]
      simp
    · rw [if_neg hold]
      by_cases hskip : ((!env.fMasterNode) = true ∧ vote.nBlockHeight < nValidationHeight)
      · rw [if_pos hskip]
        simp
      · exfalso
        apply h
        refine ⟨v, hv, hold, ?_⟩
        intro hc
        exact hskip ⟨by simpa using hc.1, hc.2⟩


theorem minRequiredProtocol_past (env : Env) (vote : CMasternodePaymentVote)
    (nValidationHeight : Int) (hpast : vote.nBlockHeight < nValidationHeight) :
    vote.minRequiredProtocol env nValidationHeight = env.MIN_MASTERNODE_PAYMENT_PROTO_VERSION := by
  unfold CMasternodePaymentVote.minRequiredProtocol
  rw [if_neg (by omega)]

theorem IsValid_true_rank_le (env : Env) (vote : CMasternodePaymentVote) (pnode : CNode)
    (nValidationHeight : Int) (h : vote.reachesRankCheck env nValidationHeight)
    (hTrue : (vote.IsValid env pnode nValidationHeight).1 = true) :
    vote.rankAtVote env nValidationHeight ≤ env.MNPAYMENTS_SIGNATURES_TOTAL := by
  rw [IsValid_reached env vote pnode nValidationHeight h] at hTrue
  by_contra hc
  rw [if_pos (by omega)] at hTrue
  split at hTrue <;> simp at hTrue

/-! ## Claims on the rank check -/

/-- Evaluation for C21.  With a rank query that answers -1 (no rank), total 10 and
validation height 1000, the vote of a known masternode with protocol version
70208 for the future height 1005 reaches the rank check of `IsValid`, and
`IsValid` returns true with an empty error text and no call to `Misbehaving`:
the test `nRank > MNPAYMENTS_SIGNATURES_TOTAL` of line 825 is the only test of
the rank, and -1 passes it. -/
theorem C21_unranked_vote_passes_IsValid :
    (demoVote 1 1005 [1]).rankAtVote { demoEnv with GetMasternodeRank := fun _ _ _ => -1 } 1000
      = -1 ∧
    (demoVote 1 1005 [1]).nBlockHeight > 1000 ∧
    demoEnv.mnodemanFind (demoVote 1 1005 [1]).vinMasternode = some 70208 ∧
    ¬ (70208 < (demoVote 1 1005 [1]).minRequiredProtocol
      { demoEnv with GetMasternodeRank := fun _ _ _ => -1 } 1000) ∧
    (demoVote 1 1005 [1]).IsValid { demoEnv with GetMasternodeRank := fun _ _ _ => -1 }
      demoPeer 1000 = (true, "", []) := by
  decide

/-- Claim C22.  With a non-negative `MNPAYMENTS_SIGNATURES_TOTAL`, `IsValid` calls
`Misbehaving` for the sending peer with 20 exactly when the rank check is
reached, the rank is above twice the total and the vote is for a height above
`nValidationHeight`; in every other case it makes no call to `Misbehaving` at
all, and a vote that reaches the rank check with a rank above the total which
is at most twice the total, or whose height is not above `nValidationHeight`,
is rejected without any such call. -/
theorem C22_IsValid_dos (env : Env) (vote : CMasternodePaymentVote) (pnode : CNode)
    (nValidationHeight : Int) (hK : 0 ≤ env.MNPAYMENTS_SIGNATURES_TOTAL) :
    ((vote.IsValid env pnode nValidationHeight).2.2 = [Effect.Misbehaving pnode.id 20] ↔
      (vote.reachesRankCheck env nValidationHeight ∧
        vote.rankAtVote env nValidationHeight > env.MNPAYMENTS_SIGNATURES_TOTAL * 2 ∧
        vote.nBlockHeight > nValidationHeight)) ∧
    (¬ (vote.reachesRankCheck env nValidationHeight ∧
        vote.rankAtVote env nValidationHeight > env.MNPAYMENTS_SIGNATURES_TOTAL * 2 ∧
        vote.nBlockHeight > nValidationHeight) →
      ∀ (id howmuch : Int), Effect.Misbehaving id howmuch ∉
        (vote.IsValid env pnode nValidationHeight).2.2) ∧
    (vote.reachesRankCheck env nValidationHeight →
      vote.rankAtVote env nValidationHeight > env.MNPAYMENTS_SIGNATURES_TOTAL →
      (vote.rankAtVote env nValidationHeight ≤ env.MNPAYMENTS_SIGNATURES_TOTAL * 2 ∨
        vote.nBlockHeight ≤ nValidationHeight) →
      (vote.IsValid env pnode nValidationHeight).1 = false ∧
      (vote.IsValid env pnode nValidationHeight).2.2 = []) := by
  by_cases hr : vote.reachesRankCheck env nValidationHeight
  · rw [IsValid_reached env vote pnode nValidationHeight hr]
    by_cases h1 : vote.rankAtVote env nValidationHeight > env.MNPAYMENTS_SIGNATURES_TOTAL
    · rw [if_pos h1]
      by_cases h2 : vote.rankAtVote env nValidationHeight > env.MNPAYMENTS_SIGNATURES_TOTAL * 2 ∧
          vote.nBlockHeight > nValidationHeight
      · rw [if_pos h2]
        refine ⟨⟨fun _ => ⟨hr, h2⟩, fun _ => rfl⟩, fun hc => absurd ⟨hr, h2⟩ hc, ?_⟩
        intro _ _ h3
        omega
      · rw [if_neg h2]
        refine ⟨⟨fun hc => by simp at hc, fun hc => absurd hc.2 h2⟩, fun _ _ _ => by simp, ?_⟩
        intro _ _ _
        exact ⟨rfl, rfl⟩
    · rw [if_neg h1]
      refine ⟨⟨fun hc => by simp at hc, fun hc => ?_⟩, fun _ _ _ => by simp, ?_⟩
      · omega
      · intro _ h3
        exact absurd h3 h1
  · refine ⟨⟨fun hc => ?_, fun hc => absurd hc.1 hr⟩, fun _ => ?_, fun h3 => absurd h3 hr⟩
    · have := IsValid_not_reached env vote pnode nValidationHeight hr pnode.id 20
      rw [hc] at this
      simp at this
    · exact IsValid_not_reached env vote pnode nValidationHeight hr

/-- Witness for C22: total 10, validation height 1000, rank 25 for every
masternode.  The vote for height 1005 costs the peer 20; the vote for height
1000 is rejected without any cost, and so is a vote for height 1005 at rank 15. -/
theorem C22_IsValid_dos_witness :
    ((demoVote 1 1005 [1]).IsValid { demoEnv with GetMasternodeRank := fun _ _ _ => 25 }
      demoPeer 1000).2.2 = [Effect.Misbehaving 1 20] ∧
    (demoVote 1 1000 [1]).IsValid { demoEnv with GetMasternodeRank := fun _ _ _ => 25 }
      demoPeer 1000 = (false, "Masternode is not in the top 10 (25)", []) ∧
    (demoVote 1 1005 [1]).IsValid { demoEnv with GetMasternodeRank := fun _ _ _ => 15 }
      demoPeer 1000 = (false, "Masternode is not in the top 10 (15)", []) :=
  ⟨(C22_IsValid_dos { demoEnv with GetMasternodeRank := fun _ _ _ => 25 } (demoVote 1 1005 [1])
      demoPeer 1000 (by decide)).1.mpr
      ⟨⟨70208, rfl, by decide, by decide⟩, by decide, by decide⟩,
    by decide, by decide⟩

/-- Claim C23.  For a vote below `nValidationHeight` from a known masternode whose
protocol version is not below `MIN_MASTERNODE_PAYMENT_PROTO_VERSION`: when the
local node is not a masternode `IsValid` returns true, with an empty error text
and no call, whatever the rank query answers; when the local node is a
masternode the verdict is the outcome of the rank test, true exactly when the
rank at height `nBlockHeight - 101` is at most `MNPAYMENTS_SIGNATURES_TOTAL`. -/
theorem C23_IsValid_past_height (env : Env) (vote : CMasternodePaymentVote) (pnode : CNode)
    (nValidationHeight nProtocolVersion : Int)
    (hpast : vote.nBlockHeight < nValidationHeight)
    (hknown : env.mnodemanFind vote.vinMasternode = some nProtocolVersion)
    (hproto : ¬ nProtocolVersion < env.MIN_MASTERNODE_PAYMENT_PROTO_VERSION) :
    (env.fMasterNode = false → vote.IsValid env pnode nValidationHeight = (true, "", [])) ∧
    (env.fMasterNode = true →
      (vote.IsValid env pnode nValidationHeight).1 =
        decide (env.GetMasternodeRank vote.vinMasternode (vote.nBlockHeight - 101)
          env.MIN_MASTERNODE_PAYMENT_PROTO_VERSION ≤ env.MNPAYMENTS_SIGNATURES_TOTAL)) := by
  have hmin := minRequiredProtocol_past env vote nValidationHeight hpast
  constructor
  · intro hf
    have hge : ¬ vote.nBlockHeight ≥ nValidationHeight := by omega
    simp only [CMasternodePaymentVote.IsValid, hknown]
    rw [if_neg hge, if_neg hproto, if_pos ⟨by simp [hf], hpast⟩]
  · intro hf
    have hr : vote.reachesRankCheck env nValidationHeight :=
      ⟨nProtocolVersion, hknown, by rw [hmin]; exact hproto, by simp [hf]⟩
    rw [IsValid_reached env vote pnode nValidationHeight hr]
    simp only [CMasternodePaymentVote.rankAtVote, hmin]
    by_cases h1 : env.GetMasternodeRank vote.vinMasternode (vote.nBlockHeight - 101)
        env.MIN_MASTERNODE_PAYMENT_PROTO_VERSION > env.MNPAYMENTS_SIGNATURES_TOTAL
    · rw [if_pos h1]
      have : ¬ env.GetMasternodeRank vote.vinMasternode (vote.nBlockHeight - 101)
        env.MIN_MASTERNODE_PAYMENT_PROTO_VERSION ≤ env.MNPAYMENTS_SIGNATURES_TOTAL := by omega
      split <;> simp [this]
    · rw [if_neg h1]
      have : env.GetMasternodeRank vote.vinMasternode (vote.nBlockHeight - 101)
        env.MIN_MASTERNODE_PAYMENT_PROTO_VERSION ≤ env.MNPAYMENTS_SIGNATURES_TOTAL := by omega
      simp [this]

/-- Witness for C23: validation height 1000, rank 25 for every masternode, total
10.  The vote for height 990 is accepted by a node that is not a masternode and
rejected by a node that is one. -/
theorem C23_IsValid_past_height_witness :
    (demoVote 1 990 [1]).IsValid { demoEnv with GetMasternodeRank := fun _ _ _ => 25 }
      demoPeer 1000 = (true, "", []) ∧
    ((demoVote 1 990 [1]).IsValid
      { demoEnv with GetMasternodeRank := fun _ _ _ => 25, fMasterNode := true }
      demoPeer 1000).1 = false :=
  ⟨(C23_IsValid_past_height { demoEnv with GetMasternodeRank := fun _ _ _ => 25 }
      (demoVote 1 990 [1]) demoPeer 1000 70208 (by decide) rfl (by decide)).1 rfl,
    (C23_IsValid_past_height
      { demoEnv with GetMasternodeRank := fun _ _ _ => 25, fMasterNode := true }
      (demoVote 1 990 [1]) demoPeer 1000 70208 (by decide) rfl (by decide)).2 rfl⟩


/-! ## Claims on the error text of the block value check -/

theorem paysTooMuch_ne_empty (nBlockHeight : Int) (actual limit : CAmount) (why : String) :
    paysTooMuch nBlockHeight actual limit why ≠ "" := by
  intro hc
  have h := congrArg String.length hc
  simp only [paysTooMuch, String.length_append] at h
  have h0 : "coinbase pays too much at height ".length = 33 := by decide
  have h1 : "".length = 0 := by decide
  omega

theorem invalidSuperblock_ne_empty (s : String) :
    "invalid superblock detected at height " ++ s ≠ "" := by
  intro hc
  have h := congrArg String.length hc
  simp only [String.length_append] at h
  have h0 : "invalid superblock detected at height ".length = 38 := by decide
  have h1 : "".length = 0 := by decide
  omega

/-- Claim C30.  On every path `IsBlockValueValid` returns false exactly when the
error text it leaves in `strErrorRet` is non-empty, and true exactly when that
text is empty. -/
theorem C30_IsBlockValueValid_error_text (env : Env) (block : CBlock) (nBlockHeight : Int)
    (blockReward : CAmount) :
    ((IsBlockValueValid env block nBlockHeight blockReward).1 = false ↔
      (IsBlockValueValid env block nBlockHeight blockReward).2 ≠ "") ∧
    ((IsBlockValueValid env block nBlockHeight blockReward).1 = true ↔
      (IsBlockValueValid env block nBlockHeight blockReward).2 = "") := by
  unfold IsBlockValueValid
  simp only []
  split_ifs <;> simp_all [paysTooMuch_ne_empty, invalidSuperblock_ne_empty]


/-! ## Lemmas on AddPayee -/

theorem AddVoteHash_payee (p : CMasternodePayee) (hash : uint256) :
    (p.AddVoteHash hash).GetPayee = p.GetPayee := by
  unfold CMasternodePayee.AddVoteHash CMasternodePayee.GetPayee
  split <;> rfl

theorem AddVoteHash_mem (p : CMasternodePayee) (hash : uint256) :
    hash ∈ (p.AddVoteHash hash).vecVoteHashes := by
  unfold CMasternodePayee.AddVoteHash
  split
  · assumption
  · simp

theorem AddVoteHash_twice (p : CMasternodePayee) (hash : uint256) :
    (p.AddVoteHash hash).AddVoteHash hash = p.AddVoteHash hash := by
  have h := AddVoteHash_mem p hash
  generalize p.AddVoteHash hash = q at h
  unfold CMasternodePayee.AddVoteHash
  rw [if_pos h]

theorem addPayeeLoop_twice (payee : CScript) (hash : uint256) (l : List CMasternodePayee) :
    CMasternodeBlockPayees.addPayeeLoop payee hash (CMasternodeBlockPayees.addPayeeLoop payee hash l) = CMasternodeBlockPayees.addPayeeLoop payee hash l := by
  induction l with
  | nil => simp [CMasternodeBlockPayees.addPayeeLoop, CMasternodePayee.GetPayee, CMasternodePayee.AddVoteHash]
  | cons p rest ih =>
    by_cases hp : p.GetPayee = payee
    · have hq : (p.AddVoteHash hash).GetPayee = payee := by rw [AddVoteHash_payee]; exact hp
      simp only [CMasternodeBlockPayees.addPayeeLoop, hp, if_true]
      simp only [CMasternodeBlockPayees.addPayeeLoop, hq, if_true, AddVoteHash_twice]
    · simp only [CMasternodeBlockPayees.addPayeeLoop, hp, if_false]
      rw [ih]

theorem addPayeeLoop_spec (payee : CScript) (hash : uint256) (l : List CMasternodePayee) :
    (∃ pre p post, l = pre ++ p :: post ∧ (∀ q ∈ pre, q.GetPayee ≠ payee) ∧
        p.GetPayee = payee ∧ CMasternodeBlockPayees.addPayeeLoop payee hash l = pre ++ p.AddVoteHash hash :: post) ∨
    ((∀ q ∈ l, q.GetPayee ≠ payee) ∧ CMasternodeBlockPayees.addPayeeLoop payee hash l = l ++ [⟨payee, [hash]⟩]) := by
  induction l with
  | nil => exact Or.inr ⟨by simp, rfl⟩
  | cons p rest ih =>
    by_cases hp : p.GetPayee = payee
    · refine Or.inl ⟨[], p, rest, rfl, by simp, hp, ?_⟩
      simp [CMasternodeBlockPayees.addPayeeLoop, hp]
    · rcases ih with ⟨pre, p1, post, hl, hpre, hp1, hres⟩ | ⟨hall, hres⟩
      · refine Or.inl ⟨p :: pre, p1, post, by simp [hl], ?_, hp1, ?_⟩
        · intro q hq
          rcases List.mem_cons.mp hq with rfl | hq
          · exact hp
          · exact hpre q hq
        · simp [CMasternodeBlockPayees.addPayeeLoop, hp, hres]
      · refine Or.inr ⟨?_, ?_⟩
        · intro q hq
          rcases List.mem_cons.mp hq with rfl | hq
          · exact hp
          · exact hall q hq
        · simp [CMasternodeBlockPayees.addPayeeLoop, hp, hres]

theorem addPayeeLoop_scripts (payee : CScript) (hash : uint256) (l : List CMasternodePayee) :
    (CMasternodeBlockPayees.addPayeeLoop payee hash l).map CMasternodePayee.GetPayee =
      if payee ∈ l.map CMasternodePayee.GetPayee then l.map CMasternodePayee.GetPayee
      else l.map CMasternodePayee.GetPayee ++ [payee] := by
  induction l with
  | nil => simp [CMasternodeBlockPayees.addPayeeLoop, CMasternodePayee.GetPayee]
  | cons p rest ih =>
    by_cases hp : p.GetPayee = payee
    · simp [CMasternodeBlockPayees.addPayeeLoop, hp, AddVoteHash_payee]
    · have hp2 : ¬ payee = p.GetPayee := fun h => hp h.symm
      simp only [CMasternodeBlockPayees.addPayeeLoop, hp, if_false, List.map_cons, ih, List.mem_cons, hp2, false_or]
      split <;> simp

/-! ## Claims on AddPayee -/

/-- Claim C26.  For every `CMasternodeBlockPayees` and every vote, `AddPayee` of
the vote applied twice leaves the same height, entries and vote counts as
applied once.  One call either finds the first entry whose script is the vote's
payee and replaces it by that entry with the vote's hash added (same script,
hash among its hashes), every other entry staying as it was, or, when no entry
has that script, appends the new entry holding the vote's hash alone. -/
theorem C26_AddPayee_idempotent (env : Env) (self : CMasternodeBlockPayees)
    (vote : CMasternodePaymentVote) :
    (self.AddPayee env vote).AddPayee env vote = self.AddPayee env vote ∧
    ((self.AddPayee env vote).AddPayee env vote).vecPayees.map CMasternodePayee.GetVoteCount =
      (self.AddPayee env vote).vecPayees.map CMasternodePayee.GetVoteCount ∧
    (self.AddPayee env vote).nBlockHeight = self.nBlockHeight ∧
    ((∃ pre p post, self.vecPayees = pre ++ p :: post ∧
        (∀ q ∈ pre, q.GetPayee ≠ vote.payee) ∧ p.GetPayee = vote.payee ∧
        (self.AddPayee env vote).vecPayees =
          pre ++ p.AddVoteHash (vote.GetHash env.hashOf) :: post ∧
        (p.AddVoteHash (vote.GetHash env.hashOf)).GetPayee = vote.payee ∧
        vote.GetHash env.hashOf ∈ (p.AddVoteHash (vote.GetHash env.hashOf)).GetVoteHashes) ∨
      ((∀ q ∈ self.vecPayees, q.GetPayee ≠ vote.payee) ∧
        (self.AddPayee env vote).vecPayees =
          self.vecPayees ++ [⟨vote.payee, [vote.GetHash env.hashOf]⟩])) := by
  have h1 : (self.AddPayee env vote).AddPayee env vote = self.AddPayee env vote := by
    simp only [CMasternodeBlockPayees.AddPayee, addPayeeLoop_twice]
  refine ⟨h1, by rw [h1], rfl, ?_⟩
  rcases addPayeeLoop_spec vote.payee (vote.GetHash env.hashOf) self.vecPayees with
    ⟨pre, p, post, hl, hpre, hp, hres⟩ | ⟨hall, hres⟩
  · exact Or.inl ⟨pre, p, post, hl, hpre, hp, hres, by rw [AddVoteHash_payee]; exact hp,
      AddVoteHash_mem p _⟩
  · exact Or.inr ⟨hall, hres⟩


theorem addPayees_append (env : Env) (self : CMasternodeBlockPayees)
    (votes : List CMasternodePaymentVote) (vote : CMasternodePaymentVote) :
    self.addPayees env (votes ++ [vote]) = (self.addPayees env votes).AddPayee env vote := by
  induction votes generalizing self with
  | nil => rfl
  | cons v rest ih => exact ih (self.AddPayee env v)

theorem findIdx_payee_lt (votes : List CMasternodePaymentVote) (s : CScript)
    (hs : s ∈ votes.map (fun v => v.payee)) :
    votes.findIdx (fun v => decide (v.payee = s)) < votes.length := by
  rw [List.findIdx_lt_length]
  obtain ⟨x, hx, hxs⟩ := List.mem_map.mp hs
  exact ⟨x, hx, by simpa using hxs⟩

theorem addPayees_scripts (env : Env) (nBlockHeight : Int)
    (votes : List CMasternodePaymentVote) :
    (∀ s, s ∈ ((CMasternodeBlockPayees.mk nBlockHeight []).addPayees env votes).vecPayees.map
        CMasternodePayee.GetPayee ↔ s ∈ votes.map (fun v => v.payee)) ∧
    (((CMasternodeBlockPayees.mk nBlockHeight []).addPayees env votes).vecPayees.map
        CMasternodePayee.GetPayee).Pairwise
      (fun s t => votes.findIdx (fun v => decide (v.payee = s)) <
        votes.findIdx (fun v => decide (v.payee = t))) := by
  induction votes using List.reverseRecOn with
  | nil => simp [CMasternodeBlockPayees.addPayees]
  | append_singleton l v ih =>
    obtain ⟨hmem, hpw⟩ := ih
    rw [addPayees_append]
    simp only [CMasternodeBlockPayees.AddPayee, addPayeeLoop_scripts, List.map_append,
      List.map_cons, List.map_nil]
    generalize ((CMasternodeBlockPayees.mk nBlockHeight []).addPayees env l).vecPayees.map
      CMasternodePayee.GetPayee = S at hmem hpw ⊢
    have hidx : ∀ s, s ∈ S → (l ++ [v]).findIdx (fun w => decide (w.payee = s)) =
        l.findIdx (fun w => decide (w.payee = s)) := by
      intro s hs
      rw [List.findIdx_append, if_pos (findIdx_payee_lt l s ((hmem s).mp hs))]
    have hpw2 : S.Pairwise (fun s t => (l ++ [v]).findIdx (fun w => decide (w.payee = s)) <
        (l ++ [v]).findIdx (fun w => decide (w.payee = t))) := by
      refine List.Pairwise.imp_of_mem ?_ hpw
      intro a b ha hb hab
      rw [hidx a ha, hidx b hb]
      exact hab
    by_cases hv : v.payee ∈ S
    · rw [if_pos hv]
      refine ⟨fun s => ?_, hpw2⟩
      rw [hmem s, List.mem_append, List.mem_singleton]
      constructor
      · exact Or.inl
      · rintro (h | rfl)
        · exact h
        · exact (hmem _).mp hv
    · rw [if_neg hv]
      refine ⟨fun s => ?_, ?_⟩
      · simp only [List.mem_append, List.mem_singleton, hmem s]
      · rw [List.pairwise_append]
        refine ⟨hpw2, List.pairwise_singleton _ _, ?_⟩
        intro a ha b hb
        rw [List.mem_singleton] at hb
        subst hb
        have hnot : ¬ l.findIdx (fun w => decide (w.payee = v.payee)) < l.length := by
          rw [List.findIdx_lt_length]
          rintro ⟨x, hx, hxs⟩
          exact hv ((hmem _).mpr (List.mem_map.mpr ⟨x, hx, by simpa using hxs⟩))
        rw [hidx a ha, List.findIdx_append, if_neg hnot]
        have := findIdx_payee_lt l a ((hmem a).mp ha)
        omega

/-- Claim C27.  Starting from a `CMasternodeBlockPayees` without entries, after
any run of `AddPayee` calls the scripts of the entries are pairwise different,
they are exactly the payee scripts of the votes of the run, and they stand in
the order in which the run first met them: of two entries the earlier one has
the script whose first vote came earlier in the run. -/
theorem C27_AddPayee_entries_distinct_in_first_seen_order (env : Env) (nBlockHeight : Int)
    (votes : List CMasternodePaymentVote) :
    (((CMasternodeBlockPayees.mk nBlockHeight []).addPayees env votes).vecPayees.map
        CMasternodePayee.GetPayee).Nodup ∧
    (∀ s, s ∈ ((CMasternodeBlockPayees.mk nBlockHeight []).addPayees env votes).vecPayees.map
        CMasternodePayee.GetPayee ↔ s ∈ votes.map (fun v => v.payee)) ∧
    (((CMasternodeBlockPayees.mk nBlockHeight []).addPayees env votes).vecPayees.map
        CMasternodePayee.GetPayee).Pairwise
      (fun s t => votes.findIdx (fun v => decide (v.payee = s)) <
        votes.findIdx (fun v => decide (v.payee = t))) := by
  obtain ⟨hmem, hpw⟩ := addPayees_scripts env nBlockHeight votes
  refine ⟨?_, hmem, hpw⟩
  refine List.Pairwise.imp ?_ hpw
  intro a b hab heq
  rw [heq] at hab
  exact lt_irrefl _ hab


/-! ## Lemmas on the storage limit -/

theorem GetStorageLimit_ge_nMinBlocksToStore (env : Env) :
    env.nMinBlocksToStore ≤ CMasternodePayments.GetStorageLimit env :=
  le_max_right _ _


/-! ## Lemmas on the tip update -/

namespace CMasternodePayments

theorem mapCount_mapInsert_keeps {K V : Type} [DecidableEq K] [LT K]
    [DecidableRel (fun a b : K => a < b)] (m : List (K × V)) (k k2 : K) (v : V)
    (h : mapCount m k2 = 1) : mapCount (mapInsert m k v) k2 = 1 := by
  unfold mapCount at h ⊢
  by_cases hk : k2 = k
  · subst hk
    simp [mapFind_mapInsert_self]
  · rw [mapFind_mapInsert_ne m k k2 v hk]
    exact h

theorem AddPaymentVote_keeps_keys (env : Env) (self : CMasternodePayments)
    (vote : CMasternodePaymentVote) :
    (∀ hash, mapCount self.mapMasternodePaymentVotes hash = 1 →
      mapCount (self.AddPaymentVote env vote).2.mapMasternodePaymentVotes hash = 1) ∧
    (∀ h, mapCount self.mapMasternodeBlocks h = 1 →
      mapCount (self.AddPaymentVote env vote).2.mapMasternodeBlocks h = 1) ∧
    (self.AddPaymentVote env vote).2.pCurrentBlockIndex = self.pCurrentBlockIndex := by
  unfold AddPaymentVote
  split
  · exact ⟨fun _ h => h, fun _ h => h, rfl⟩
  · split
    · exact ⟨fun _ h => h, fun _ h => h, rfl⟩
    · refine ⟨fun hash h => mapCount_mapInsert_keeps _ _ _ _ h, fun h hh => ?_, rfl⟩
      apply mapCount_mapInsert_keeps
      split
      · exact mapCount_mapInsert_keeps _ _ _ _ hh
      · exact hh

end CMasternodePayments


/-! ## Claims on the tip update -/

section MapEntries
variable {K V : Type} [DecidableEq K]

theorem mapFind_mem (m : List (K × V)) (k : K) (v : V) (h : mapFind m k = some v) :
    (k, v) ∈ m := by
  induction m with
  | nil => simp [mapFind] at h
  | cons e rest ih =>
    obtain ⟨k', v'⟩ := e
    by_cases hk : k' = k
    · subst hk
      simp only [mapFind, if_true, Option.some.injEq] at h
      subst h
      exact List.mem_cons_self _ _
    · simp only [mapFind, hk, if_false] at h
      exact List.mem_cons_of_mem _ (ih h)

theorem mem_mapErase (m : List (K × V)) (k : K) (e : K × V) (h : e ∈ mapErase m k) : e ∈ m :=
  (List.mem_filter.mp h).1

theorem mapFind_filter_keep (m : List (K × V)) (keep : K × V → Bool) (k : K) (v : V)
    (h : mapFind m k = some v) (hk : keep (k, v) = true) :
    mapFind (m.filter keep) k = some v := by
  induction m with
  | nil => simp [mapFind] at h
  | cons e rest ih =>
    obtain ⟨k', v'⟩ := e
    by_cases hkk : k' = k
    · subst hkk
      simp only [mapFind, if_true, Option.some.injEq] at h
      subst h
      rw [List.filter_cons_of_pos hk]
      simp [mapFind]
    · simp only [mapFind, hkk, if_false] at h
      by_cases hkeep : keep (k', v') = true
      · rw [List.filter_cons_of_pos hkeep]
        simp only [mapFind, hkk, if_false]
        exact ih h
      · rw [List.filter_cons_of_neg hkeep]
        exact ih h

variable [LT K] [DecidableRel (fun a b : K => a < b)]

theorem mem_mapInsert (m : List (K × V)) (k : K) (v : V) (e : K × V)
    (h : e ∈ mapInsert m k v) : e = (k, v) ∨ e ∈ m := by
  induction m with
  | nil => simpa [mapInsert] using h
  | cons a rest ih =>
    obtain ⟨k', v'⟩ := a
    unfold mapInsert at h
    split at h
    · rcases List.mem_cons.mp h with h | h
      · exact Or.inl h
      · exact Or.inr (List.mem_cons_of_mem _ h)
    · split at h
      · rcases List.mem_cons.mp h with h | h
        · exact Or.inl h
        · exact Or.inr h
      · rcases List.mem_cons.mp h with h | h
        · exact Or.inr (h ▸ List.mem_cons_self _ _)
        · rcases ih h with h | h
          · exact Or.inl h
          · exact Or.inr (List.mem_cons_of_mem _ h)

theorem mapInsert_mapInsert_self (m : List (K × V)) (k : K) (v w : V) :
    mapInsert (mapInsert m k v) k w = mapInsert m k w := by
  induction m with
  | nil => simp [mapInsert]
  | cons a rest ih =>
    obtain ⟨k', v'⟩ := a
    by_cases h1 : k' = k
    · simp [mapInsert, h1]
    · by_cases h2 : k < k'
      · simp [mapInsert, h1, h2]
      · simp [mapInsert, h1, h2, ih]

end MapEntries


/-! ## Lemmas on tallies inside the registry -/

theorem AddVoteHash_nodup (p : CMasternodePayee) (hash : uint256)
    (h : p.GetVoteHashes.Nodup) : (p.AddVoteHash hash).GetVoteHashes.Nodup := by
  unfold CMasternodePayee.AddVoteHash CMasternodePayee.GetVoteHashes at *
  split
  · exact h
  · next hm =>
    refine List.Nodup.append h (List.nodup_singleton _) ?_
    intro a ha hb
    rw [List.mem_singleton] at hb
    exact hm (hb ▸ ha)

theorem AddVoteHash_keeps (p : CMasternodePayee) (hash k : uint256)
    (h : k ∈ p.GetVoteHashes) : k ∈ (p.AddVoteHash hash).GetVoteHashes := by
  unfold CMasternodePayee.AddVoteHash CMasternodePayee.GetVoteHashes at *
  split
  · exact h
  · exact List.mem_append_left _ h

theorem AddVoteHash_back (p : CMasternodePayee) (hash k : uint256)
    (h : k ∈ (p.AddVoteHash hash).GetVoteHashes) : k = hash ∨ k ∈ p.GetVoteHashes := by
  unfold CMasternodePayee.AddVoteHash CMasternodePayee.GetVoteHashes at *
  split at h
  · exact Or.inr h
  · rcases List.mem_append.mp h with h | h
    · exact Or.inr h
    · exact Or.inl (List.mem_singleton.mp h)

theorem addPayeeLoop_nodup (payee : CScript) (hash : uint256) (l : List CMasternodePayee)
    (h : ∀ p ∈ l, p.GetVoteHashes.Nodup) :
    ∀ p ∈ CMasternodeBlockPayees.addPayeeLoop payee hash l, p.GetVoteHashes.Nodup := by
  induction l with
  | nil =>
    intro p hp
    simp only [CMasternodeBlockPayees.addPayeeLoop, List.mem_singleton] at hp
    subst hp
    exact List.nodup_singleton _
  | cons q rest ih =>
    intro p hp
    unfold CMasternodeBlockPayees.addPayeeLoop at hp
    split at hp
    · rcases List.mem_cons.mp hp with rfl | hp
      · exact AddVoteHash_nodup q hash (h q (List.mem_cons_self _ _))
      · exact h p (List.mem_cons_of_mem _ hp)
    · rcases List.mem_cons.mp hp with rfl | hp
      · exact h p (List.mem_cons_self _ _)
      · exact ih (fun x hx => h x (List.mem_cons_of_mem _ hx)) p hp

theorem addPayeeLoop_keeps (payee : CScript) (hash : uint256) (l : List CMasternodePayee)
    (q : CMasternodePayee) (k : uint256) (hq : q ∈ l) (hk : k ∈ q.GetVoteHashes) :
    ∃ p ∈ CMasternodeBlockPayees.addPayeeLoop payee hash l,
      p.GetPayee = q.GetPayee ∧ k ∈ p.GetVoteHashes := by
  induction l with
  | nil => simp at hq
  | cons a rest ih =>
    unfold CMasternodeBlockPayees.addPayeeLoop
    split
    · rcases List.mem_cons.mp hq with rfl | hq
      · exact ⟨q.AddVoteHash hash, List.mem_cons_self _ _, AddVoteHash_payee q hash,
          AddVoteHash_keeps q hash k hk⟩
      · exact ⟨q, List.mem_cons_of_mem _ hq, rfl, hk⟩
    · rcases List.mem_cons.mp hq with rfl | hq
      · exact ⟨q, List.mem_cons_self _ _, rfl, hk⟩
      · obtain ⟨p, hp, hpp, hpk⟩ := ih hq
        exact ⟨p, List.mem_cons_of_mem _ hp, hpp, hpk⟩

theorem addPayeeLoop_records (payee : CScript) (hash : uint256) (l : List CMasternodePayee) :
    ∃ p ∈ CMasternodeBlockPayees.addPayeeLoop payee hash l,
      p.GetPayee = payee ∧ hash ∈ p.GetVoteHashes := by
  induction l with
  | nil =>
    exact ⟨⟨payee, [hash]⟩, by simp [CMasternodeBlockPayees.addPayeeLoop], rfl,
      by simp [CMasternodePayee.GetVoteHashes]⟩
  | cons a rest ih =>
    unfold CMasternodeBlockPayees.addPayeeLoop
    split
    · next ha =>
      exact ⟨a.AddVoteHash hash, List.mem_cons_self _ _,
        (AddVoteHash_payee a hash).trans ha, AddVoteHash_mem a hash⟩
    · obtain ⟨p, hp, hpp, hpk⟩ := ih
      exact ⟨p, List.mem_cons_of_mem _ hp, hpp, hpk⟩

theorem addPayeeLoop_back (payee : CScript) (hash : uint256) (l : List CMasternodePayee)
    (p : CMasternodePayee) (k : uint256)
    (hp : p ∈ CMasternodeBlockPayees.addPayeeLoop payee hash l) (hk : k ∈ p.GetVoteHashes) :
    (k = hash ∧ p.GetPayee = payee) ∨
      ∃ q ∈ l, q.GetPayee = p.GetPayee ∧ k ∈ q.GetVoteHashes := by
  induction l with
  | nil =>
    simp only [CMasternodeBlockPayees.addPayeeLoop, List.mem_singleton] at hp
    subst hp
    left
    simpa [CMasternodePayee.GetVoteHashes, CMasternodePayee.GetPayee] using hk
  | cons a rest ih =>
    unfold CMasternodeBlockPayees.addPayeeLoop at hp
    split at hp
    · next ha =>
      rcases List.mem_cons.mp hp with rfl | hp
      · rcases AddVoteHash_back a hash k hk with h | h
        · exact Or.inl ⟨h, (AddVoteHash_payee a hash).trans ha⟩
        · exact Or.inr ⟨a, List.mem_cons_self _ _, (AddVoteHash_payee a hash).symm, h⟩
      · exact Or.inr ⟨p, List.mem_cons_of_mem _ hp, rfl, hk⟩
    · rcases List.mem_cons.mp hp with rfl | hp
      · exact Or.inr ⟨p, List.mem_cons_self _ _, rfl, hk⟩
      · rcases ih hp with h | ⟨q, hq, hqq, hqk⟩
        · exact Or.inl h
        · exact Or.inr ⟨q, List.mem_cons_of_mem _ hq, hqq, hqk⟩

theorem addPayeeLoop_scripts_nodup (payee : CScript) (hash : uint256)
    (l : List CMasternodePayee) (h : (l.map CMasternodePayee.GetPayee).Nodup) :
    ((CMasternodeBlockPayees.addPayeeLoop payee hash l).map CMasternodePayee.GetPayee).Nodup := by
  rw [addPayeeLoop_scripts]
  split
  · exact h
  · next hm =>
    refine List.Nodup.append h (List.nodup_singleton _) ?_
    intro a ha hb
    rw [List.mem_singleton] at hb
    exact hm (hb ▸ ha)

namespace CMasternodePayments

/-- A successful `AddPaymentVote` in one piece: the vote goes under its hash, and
the tally of its height, the present one or a fresh one, takes the vote. -/
theorem AddPaymentVote_true_eq (env : Env) (self : CMasternodePayments)
    (vote : CMasternodePaymentVote) (h : (self.AddPaymentVote env vote).1 = true) :
    (self.AddPaymentVote env vote).2 =
      { self with
        mapMasternodePaymentVotes :=
          mapInsert self.mapMasternodePaymentVotes (vote.GetHash env.hashOf) vote
        mapMasternodeBlocks := mapInsert self.mapMasternodeBlocks vote.nBlockHeight
          (((mapFind self.mapMasternodeBlocks vote.nBlockHeight).getD
            ⟨vote.nBlockHeight, []⟩).AddPayee env vote) } := by
  unfold AddPaymentVote at h ⊢
  split
  · next hb => simp [hb] at h
  · next hb =>
    split
    · next hv => simp [hb, hv] at h
    · by_cases hc : mapCount self.mapMasternodeBlocks vote.nBlockHeight = 0
      · have hnone := (mapCount_eq_zero_iff _ _).mp hc
        simp only [hc, if_true, mapFind_mapInsert_self, Option.getD_some,
          mapInsert_mapInsert_self, hnone, Option.getD_none]
      · have hsome := (mapCount_ne_zero_iff _ _).mp hc
        obtain ⟨bp, hbp⟩ := Option.isSome_iff_exists.mp hsome
        simp only [hc, if_false, hbp, Option.getD_some]

end CMasternodePayments


/-! ## Verified votes stay tallied -/

namespace CMasternodePayments

theorem votesTallied_storeUnverified (hashOf : COutPoint → Int → CScript → uint256) (env : Env)
    (self : CMasternodePayments) (vote : CMasternodePaymentVote) (hH : env.hashOf = hashOf)
    (h : self.votesTallied hashOf) : (self.storeUnverified env vote).votesTallied hashOf := by
  refine ⟨?_, h.2⟩
  intro e he
  rcases mem_mapInsert _ _ _ _ he with rfl | he
  · refine ⟨by rw [← hH]; rfl, ?_⟩
    intro hv
    simp [CMasternodePaymentVote.MarkAsNotVerified, CMasternodePaymentVote.IsVerified] at hv
  · exact h.1 e he

theorem votesTallied_CanVote (hashOf : COutPoint → Int → CScript → uint256)
    (self : CMasternodePayments) (outMasternode : COutPoint) (nBlockHeight : Int)
    (h : self.votesTallied hashOf) :
    (self.CanVote outMasternode nBlockHeight).2.votesTallied hashOf := by
  obtain ⟨hb, hv, _⟩ := CanVote_other_fields self outMasternode nBlockHeight
  unfold votesTallied
  rw [hb, hv]
  exact h

theorem votesTallied_AddPaymentVote (hashOf : COutPoint → Int → CScript → uint256) (env : Env)
    (self : CMasternodePayments) (vote : CMasternodePaymentVote) (hH : env.hashOf = hashOf)
    (h : self.votesTallied hashOf) : (self.AddPaymentVote env vote).2.votesTallied hashOf := by
  cases hres : (self.AddPaymentVote env vote).1 with
  | false => rw [AddPaymentVote_false env self vote hres]; exact h
  | true =>
    rw [AddPaymentVote_true_eq env self vote hres]
    have hbase : (((mapFind self.mapMasternodeBlocks vote.nBlockHeight).getD
          ⟨vote.nBlockHeight, []⟩).vecPayees.map CMasternodePayee.GetPayee).Nodup ∧
        ∀ p ∈ ((mapFind self.mapMasternodeBlocks vote.nBlockHeight).getD
          ⟨vote.nBlockHeight, []⟩).vecPayees, p.GetVoteHashes.Nodup := by
      cases hf : mapFind self.mapMasternodeBlocks vote.nBlockHeight with
      | none => simp
      | some bp => exact h.2 _ (mapFind_mem _ _ _ hf)
    refine ⟨?_, ?_⟩
    · intro e he
      rcases mem_mapInsert _ _ _ _ he with rfl | he
      · refine ⟨by rw [← hH], fun _ => ?_⟩
        refine ⟨_, mapFind_mapInsert_self _ _ _, ?_⟩
        exact addPayeeLoop_records vote.payee (vote.GetHash env.hashOf) _
      · obtain ⟨hk, ht⟩ := h.1 e he
        refine ⟨hk, fun hv => ?_⟩
        obtain ⟨bp, hbp, p, hp, hpp, hpk⟩ := ht hv
        by_cases hh : e.2.nBlockHeight = vote.nBlockHeight
        · rw [hh] at hbp ⊢
          refine ⟨_, mapFind_mapInsert_self _ _ _, ?_⟩
          simp only [hbp, Option.getD_some]
          obtain ⟨p2, hp2, hpp2, hpk2⟩ :=
            addPayeeLoop_keeps vote.payee (vote.GetHash env.hashOf) bp.vecPayees p e.1 hp hpk
          exact ⟨p2, hp2, hpp2.trans hpp, hpk2⟩
        · refine ⟨bp, ?_, p, hp, hpp, hpk⟩
          simp only
          rw [mapFind_mapInsert_ne _ _ _ _ hh]
          exact hbp
    · intro e he
      rcases mem_mapInsert _ _ _ _ he with rfl | he
      · exact ⟨addPayeeLoop_scripts_nodup _ _ _ hbase.1, addPayeeLoop_nodup _ _ _ hbase.2⟩
      · exact h.2 e he

theorem checkAndRemoveLoop_blocks_mem (nHeight nLimit : Int)
    (votes : List (uint256 × CMasternodePaymentVote)) :
    ∀ blocks : List (Int × CMasternodeBlockPayees),
      ∀ e ∈ (checkAndRemoveLoop nHeight nLimit votes blocks).2, e ∈ blocks := by
  induction votes with
  | nil => intro blocks e he; simpa [checkAndRemoveLoop] using he
  | cons a rest ih =>
    intro blocks e he
    obtain ⟨hash, vote⟩ := a
    unfold checkAndRemoveLoop at he
    split at he
    · exact mem_mapErase _ _ _ (ih _ e he)
    · exact ih blocks e he

theorem votesTallied_CheckAndRemove (hashOf : COutPoint → Int → CScript → uint256) (env : Env)
    (self : CMasternodePayments) (h : self.votesTallied hashOf) :
    (self.CheckAndRemove env).votesTallied hashOf := by
  unfold CheckAndRemove
  cases hTip : self.pCurrentBlockIndex with
  | none => exact h
  | some pindex =>
    refine ⟨?_, ?_⟩
    · intro e he
      simp only [checkAndRemoveLoop_votes] at he
      obtain ⟨hmem, hkeep⟩ := List.mem_filter.mp he
      have hkeep2 : wrapInt32 (pindex.nHeight - e.2.nBlockHeight) ≤ GetStorageLimit env := by
        simpa using hkeep
      obtain ⟨hk, ht⟩ := h.1 e hmem
      refine ⟨hk, fun hv => ?_⟩
      obtain ⟨bp, hbp, hrest⟩ := ht hv
      refine ⟨bp, ?_, hrest⟩
      simp only
      rw [checkAndRemoveLoop_find_kept _ _ _ hkeep2]
      exact hbp
    · intro e he
      exact h.2 e (checkAndRemoveLoop_blocks_mem _ _ _ _ e he)

theorem votesTallied_Clear (hashOf : COutPoint → Int → CScript → uint256)
    (self : CMasternodePayments) : self.Clear.votesTallied hashOf := by
  simp [votesTallied, Clear]

theorem votesTallied_processVote (hashOf : COutPoint → Int → CScript → uint256) (env : Env)
    (self : CMasternodePayments) (pfrom : CNode) (vote : CMasternodePaymentVote)
    (hH : env.hashOf = hashOf) (h : self.votesTallied hashOf) :
    (processVote env self pfrom vote).registry.votesTallied hashOf := by
  have h1 := votesTallied_storeUnverified hashOf env self vote hH h
  have h2 := votesTallied_CanVote hashOf _ vote.vinMasternode vote.nBlockHeight h1
  have h3 := votesTallied_AddPaymentVote hashOf env _ vote hH h2
  rcases processVote_cases env self pfrom vote with
    ⟨_, hr⟩ | ⟨_, hr⟩ | ⟨_, hr, _⟩ | ⟨_, hr, _⟩ | ⟨_, hr, _⟩ <;> rw [hr] <;> assumption

theorem votesTallied_ProcessMessage (hashOf : COutPoint → Int → CScript → uint256) (env : Env)
    (self : CMasternodePayments) (pfrom : CNode) (msg : NetMsg)
    (hH : env.hashOf = hashOf) (h : self.votesTallied hashOf) :
    (ProcessMessage env self pfrom msg).registry.votesTallied hashOf := by
  unfold ProcessMessage
  split
  · exact h
  · split
    · exact h
    · cases msg with
      | MASTERNODEPAYMENTSYNC n =>
        simp only
        split
        · exact h
        · split <;> exact h
      | MASTERNODEPAYMENTVOTE vote => exact votesTallied_processVote hashOf env self pfrom vote hH h
      | other => exact h

theorem votesTallied_applyOps (hashOf : COutPoint → Int → CScript → uint256)
    (ops : List RegistryOp) :
    ∀ self : CMasternodePayments, (∀ op ∈ ops, op.usesHash hashOf) →
      self.votesTallied hashOf → (self.applyOps ops).votesTallied hashOf := by
  induction ops with
  | nil => intro self _ h; exact h
  | cons op rest ih =>
    intro self hops h
    refine ih _ (fun o ho => hops o (List.mem_cons_of_mem _ ho)) ?_
    have hop := hops op (List.mem_cons_self _ _)
    cases op with
    | message env pfrom msg => exact votesTallied_ProcessMessage hashOf env self pfrom msg hop h
    | addPaymentVote env vote => exact votesTallied_AddPaymentVote hashOf env self vote hop h
    | checkAndRemove env => exact votesTallied_CheckAndRemove hashOf env self h
    | clear => exact votesTallied_Clear hashOf self
    | setTip pindex => exact h

end CMasternodePayments


/-! ## Claims on the registry invariants -/

/-- Counterexample for C28.  From the empty registry: the tip is set to height
1000, then a peer sends the vote of masternode 1 for payee `[1]`.  For height
5000 the vote is dropped as out of range, for height 1005 with the masternode
at rank 25 of 10 it is dropped as invalid; both times the vote map holds the
vote afterwards (marked as not verified) and the block map holds no tally at
all. -/
theorem C28_stored_vote_without_tally_counterexample :
    (CMasternodePayments.applyOps ⟨[], [], [], none⟩
      [RegistryOp.setTip ⟨1000, 77, []⟩,
        RegistryOp.message demoEnv demoPeer
          (NetMsg.MASTERNODEPAYMENTVOTE (demoVote 1 5000 [1]))]) =
      ⟨[], [(6000001, ⟨⟨1, 0⟩, 5000, [1], [1], false⟩)], [], some ⟨1000, 77, []⟩⟩ ∧
    (CMasternodePayments.ProcessMessage demoEnv demoRegistry demoPeer
      (NetMsg.MASTERNODEPAYMENTVOTE (demoVote 1 5000 [1]))).outcome = Handled.outOfRange ∧
    (CMasternodePayments.applyOps ⟨[], [], [], none⟩
      [RegistryOp.setTip ⟨1000, 77, []⟩,
        RegistryOp.message { demoEnv with GetMasternodeRank := fun _ _ _ => 25 } demoPeer
          (NetMsg.MASTERNODEPAYMENTVOTE (demoVote 1 1005 [1]))]) =
      ⟨[], [(2005001, ⟨⟨1, 0⟩, 1005, [1], [1], false⟩)], [], some ⟨1000, 77, []⟩⟩ ∧
    (CMasternodePayments.ProcessMessage { demoEnv with GetMasternodeRank := fun _ _ _ => 25 }
      demoRegistry demoPeer
      (NetMsg.MASTERNODEPAYMENTVOTE (demoVote 1 1005 [1]))).outcome = Handled.invalid := by
  decide

/-- Claim C28, amended.  In every registry state reachable from the empty registry
through peer messages, `AddPaymentVote`, `CheckAndRemove`, `Clear` and tip
assignments, every vote of the vote map that is marked verified sits under its
own hash, the block map has a tally for its height, and that tally has exactly
one entry with the vote's payee, which holds the vote's hash exactly once. -/
theorem C28_verified_votes_tallied_once (hashOf : COutPoint → Int → CScript → uint256)
    (self : CMasternodePayments) (hr : self.reachable hashOf) :
    ∀ e ∈ self.mapMasternodePaymentVotes, e.2.IsVerified = true →
      e.2.GetHash hashOf = e.1 ∧
      ∃ bp, mapFind self.mapMasternodeBlocks e.2.nBlockHeight = some bp ∧
        ∃ p ∈ bp.vecPayees, p.GetPayee = e.2.payee ∧ p.GetVoteHashes.count e.1 = 1 ∧
          ∀ q ∈ bp.vecPayees, q.GetPayee = e.2.payee → q = p := by
  obtain ⟨ops, hops, rfl⟩ := hr
  have hinv := CMasternodePayments.votesTallied_applyOps hashOf ops ⟨[], [], [], none⟩ hops
    (by simp [CMasternodePayments.votesTallied])
  intro e he hv
  obtain ⟨hk, ht⟩ := hinv.1 e he
  obtain ⟨bp, hbp, p, hp, hpp, hpk⟩ := ht hv
  obtain ⟨hscripts, hhashes⟩ := hinv.2 _ (mapFind_mem _ _ _ hbp)
  refine ⟨hk, bp, hbp, p, hp, hpp, List.count_eq_one_of_mem (hhashes p hp) hpk, ?_⟩
  intro q hq hqp
  exact List.inj_on_of_nodup_map hscripts hq hp (hqp.trans hpp.symm)

/-- Witness for C28: from the empty registry the tip is set to height 1000 and a
peer sends the vote of masternode 1 for height 1005, which is admitted; it sits
under its hash 2005001 and height 1005 has a tally. -/
theorem C28_verified_votes_tallied_once_witness :
    demoEnv.hashOf ⟨1, 0⟩ 1005 [1] = 2005001 ∧
    (mapFind (CMasternodePayments.applyOps ⟨[], [], [], none⟩
      [RegistryOp.setTip ⟨1000, 77, []⟩,
        RegistryOp.message demoEnv demoPeer
          (NetMsg.MASTERNODEPAYMENTVOTE (demoVote 1 1005 [1]))]).mapMasternodeBlocks
      1005).isSome = true :=
  have h := C28_verified_votes_tallied_once demoEnv.hashOf
    (CMasternodePayments.applyOps ⟨[], [], [], none⟩
      [RegistryOp.setTip ⟨1000, 77, []⟩,
        RegistryOp.message demoEnv demoPeer
          (NetMsg.MASTERNODEPAYMENTVOTE (demoVote 1 1005 [1]))])
    ⟨_, by simp [RegistryOp.usesHash], rfl⟩ (2005001, demoVote 1 1005 [1]) (by decide) rfl
  ⟨h.1, by obtain ⟨bp, hbp, _⟩ := h.2; exact congrArg Option.isSome hbp⟩


/-! ## Tally entries stay backed by votes -/

namespace CMasternodePayments

theorem backed_mapInsert (hashOf : COutPoint → Int → CScript → uint256)
    (hSame : ∀ o h p o2 h2 p2, hashOf o h p = hashOf o2 h2 p2 → h = h2 ∧ p = p2)
    (votes : List (uint256 × CMasternodePaymentVote))
    (hKeys : ∀ e ∈ votes, e.2.GetHash hashOf = e.1) (w : CMasternodePaymentVote)
    (k : uint256) (h : Int) (s : CScript)
    (hb : ∃ v, mapFind votes k = some v ∧ v.nBlockHeight = h ∧ v.payee = s) :
    (∃ v, mapFind (mapInsert votes (w.GetHash hashOf) w) k = some v ∧
      v.nBlockHeight = h ∧ v.payee = s) ∧
    (∃ v, mapFind (mapInsert votes (w.GetHash hashOf) w.MarkAsNotVerified) k = some v ∧
      v.nBlockHeight = h ∧ v.payee = s) := by
  obtain ⟨v, hv, hvh, hvs⟩ := hb
  by_cases hk : k = w.GetHash hashOf
  · have hvk : v.GetHash hashOf = w.GetHash hashOf :=
      (hKeys _ (mapFind_mem _ _ _ hv)).trans hk
    obtain ⟨h1, h2⟩ := hSame _ _ _ _ _ _ hvk
    subst hk
    exact ⟨⟨w, mapFind_mapInsert_self _ _ _, h1.symm.trans hvh, h2.symm.trans hvs⟩,
      ⟨w.MarkAsNotVerified, mapFind_mapInsert_self _ _ _, h1.symm.trans hvh, h2.symm.trans hvs⟩⟩
  · exact ⟨⟨v, by rw [mapFind_mapInsert_ne _ _ _ _ hk]; exact hv, hvh, hvs⟩,
      ⟨v, by rw [mapFind_mapInsert_ne _ _ _ _ hk]; exact hv, hvh, hvs⟩⟩

theorem talliesBacked_storeUnverified (hashOf : COutPoint → Int → CScript → uint256)
    (hSame : ∀ o h p o2 h2 p2, hashOf o h p = hashOf o2 h2 p2 → h = h2 ∧ p = p2) (env : Env)
    (self : CMasternodePayments) (vote : CMasternodePaymentVote) (hH : env.hashOf = hashOf)
    (h : self.talliesBacked hashOf) : (self.storeUnverified env vote).talliesBacked hashOf := by
  subst hH
  refine ⟨?_, ?_⟩
  · intro e he
    rcases mem_mapInsert _ _ _ _ he with rfl | he
    · rfl
    · exact h.1 e he
  · intro ht bp hbp p hp k hk
    exact (backed_mapInsert env.hashOf hSame _ h.1 vote k ht _ (h.2 ht bp hbp p hp k hk)).2

theorem talliesBacked_CanVote (hashOf : COutPoint → Int → CScript → uint256)
    (self : CMasternodePayments) (outMasternode : COutPoint) (nBlockHeight : Int)
    (h : self.talliesBacked hashOf) :
    (self.CanVote outMasternode nBlockHeight).2.talliesBacked hashOf := by
  obtain ⟨hb, hv, _⟩ := CanVote_other_fields self outMasternode nBlockHeight
  unfold talliesBacked
  rw [hb, hv]
  exact h

theorem talliesBacked_AddPaymentVote (hashOf : COutPoint → Int → CScript → uint256)
    (hSame : ∀ o h p o2 h2 p2, hashOf o h p = hashOf o2 h2 p2 → h = h2 ∧ p = p2) (env : Env)
    (self : CMasternodePayments) (vote : CMasternodePaymentVote) (hH : env.hashOf = hashOf)
    (h : self.talliesBacked hashOf) : (self.AddPaymentVote env vote).2.talliesBacked hashOf := by
  subst hH
  cases hres : (self.AddPaymentVote env vote).1 with
  | false => rw [AddPaymentVote_false env self vote hres]; exact h
  | true =>
    rw [AddPaymentVote_true_eq env self vote hres]
    refine ⟨?_, ?_⟩
    · intro e he
      rcases mem_mapInsert _ _ _ _ he with rfl | he
      · rfl
      · exact h.1 e he
    · intro ht bp hbp p hp k hk
      simp only at hbp ⊢
      by_cases hh : ht = vote.nBlockHeight
      · subst hh
        rw [mapFind_mapInsert_self] at hbp
        simp only [Option.some.injEq] at hbp
        subst hbp
        rcases addPayeeLoop_back vote.payee (vote.GetHash env.hashOf) _ p k hp hk with
          ⟨hk1, hp1⟩ | ⟨q, hq, hqp, hqk⟩
        · subst hk1
          exact ⟨vote, mapFind_mapInsert_self _ _ _, rfl, hp1.symm⟩
        · cases hf : mapFind self.mapMasternodeBlocks vote.nBlockHeight with
          | none => simp [hf] at hq
          | some b =>
            simp only [hf, Option.getD_some] at hq
            have hold := h.2 _ b hf q hq k hqk
            rw [hqp] at hold
            exact (backed_mapInsert env.hashOf hSame _ h.1 vote k _ _ hold).1
      · rw [mapFind_mapInsert_ne _ _ _ _ hh] at hbp
        exact (backed_mapInsert env.hashOf hSame _ h.1 vote k _ _
          (h.2 ht bp hbp p hp k hk)).1

theorem checkAndRemoveLoop_find_some (nHeight nLimit : Int) (h : Int)
    (bp : CMasternodeBlockPayees) (votes : List (uint256 × CMasternodePaymentVote)) :
    ∀ blocks : List (Int × CMasternodeBlockPayees),
      mapFind (checkAndRemoveLoop nHeight nLimit votes blocks).2 h = some bp →
      mapFind blocks h = some bp := by
  induction votes with
  | nil => intro blocks hb; simpa [checkAndRemoveLoop] using hb
  | cons a rest ih =>
    intro blocks hb
    obtain ⟨hash, vote⟩ := a
    unfold checkAndRemoveLoop at hb
    split at hb
    · have h1 := ih _ hb
      by_cases hh : h = vote.nBlockHeight
      · subst hh
        rw [mapFind_mapErase_self] at h1
        exact absurd h1 (by simp)
      · rw [mapFind_mapErase_ne _ _ _ hh] at h1
        exact h1
    · exact ih blocks hb

theorem talliesBacked_CheckAndRemove (hashOf : COutPoint → Int → CScript → uint256) (env : Env)
    (self : CMasternodePayments) (h : self.talliesBacked hashOf) :
    (self.CheckAndRemove env).talliesBacked hashOf := by
  unfold CheckAndRemove
  cases hTip : self.pCurrentBlockIndex with
  | none => exact h
  | some pindex =>
    refine ⟨?_, ?_⟩
    · intro e he
      simp only [checkAndRemoveLoop_votes] at he
      exact h.1 e (List.mem_filter.mp he).1
    · intro ht bp hbp p hp k hk
      simp only at hbp ⊢
      have hold := checkAndRemoveLoop_find_some _ _ _ _ _ _ hbp
      obtain ⟨v, hv, hvh, hvs⟩ := h.2 ht bp hold p hp k hk
      have hkeep : wrapInt32 (pindex.nHeight - v.nBlockHeight) ≤ GetStorageLimit env := by
        by_contra hc
        have hnone := checkAndRemoveLoop_find_pruned pindex.nHeight (GetStorageLimit env)
          self.mapMasternodePaymentVotes self.mapMasternodeBlocks (k, v)
          (mapFind_mem _ _ _ hv) (by simp only; omega)
        simp only at hnone
        rw [hvh, hbp] at hnone
        exact absurd hnone (by simp)
      refine ⟨v, ?_, hvh, hvs⟩
      rw [checkAndRemoveLoop_votes]
      exact mapFind_filter_keep _ _ _ _ hv (by simpa using hkeep)

theorem talliesBacked_Clear (hashOf : COutPoint → Int → CScript → uint256)
    (self : CMasternodePayments) : self.Clear.talliesBacked hashOf := by
  simp [talliesBacked, Clear, mapFind]

theorem talliesBacked_ProcessMessage (hashOf : COutPoint → Int → CScript → uint256)
    (hSame : ∀ o h p o2 h2 p2, hashOf o h p = hashOf o2 h2 p2 → h = h2 ∧ p = p2) (env : Env)
    (self : CMasternodePayments) (pfrom : CNode) (msg : NetMsg)
    (hH : env.hashOf = hashOf) (h : self.talliesBacked hashOf) :
    (ProcessMessage env self pfrom msg).registry.talliesBacked hashOf := by
  unfold ProcessMessage
  split
  · exact h
  · split
    · exact h
    · cases msg with
      | MASTERNODEPAYMENTSYNC n =>
        simp only
        split
        · exact h
        · split <;> exact h
      | MASTERNODEPAYMENTVOTE vote =>
        have h1 := talliesBacked_storeUnverified hashOf hSame env self vote hH h
        have h2 := talliesBacked_CanVote hashOf _ vote.vinMasternode vote.nBlockHeight h1
        have h3 := talliesBacked_AddPaymentVote hashOf hSame env _ vote hH h2
        simp only
        rcases processVote_cases env self pfrom vote with
          ⟨_, hr⟩ | ⟨_, hr⟩ | ⟨_, hr, _⟩ | ⟨_, hr, _⟩ | ⟨_, hr, _⟩ <;> rw [hr] <;> assumption
      | other => exact h

theorem talliesBacked_applyOps (hashOf : COutPoint → Int → CScript → uint256)
    (hSame : ∀ o h p o2 h2 p2, hashOf o h p = hashOf o2 h2 p2 → h = h2 ∧ p = p2)
    (ops : List RegistryOp) :
    ∀ self : CMasternodePayments, (∀ op ∈ ops, op.usesHash hashOf) →
      self.talliesBacked hashOf → (self.applyOps ops).talliesBacked hashOf := by
  induction ops with
  | nil => intro self _ h; exact h
  | cons op rest ih =>
    intro self hops h
    refine ih _ (fun o ho => hops o (List.mem_cons_of_mem _ ho)) ?_
    have hop := hops op (List.mem_cons_self _ _)
    cases op with
    | message env pfrom msg =>
      exact talliesBacked_ProcessMessage hashOf hSame env self pfrom msg hop h
    | addPaymentVote env vote =>
      exact talliesBacked_AddPaymentVote hashOf hSame env self vote hop h
    | checkAndRemove env => exact talliesBacked_CheckAndRemove hashOf env self h
    | clear => exact talliesBacked_Clear hashOf self
    | setTip pindex => exact h

end CMasternodePayments


theorem demoEnvInjective_hashOf (o : COutPoint) (h : Int) (p : CScript) (o2 : COutPoint)
    (h2 : Int) (p2 : CScript)
    (e : demoEnvInjective.hashOf o h p = demoEnvInjective.hashOf o2 h2 p2) :
    h = h2 ∧ p = p2 := by
  have h1 : (o.hash, o.n, h, p) = (o2.hash, o2.n, h2, p2) := Encodable.encode_injective e
  simp only [Prod.mk.injEq] at h1
  exact ⟨h1.2.2.1, h1.2.2.2⟩

/-- Claim C29.  With a digest under which two votes with the same hash have the
same height and payee: in every registry state reachable from the empty
registry through peer messages, `AddPaymentVote`, `CheckAndRemove`, `Clear`
and tip assignments, every hash held by an entry of the tally of a height `h`
is a key of the vote map, and the vote stored under it has that hash, the
height `h` and the script of the entry. -/
theorem C29_tally_hashes_backed (hashOf : COutPoint → Int → CScript → uint256)
    (hSame : ∀ o h p o2 h2 p2, hashOf o h p = hashOf o2 h2 p2 → h = h2 ∧ p = p2)
    (self : CMasternodePayments) (hr : self.reachable hashOf) :
    ∀ h bp, mapFind self.mapMasternodeBlocks h = some bp → ∀ p ∈ bp.vecPayees,
      ∀ k ∈ p.GetVoteHashes, ∃ v, mapFind self.mapMasternodePaymentVotes k = some v ∧
        v.GetHash hashOf = k ∧ v.nBlockHeight = h ∧ v.payee = p.GetPayee := by
  obtain ⟨ops, hops, rfl⟩ := hr
  have hinv := CMasternodePayments.talliesBacked_applyOps hashOf hSame ops ⟨[], [], [], none⟩
    hops (by simp [CMasternodePayments.talliesBacked, mapFind])
  intro h bp hbp p hp k hk
  obtain ⟨v, hv, hvh, hvs⟩ := hinv.2 h bp hbp p hp k hk
  exact ⟨v, hv, hinv.1 _ (mapFind_mem _ _ _ hv), hvh, hvs⟩

/-- Witness for C29: with the digest without collisions, the registry that admitted
the vote of masternode 1 for payee `[1]` at height 5 has the tally entry
`([1], [163047362])` at height 5, and 163047362 is a key of the vote map. -/
theorem C29_tally_hashes_backed_witness :
    mapFind (CMasternodePayments.applyOps ⟨[], [], [], none⟩
      [RegistryOp.addPaymentVote demoEnvInjective (demoVote 1 5 [1])]).mapMasternodeBlocks 5 =
      some ⟨5, [⟨[1], [163047362]⟩]⟩ ∧
    (mapFind (CMasternodePayments.applyOps ⟨[], [], [], none⟩
      [RegistryOp.addPaymentVote demoEnvInjective (demoVote 1 5 [1])]).mapMasternodePaymentVotes
      163047362).isSome = true :=
  have hb : mapFind (CMasternodePayments.applyOps ⟨[], [], [], none⟩
      [RegistryOp.addPaymentVote demoEnvInjective (demoVote 1 5 [1])]).mapMasternodeBlocks 5 =
      some ⟨5, [⟨[1], [163047362]⟩]⟩ := by decide
  have h := C29_tally_hashes_backed demoEnvInjective.hashOf demoEnvInjective_hashOf
    (CMasternodePayments.applyOps ⟨[], [], [], none⟩
      [RegistryOp.addPaymentVote demoEnvInjective (demoVote 1 5 [1])])
    ⟨_, by simp [RegistryOp.usesHash], rfl⟩ 5 ⟨5, [⟨[1], [163047362]⟩]⟩ hb
    ⟨[1], [163047362]⟩ (by simp) 163047362 (by simp [CMasternodePayee.GetVoteHashes])
  ⟨hb, by obtain ⟨v, hv, _⟩ := h; exact congrArg Option.isSome hv⟩


/-! ## Claims on heights without a tally -/

/-- Claim C39.  For a height at which the block map holds no tally,
`CMasternodePayments::IsTransactionValid` returns true for every transaction
and `GetBlockPayee` returns false and leaves the script parameter as it was. -/
theorem C39_height_without_tally (env : Env) (self : CMasternodePayments) (nBlockHeight : Int)
    (hNone : mapCount self.mapMasternodeBlocks nBlockHeight = 0) :
    (∀ txNew : CTransaction, self.IsTransactionValid env txNew nBlockHeight = true) ∧
    (∀ payee : CScript, self.GetBlockPayee nBlockHeight payee = (false, payee)) := by
  have h := (mapCount_eq_zero_iff _ _).mp hNone
  constructor
  · intro txNew
    simp [CMasternodePayments.IsTransactionValid, h]
  · intro payee
    simp [CMasternodePayments.GetBlockPayee, h]

/-- Witness for C39: a registry whose only tally is the one of height 1005; at
height 1006 a coinbase without outputs is accepted and no payee is named. -/
theorem C39_height_without_tally_witness :
    CMasternodePayments.IsTransactionValid demoEnv
      ⟨[(1005, ⟨1005, [⟨[1], [1, 2, 3, 4, 5, 6]⟩]⟩)], [], [], none⟩ ⟨[]⟩ 1006 = true ∧
    CMasternodePayments.GetBlockPayee
      ⟨[(1005, ⟨1005, [⟨[1], [1, 2, 3, 4, 5, 6]⟩]⟩)], [], [], none⟩ 1006 [9] = (false, [9]) ∧
    CMasternodePayments.IsTransactionValid demoEnv
      ⟨[(1005, ⟨1005, [⟨[1], [1, 2, 3, 4, 5, 6]⟩]⟩)], [], [], none⟩ ⟨[]⟩ 1005 = false :=
  ⟨(C39_height_without_tally demoEnv
      ⟨[(1005, ⟨1005, [⟨[1], [1, 2, 3, 4, 5, 6]⟩]⟩)], [], [], none⟩ 1006 (by decide)).1 ⟨[]⟩,
    (C39_height_without_tally demoEnv
      ⟨[(1005, ⟨1005, [⟨[1], [1, 2, 3, 4, 5, 6]⟩]⟩)], [], [], none⟩ 1006 (by decide)).2 [9],
    by decide⟩

/-! ## Claims on proposer and checker -/

/-- Claim C34.  For every tally in which some entry has at least
`MNPAYMENTS_SIGNATURES_REQUIRED` votes, `GetBestPayee` succeeds, and every
transaction with an output that pays exactly the masternode payment to the
script `GetBestPayee` returns passes `CMasternodeBlockPayees::IsTransactionValid`. -/
theorem C34_best_payee_passes_check (nSigRequired : Int) (nMasternodePayment : CAmount)
    (self : CMasternodeBlockPayees) (txNew : CTransaction) (payeeRet : CScript)
    (hSome : ∃ p ∈ self.vecPayees, p.GetVoteCount ≥ nSigRequired)
    (hPays : ∃ txout ∈ txNew.vout, txout.scriptPubKey = (self.GetBestPayee payeeRet).2 ∧
      txout.nValue = nMasternodePayment) :
    (self.GetBestPayee payeeRet).1 = true ∧
    self.IsTransactionValid nSigRequired nMasternodePayment txNew = true := by
  obtain ⟨p0, hp0, hp0n⟩ := hSome
  have hlen : ¬ self.vecPayees.length = 0 := by
    intro h
    rw [List.length_eq_zero] at h
    rw [h] at hp0
    simp at hp0
  rcases CMasternodeBlockPayees.bestPayeeLoop_spec self.vecPayees payeeRet (-1) with ⟨hall, _⟩ |
    ⟨pre, p, post, hl, hpre, hpost, hgt, hres⟩
  · have := hall p0 hp0
    have := CMasternodeBlockPayees.GetVoteCount_nonneg p0
    omega
  · have hbest : self.GetBestPayee payeeRet = (true, p.GetPayee) := by
      unfold CMasternodeBlockPayees.GetBestPayee
      rw [if_neg hlen]
      simp only [hres]
      simp [hgt]
    have hpmem : p ∈ self.vecPayees := by rw [hl]; simp
    have hpn : p.GetVoteCount ≥ nSigRequired := by
      rw [hl] at hp0
      rcases List.mem_append.mp hp0 with h | h
      · have := hpre p0 h; omega
      · rcases List.mem_cons.mp h with rfl | h
        · exact hp0n
        · have := hpost p0 h; omega
    rw [hbest] at hPays ⊢
    refine ⟨rfl, ?_⟩
    unfold CMasternodeBlockPayees.IsTransactionValid
    simp only
    split
    · rfl
    · rw [CMasternodeBlockPayees.requiredPaymentLoop_iff]
      exact ⟨p, hpmem, hpn, hPays⟩

/-- Witness for C34: six signatures required, payment 100; script `[2]` has six
votes and script `[1]` two, and the coinbase pays 100 to `[2]`. -/
theorem C34_best_payee_passes_check_witness :
    (CMasternodeBlockPayees.GetBestPayee ⟨1005, [⟨[1], [1, 2]⟩, ⟨[2], [3, 4, 5, 6, 7, 8]⟩]⟩
      []) = (true, [2]) ∧
    CMasternodeBlockPayees.IsTransactionValid 6 100
      ⟨1005, [⟨[1], [1, 2]⟩, ⟨[2], [3, 4, 5, 6, 7, 8]⟩]⟩ ⟨[⟨900, [0]⟩, ⟨100, [2]⟩]⟩ = true :=
  ⟨by decide,
    (C34_best_payee_passes_check 6 100 ⟨1005, [⟨[1], [1, 2]⟩, ⟨[2], [3, 4, 5, 6, 7, 8]⟩]⟩
      ⟨[⟨900, [0]⟩, ⟨100, [2]⟩]⟩ [] ⟨⟨[2], [3, 4, 5, 6, 7, 8]⟩, by decide, by decide⟩
      ⟨⟨100, [2]⟩, by decide, by decide, rfl⟩).2⟩


/-! ## Lemmas on admission against pruning and rejection after CanVote -/

namespace CMasternodePayments

theorem processVote_added_range (env : Env) (self : CMasternodePayments) (pfrom : CNode)
    (vote : CMasternodePaymentVote)
    (hAdded : (processVote env self pfrom vote).outcome = Handled.added) :
    ∃ pindex, self.pCurrentBlockIndex = some pindex ∧
      pindex.nHeight - GetStorageLimit env ≤ vote.nBlockHeight ∧
      vote.nBlockHeight ≤ pindex.nHeight + 20 := by
  by_cases h1 : pfrom.nVersion < GetMinMasternodePaymentsProto env
  · simp [processVote, h1] at hAdded
  cases hTip : self.pCurrentBlockIndex with
  | none => simp [processVote, h1, hTip] at hAdded
  | some pindex =>
    refine ⟨pindex, rfl, ?_⟩
    by_cases h3 : vote.nBlockHeight < pindex.nHeight - GetStorageLimit env ∨
        vote.nBlockHeight > pindex.nHeight + 20
    · exfalso
      have hor := (processVote_outOfRange_iff env self pfrom vote pindex hTip).mpr
      by_cases h2 : mapCount self.mapMasternodePaymentVotes (vote.GetHash env.hashOf) ≠ 0
      · simp [processVote, h1, hTip, h2] at hAdded
      · have := hor ⟨h1, by simpa using h2, h3⟩
        rw [this] at hAdded
        exact absurd hAdded (by decide)
    · constructor <;> omega

theorem ProcessMessage_added (env : Env) (self : CMasternodePayments) (pfrom : CNode)
    (vote : CMasternodePaymentVote)
    (hAdded : (ProcessMessage env self pfrom (NetMsg.MASTERNODEPAYMENTVOTE vote)).outcome =
      Handled.added) :
    (∃ pindex, self.pCurrentBlockIndex = some pindex ∧
      pindex.nHeight - GetStorageLimit env ≤ vote.nBlockHeight ∧
      vote.nBlockHeight ≤ pindex.nHeight + 20) ∧
    (ProcessMessage env self pfrom (NetMsg.MASTERNODEPAYMENTVOTE vote)).registry.pCurrentBlockIndex =
      self.pCurrentBlockIndex ∧
    mapFind (ProcessMessage env self pfrom
      (NetMsg.MASTERNODEPAYMENTVOTE vote)).registry.mapMasternodePaymentVotes
      (vote.GetHash env.hashOf) = some vote := by
  rw [ProcessMessage_vote] at hAdded ⊢
  split at hAdded
  · simp at hAdded
  · split at hAdded
    · simp at hAdded
    · next h1 h2 =>
      rw [if_neg h1, if_neg h2]
      refine ⟨processVote_added_range env self pfrom vote hAdded, ?_⟩
      rcases processVote_cases env self pfrom vote with
        ⟨ho, _⟩ | ⟨ho, _⟩ | ⟨ho, _⟩ | ⟨ho, _⟩ | ⟨_, hr, hadd, _⟩
      · rw [hAdded] at ho; simp at ho
      · rw [hAdded] at ho; simp at ho
      · rw [hAdded] at ho; simp at ho
      · rw [hAdded] at ho; simp at ho
      · rw [hr]
        refine ⟨?_, AddPaymentVote_true_find env _ vote hadd⟩
        rw [(AddPaymentVote_keeps_keys env _ vote).2.2, (CanVote_other_fields _ _ _).2.2,
          (storeUnverified_fields env self vote).2.2]

end CMasternodePayments

/-! ## Claims on admission against pruning and rejection after CanVote -/

/-- Claim C35.  With the tip at height `T` and storage limit `L`: every stored vote
whose height passes the range check of `ProcessMessage` (`T - L ≤ h ≤ T + 20`)
is kept by `CheckAndRemove`, together with the tally of its height; and a vote
that `ProcessMessage` has just added is still in the vote map after a
`CheckAndRemove` run in the same surroundings. -/
theorem C35_admissible_vote_not_prunable (env : Env) (self : CMasternodePayments)
    (pindex : CBlockIndex) (hTip : self.pCurrentBlockIndex = some pindex) :
    (∀ e ∈ self.mapMasternodePaymentVotes,
      pindex.nHeight - CMasternodePayments.GetStorageLimit env ≤ e.2.nBlockHeight →
      e.2.nBlockHeight ≤ pindex.nHeight + 20 →
      e ∈ (self.CheckAndRemove env).mapMasternodePaymentVotes ∧
      mapFind (self.CheckAndRemove env).mapMasternodeBlocks e.2.nBlockHeight =
        mapFind self.mapMasternodeBlocks e.2.nBlockHeight) ∧
    (∀ (pfrom : CNode) (vote : CMasternodePaymentVote),
      (CMasternodePayments.ProcessMessage env self pfrom
        (NetMsg.MASTERNODEPAYMENTVOTE vote)).outcome = Handled.added →
      mapFind ((CMasternodePayments.ProcessMessage env self pfrom
        (NetMsg.MASTERNODEPAYMENTVOTE vote)).registry.CheckAndRemove env).mapMasternodePaymentVotes
        (vote.GetHash env.hashOf) = some vote) := by
  constructor
  · intro e he hlow hup
    have hKeep : wrapInt32 (pindex.nHeight - e.2.nBlockHeight) ≤
        CMasternodePayments.GetStorageLimit env := by
      have := wrapInt32_le (pindex.nHeight - e.2.nBlockHeight) (by omega)
      omega
    unfold CMasternodePayments.CheckAndRemove
    simp only [hTip]
    refine ⟨?_, CMasternodePayments.checkAndRemoveLoop_find_kept _ _ _ hKeep _ _⟩
    rw [CMasternodePayments.checkAndRemoveLoop_votes]
    exact List.mem_filter.mpr ⟨he, by simpa using hKeep⟩
  · intro pfrom vote hAdded
    obtain ⟨⟨pindex2, hTip2, hlow, hup⟩, hTipR, hfind⟩ :=
      CMasternodePayments.ProcessMessage_added env self pfrom vote hAdded
    have hKeep : wrapInt32 (pindex2.nHeight - vote.nBlockHeight) ≤
        CMasternodePayments.GetStorageLimit env := by
      have := wrapInt32_le (pindex2.nHeight - vote.nBlockHeight) (by omega)
      omega
    rw [hTip2] at hTipR
    unfold CMasternodePayments.CheckAndRemove
    simp only [hTipR]
    rw [CMasternodePayments.checkAndRemoveLoop_votes]
    exact mapFind_filter_keep _ _ _ _ hfind (by simpa using hKeep)

/-- Witness for C35: tip 1000, storage limit 50; the vote for height 950, the lowest
height in range, is added and survives `CheckAndRemove`. -/
theorem C35_admissible_vote_not_prunable_witness :
    (CMasternodePayments.ProcessMessage demoEnv demoRegistry demoPeer
      (NetMsg.MASTERNODEPAYMENTVOTE (demoVote 1 950 [1]))).outcome = Handled.added ∧
    mapFind ((CMasternodePayments.ProcessMessage demoEnv demoRegistry demoPeer
      (NetMsg.MASTERNODEPAYMENTVOTE (demoVote 1 950 [1]))).registry.CheckAndRemove
        demoEnv).mapMasternodePaymentVotes 1950001 = some (demoVote 1 950 [1]) :=
  ⟨by decide,
    (C35_admissible_vote_not_prunable demoEnv demoRegistry ⟨1000, 77, []⟩ rfl).2 demoPeer
      (demoVote 1 950 [1]) (by decide)⟩


/-- Claim C37.  With a non-negative superblock payments limit and a coinbase value
not above the block reward, `IsBlockValueValid` returns false exactly when the
height is in the superblock era, the node is synced, `SPORK_9` is active, the
test "block time plus one hour (32 bit) is before now" fails, a superblock is
triggered at the height and the superblock validator rejects the coinbase; in
that case the block is at most one hour old.  In every other case it returns
true. -/
theorem C37_IsBlockValueValid_within_reward (env : Env) (block : CBlock) (nBlockHeight : Int)
    (blockReward : CAmount) (hle : block.vtx0.GetValueOut ≤ blockReward)
    (hlim : 0 ≤ env.GetPaymentsLimit nBlockHeight) :
    ((IsBlockValueValid env block nBlockHeight blockReward).1 = false ↔
      (env.consensus.nSuperblockStartBlock ≤ nBlockHeight ∧ env.IsSynced = true ∧
        env.IsSporkActive Spork.SPORK_9_SUPERBLOCKS_ENABLED = true ∧
        ¬ ((((block.nTime + 60 * 60) % 4294967296 : Nat) : Int) < env.GetTime) ∧
        env.IsSuperblockTriggered nBlockHeight = true ∧
        env.SuperblockIsValid block.vtx0 nBlockHeight blockReward = false)) ∧
    ((IsBlockValueValid env block nBlockHeight blockReward).1 = false →
      env.GetTime ≤ (block.nTime : Int) + 60 * 60) := by
  have hmax : block.vtx0.GetValueOut ≤ blockReward + env.GetPaymentsLimit nBlockHeight :=
    le_add_of_le_of_nonneg hle hlim
  have hmod : (((block.nTime + 60 * 60) % 4294967296 : Nat) : Int) ≤
      (block.nTime : Int) + 60 * 60 := by
    have : (block.nTime + 60 * 60) % 4294967296 ≤ block.nTime + 60 * 60 := Nat.mod_le _ _
    omega
  have hiff : (IsBlockValueValid env block nBlockHeight blockReward).1 = false ↔
      (env.consensus.nSuperblockStartBlock ≤ nBlockHeight ∧ env.IsSynced = true ∧
        env.IsSporkActive Spork.SPORK_9_SUPERBLOCKS_ENABLED = true ∧
        ¬ ((((block.nTime + 60 * 60) % 4294967296 : Nat) : Int) < env.GetTime) ∧
        env.IsSuperblockTriggered nBlockHeight = true ∧
        env.SuperblockIsValid block.vtx0 nBlockHeight blockReward = false) := by
    unfold IsBlockValueValid
    simp only [hle, hmax, decide_True]
    split_ifs <;> simp_all
  refine ⟨hiff, fun hf => ?_⟩
  exact le_trans (not_lt.mp (hiff.mp hf).2.2.2.1) hmod


/-- Witness for C37: superblocks on, clock 1500000000, a superblock triggered at
height 41090 that the validator rejects unless the coinbase is worth 5000.  A
fresh block with coinbase 400 and reward 500 is rejected at height 41090 and
accepted at height 41091. -/
theorem C37_IsBlockValueValid_within_reward_witness :
    (IsBlockValueValid demoEnvSuperblocks ⟨⟨[⟨400, [0]⟩]⟩, 1500000000⟩ 41090 500).1 = false ∧
    (IsBlockValueValid demoEnvSuperblocks ⟨⟨[⟨400, [0]⟩]⟩, 1500000000⟩ 41091 500).1 = true :=
  ⟨(C37_IsBlockValueValid_within_reward demoEnvSuperblocks ⟨⟨[⟨400, [0]⟩]⟩, 1500000000⟩ 41090
      500 (by decide) (by decide)).1.mpr
      ⟨by decide, rfl, by decide, by decide, by decide, by decide⟩,
    by decide⟩

/-! ## Claims on the height argument of the coinbase construction -/

/-- Claim C38.  When the superblock path is taken for neither height, two runs of
`FillBlockPayments` that differ only in `nBlockHeight` give the same result.
With a tip above the payments start block and a coinbase with a first output,
the result is fixed by the tip alone: the first output is worth the reward of
the tier of the tip height, with or without a masternode output, and the
masternode output, when there is one, pays the payment of that tier to the
script found for height `tip + 1`, which is the best payee of that height when
the registry names one. -/
theorem C38_FillBlockPayments_ignores_height (env : Env) (self : CMasternodePayments)
    (txNew : CTransaction) (nBlockHeight1 nBlockHeight2 : Int) (txoutMasternodeRet : CTxOut)
    (voutSuperblockRet : List CTxOut)
    (hNo1 : ¬ (env.IsSporkActive Spork.SPORK_9_SUPERBLOCKS_ENABLED = true ∧
      env.IsSuperblockTriggered nBlockHeight1 = true))
    (hNo2 : ¬ (env.IsSporkActive Spork.SPORK_9_SUPERBLOCKS_ENABLED = true ∧
      env.IsSuperblockTriggered nBlockHeight2 = true)) :
    FillBlockPayments env self txNew nBlockHeight1 txoutMasternodeRet voutSuperblockRet =
      FillBlockPayments env self txNew nBlockHeight2 txoutMasternodeRet voutSuperblockRet ∧
    (∀ (pindexPrev : CBlockIndex) (out0 : CTxOut) (rest : List CTxOut),
      env.chainActiveTip = some pindexPrev → txNew.vout = out0 :: rest →
      pindexPrev.nHeight > env.consensus.nMasternodePaymentsStartBlock →
      FillBlockPayments env self txNew nBlockHeight1 txoutMasternodeRet voutSuperblockRet =
        some (if (self.fillPayee env pindexPrev).1 = true then
            ⟨[{ out0 with nValue := powRewardLadder env pindexPrev.nHeight },
              { nValue := masternodePaymentLadder env true pindexPrev.nHeight,
                scriptPubKey := (self.fillPayee env pindexPrev).2 }]⟩
          else ⟨{ out0 with nValue := powRewardLadder env pindexPrev.nHeight } :: rest⟩,
          txoutMasternodeRet, voutSuperblockRet) ∧
      ∀ payee : CScript, self.GetBlockPayee (pindexPrev.nHeight + 1) [] = (true, payee) →
        self.fillPayee env pindexPrev = (true, payee)) := by
  constructor
  · unfold FillBlockPayments
    rw [if_neg hNo1, if_neg hNo2]
  · intro pindexPrev out0 rest hTip hVout hStart
    have hH : chainActiveHeight env = pindexPrev.nHeight := by
      unfold chainActiveHeight; rw [hTip]
    constructor
    · unfold FillBlockPayments
      rw [if_neg hNo1, hH, if_pos hStart,
        CMasternodePayments.FillBlockPayee_eq env self txNew pindexPrev out0 rest hTip hVout]
    · intro payee hp
      have hgt : ¬ pindexPrev.nHeight ≤ env.consensus.nMasternodePaymentsStartBlock := by omega
      simp [CMasternodePayments.fillPayee, hH, hp, hgt]

/-- Witness for C38: tip at height 300000 (tier 2), seven votes for `[1]` at height
300001; called with height 300001 and with height 5 the coinbase gets the same
two outputs, 980 for the miner and 490 for `[1]`. -/
theorem C38_FillBlockPayments_ignores_height_witness :
    FillBlockPayments { demoEnv with chainActiveTip := some ⟨300000, 7, []⟩ }
      ⟨[(300001, ⟨300001, [⟨[1], [1, 2, 3, 4, 5, 6, 7]⟩]⟩)], [], [], none⟩ ⟨[⟨0, [0]⟩]⟩
      300001 ⟨0, []⟩ [] =
    FillBlockPayments { demoEnv with chainActiveTip := some ⟨300000, 7, []⟩ }
      ⟨[(300001, ⟨300001, [⟨[1], [1, 2, 3, 4, 5, 6, 7]⟩]⟩)], [], [], none⟩ ⟨[⟨0, [0]⟩]⟩
      5 ⟨0, []⟩ [] ∧
    FillBlockPayments { demoEnv with chainActiveTip := some ⟨300000, 7, []⟩ }
      ⟨[(300001, ⟨300001, [⟨[1], [1, 2, 3, 4, 5, 6, 7]⟩]⟩)], [], [], none⟩ ⟨[⟨0, [0]⟩]⟩
      5 ⟨0, []⟩ [] = some (⟨[⟨980, [0]⟩, ⟨490, [1]⟩]⟩, ⟨0, []⟩, []) :=
  ⟨(C38_FillBlockPayments_ignores_height { demoEnv with chainActiveTip := some ⟨300000, 7, []⟩ }
      ⟨[(300001, ⟨300001, [⟨[1], [1, 2, 3, 4, 5, 6, 7]⟩]⟩)], [], [], none⟩ ⟨[⟨0, [0]⟩]⟩
      300001 5 ⟨0, []⟩ [] (by decide) (by decide)).1,
    by decide⟩


/-! ## Lemmas on Sync -/

namespace CMasternodePayments

theorem syncHeights_eq (T : Int) :
    (List.range 20).map (fun i => T + (i : Int)) =
      (List.range 20).map (fun i : Nat => T + (i : Int)) := by
  rfl

theorem mem_syncHeights (T h : Int) :
    h ∈ (List.range 20).map (fun i => T + (i : Int)) ↔ T ≤ h ∧ h < T + 20 := by
  rw [syncHeights_eq]
  simp only [List.mem_map, List.mem_range]
  constructor
  · rintro ⟨i, hi, rfl⟩
    constructor <;> omega
  · rintro ⟨h1, h2⟩
    refine ⟨(h - T).toNat, ?_, ?_⟩ <;> omega

theorem syncHeights_nodup (T : Int) : ((List.range 20).map (fun i => T + (i : Int))).Nodup := by
  rw [syncHeights_eq]
  refine List.Nodup.map ?_ (List.nodup_range 20)
  intro a b hab
  simp only at hab
  omega

/-- The hashes `Sync` walks over at one height, seen through membership. -/
theorem mem_syncHashesAt (self : CMasternodePayments) (h : Int) (hash : uint256) :
    hash ∈ (match mapFind self.mapMasternodeBlocks h with
      | some blockPayees =>
        blockPayees.vecPayees.flatMap (fun payee =>
          payee.GetVoteHashes.filter (fun hash => self.HasVerifiedPaymentVote hash))
      | none => []) ↔
    (self.HasVerifiedPaymentVote hash = true ∧ ∃ bp, mapFind self.mapMasternodeBlocks h = some bp ∧
      ∃ p ∈ bp.vecPayees, hash ∈ p.GetVoteHashes) := by
  cases hf : mapFind self.mapMasternodeBlocks h with
  | none => simp
  | some bp =>
    simp only [List.mem_flatMap, List.mem_filter, Option.some.injEq, exists_eq_left']
    constructor
    · rintro ⟨p, hp, hk, hv⟩
      exact ⟨hv, p, hp, hk⟩
    · rintro ⟨hv, p, hp, hk⟩
      exact ⟨p, hp, hk, hv⟩

/-- In a registry whose tallies are backed by votes and free of repeats, the
hashes `Sync` walks over are pairwise different. -/
theorem syncHashes_nodup (hashOf : COutPoint → Int → CScript → uint256)
    (self : CMasternodePayments) (T : Int) (hT : self.votesTallied hashOf)
    (hB : self.talliesBacked hashOf) :
    (((List.range 20).map (fun i => T + (i : Int))).flatMap (fun h =>
      match mapFind self.mapMasternodeBlocks h with
      | some blockPayees =>
        blockPayees.vecPayees.flatMap (fun payee =>
          payee.GetVoteHashes.filter (fun hash => self.HasVerifiedPaymentVote hash))
      | none => [])).Nodup := by
  rw [List.nodup_flatMap]
  constructor
  · intro h _
    cases hf : mapFind self.mapMasternodeBlocks h with
    | none => simp
    | some bp =>
      simp only
      obtain ⟨hscripts, hhashes⟩ := hT.2 _ (mapFind_mem _ _ _ hf)
      rw [List.nodup_flatMap]
      constructor
      · intro p hp
        exact List.Nodup.filter _ (hhashes p hp)
      · refine List.Nodup.pairwise_of_forall_ne (List.Nodup.of_map _ hscripts) ?_
        intro p hp q hq hne
        simp only [Function.onFun]
        rw [List.disjoint_left]
        intro k hkp hkq
        obtain ⟨v1, hv1, _, hs1⟩ := hB.2 h bp hf p hp k (List.mem_filter.mp hkp).1
        obtain ⟨v2, hv2, _, hs2⟩ := hB.2 h bp hf q hq k (List.mem_filter.mp hkq).1
        rw [hv1] at hv2
        simp only [Option.some.injEq] at hv2
        subst hv2
        exact hne (List.inj_on_of_nodup_map hscripts hp hq (hs1.symm.trans hs2))
  · refine List.Nodup.pairwise_of_forall_ne (syncHeights_nodup T) ?_
    intro h1 _ h2 _ hne
    simp only [Function.onFun]
    rw [List.disjoint_left]
    intro k hk1 hk2
    obtain ⟨_, bp1, hf1, p1, hp1, hkp1⟩ := (mem_syncHashesAt self h1 k).mp hk1
    obtain ⟨_, bp2, hf2, p2, hp2, hkp2⟩ := (mem_syncHashesAt self h2 k).mp hk2
    obtain ⟨v1, hv1, hh1, _⟩ := hB.2 h1 bp1 hf1 p1 hp1 k hkp1
    obtain ⟨v2, hv2, hh2, _⟩ := hB.2 h2 bp2 hf2 p2 hp2 k hkp2
    rw [hv1] at hv2
    simp only [Option.some.injEq] at hv2
    subst hv2
    exact hne (hh1.symm.trans hh2)

end CMasternodePayments


/-! ## Claims on Sync -/

/-- Claim C32.  With the tip at height `T`, `Sync` pushes the inventory item of a
hash to the peer exactly when the hash is held by an entry of the tally of some
height `h` with `T ≤ h < T + 20` and the vote stored under it is verified; its
calls are these pushes followed by one status message whose count is the
number of pushes; and in a registry state reachable from the empty registry
(digest without collisions of height or payee) no item is pushed twice. -/
theorem C32_Sync_announces_verified_votes (self : CMasternodePayments) (pnode : CNode)
    (pindex : CBlockIndex) (hTip : self.pCurrentBlockIndex = some pindex) :
    (∀ hash : uint256, Effect.PushInventory pnode.id hash ∈ self.Sync pnode ↔
      (self.HasVerifiedPaymentVote hash = true ∧
        ∃ h : Int, pindex.nHeight ≤ h ∧ h < pindex.nHeight + 20 ∧
          ∃ bp, mapFind self.mapMasternodeBlocks h = some bp ∧
            ∃ p ∈ bp.vecPayees, hash ∈ p.GetVoteHashes)) ∧
    (∃ items : List uint256,
      self.Sync pnode = items.map (Effect.PushInventory pnode.id) ++
        [Effect.PushSyncStatusCount pnode.id (items.length : Int)]) ∧
    (∀ hashOf : COutPoint → Int → CScript → uint256,
      (∀ o h p o2 h2 p2, hashOf o h p = hashOf o2 h2 p2 → h = h2 ∧ p = p2) →
      self.reachable hashOf → (self.Sync pnode).Nodup) := by
  refine ⟨?_, ?_, ?_⟩
  · intro hash
    unfold CMasternodePayments.Sync
    simp only [hTip, List.mem_append, List.mem_map, List.mem_singleton, Effect.PushInventory.injEq,
      true_and, exists_eq_right, reduceCtorEq, or_false, List.mem_flatMap]
    constructor
    · rintro ⟨h, hh, hk⟩
      obtain ⟨h1, h2⟩ := (CMasternodePayments.mem_syncHeights pindex.nHeight h).mp
        (List.mem_map.mpr hh)
      obtain ⟨hv, hrest⟩ := (CMasternodePayments.mem_syncHashesAt self h hash).mp hk
      exact ⟨hv, h, h1, h2, hrest⟩
    · rintro ⟨hv, h, h1, h2, hrest⟩
      exact ⟨h, List.mem_map.mp ((CMasternodePayments.mem_syncHeights pindex.nHeight h).mpr
        ⟨h1, h2⟩), (CMasternodePayments.mem_syncHashesAt self h hash).mpr ⟨hv, hrest⟩⟩
  · unfold CMasternodePayments.Sync
    simp only [hTip]
    exact ⟨_, rfl⟩
  · intro hashOf hSame hr
    obtain ⟨ops, hops, rfl⟩ := hr
    have hT := CMasternodePayments.votesTallied_applyOps hashOf ops ⟨[], [], [], none⟩ hops
      (by simp [CMasternodePayments.votesTallied])
    have hB := CMasternodePayments.talliesBacked_applyOps hashOf hSame ops ⟨[], [], [], none⟩
      hops (by simp [CMasternodePayments.talliesBacked, mapFind])
    unfold CMasternodePayments.Sync
    simp only [hTip]
    refine List.Nodup.append ?_ (List.nodup_singleton _) ?_
    · refine List.Nodup.map ?_
        (CMasternodePayments.syncHashes_nodup hashOf _ pindex.nHeight hT hB)
      intro a b hab
      simpa using hab
    · rw [List.disjoint_left]
      intro a ha hb
      rw [List.mem_singleton] at hb
      subst hb
      simp at ha

/-- Witness for C32: from the empty registry the tip is set to height 0 and the
vote of masternode 1 for payee `[1]` at height 5 is added (digest without
collisions); `Sync` pushes its hash once and reports the count 1. -/
theorem C32_Sync_announces_verified_votes_witness :
    (CMasternodePayments.Sync (CMasternodePayments.applyOps ⟨[], [], [], none⟩
      [RegistryOp.setTip ⟨0, 7, []⟩,
        RegistryOp.addPaymentVote demoEnvInjective (demoVote 1 5 [1])]) demoPeer).Nodup ∧
    CMasternodePayments.Sync (CMasternodePayments.applyOps ⟨[], [], [], none⟩
      [RegistryOp.setTip ⟨0, 7, []⟩,
        RegistryOp.addPaymentVote demoEnvInjective (demoVote 1 5 [1])]) demoPeer =
      [Effect.PushInventory 1 163047362, Effect.PushSyncStatusCount 1 1] :=
  ⟨(C32_Sync_announces_verified_votes (CMasternodePayments.applyOps ⟨[], [], [], none⟩
      [RegistryOp.setTip ⟨0, 7, []⟩,
        RegistryOp.addPaymentVote demoEnvInjective (demoVote 1 5 [1])]) demoPeer ⟨0, 7, []⟩
      (by decide)).2.2 demoEnvInjective.hashOf demoEnvInjective_hashOf
      ⟨_, by simp [RegistryOp.usesHash], rfl⟩,
    by decide⟩


/-! ## Lemmas on the batches of RequestLowDataPaymentBlocks -/

namespace CMasternodePayments

/-- State of the batching: the open batch is not full, every message sent is
full, and messages and open batch together are the items collected so far. -/
theorem batched_push (nMax : Nat) (st : List uint256 × List (List uint256))
    (items : List uint256) (x : uint256)
    (h : st.1.length < nMax ∧ (∀ m ∈ st.2, m.length = nMax) ∧ st.2.flatten ++ st.1 = items) :
    (flushIfFull nMax (st.1 ++ [x], st.2)).1.length < nMax ∧
    (∀ m ∈ (flushIfFull nMax (st.1 ++ [x], st.2)).2, m.length = nMax) ∧
    (flushIfFull nMax (st.1 ++ [x], st.2)).2.flatten ++ (flushIfFull nMax (st.1 ++ [x], st.2)).1 =
      items ++ [x] := by
  obtain ⟨h1, h2, h3⟩ := h
  unfold flushIfFull
  by_cases hf : (st.1 ++ [x]).length = nMax
  · simp only [hf, if_true]
    refine ⟨by simpa using (by omega : 0 < nMax), ?_, ?_⟩
    · intro m hm
      rcases List.mem_append.mp hm with hm | hm
      · exact h2 m hm
      · rw [List.mem_singleton] at hm
        rw [hm]
        exact hf
    · simp [← h3]
  · simp only [hf, if_false]
    refine ⟨?_, h2, ?_⟩
    · simp only [List.length_append, List.length_singleton] at hf ⊢
      omega
    · rw [← h3, List.append_assoc]

theorem batched_flush (nMax : Nat) (st : List uint256 × List (List uint256))
    (h : st.1.length < nMax) : flushIfFull nMax st = st := by
  unfold flushIfFull
  rw [if_neg (by omega)]

theorem lowDataChainLoop_batched (nMax : Nat) (blocks : List (Int × CMasternodeBlockPayees))
    (nTipHeight nLimit : Int) (chain : List (Int × uint256)) :
    ∀ (st : List uint256 × List (List uint256)) (items : List uint256),
      (st.1.length < nMax ∧ (∀ m ∈ st.2, m.length = nMax) ∧ st.2.flatten ++ st.1 = items) →
      (lowDataChainLoop nMax blocks nTipHeight nLimit chain st).1.length < nMax ∧
      (∀ m ∈ (lowDataChainLoop nMax blocks nTipHeight nLimit chain st).2, m.length = nMax) ∧
      (lowDataChainLoop nMax blocks nTipHeight nLimit chain st).2.flatten ++
        (lowDataChainLoop nMax blocks nTipHeight nLimit chain st).1 =
        items ++ lowDataChainItems blocks nTipHeight nLimit chain := by
  induction chain with
  | nil => intro st items h; simpa [lowDataChainLoop, lowDataChainItems] using h
  | cons a rest ih =>
    intro st items h
    obtain ⟨nHeight, hash⟩ := a
    unfold lowDataChainLoop lowDataChainItems
    by_cases hlim : nTipHeight - nHeight < nLimit
    · simp only [hlim, if_true]
      by_cases hc : mapCount blocks nHeight = 0
      · simp only [hc, if_true]
        have := ih _ _ (batched_push nMax st items hash h)
        simpa [List.append_assoc] using this
      · simp only [hc, if_false]
        simpa using ih st items h
    · simp only [hlim, if_false]
      simpa using h

theorem lowDataBlocksLoop_batched (env : Env) (blocks : List (Int × CMasternodeBlockPayees)) :
    ∀ (st : List uint256 × List (List uint256)) (items : List uint256),
      (st.1.length < env.MAX_INV_SZ ∧ (∀ m ∈ st.2, m.length = env.MAX_INV_SZ) ∧
        st.2.flatten ++ st.1 = items) →
      (lowDataBlocksLoop env blocks st).1.length < env.MAX_INV_SZ ∧
      (∀ m ∈ (lowDataBlocksLoop env blocks st).2, m.length = env.MAX_INV_SZ) ∧
      (lowDataBlocksLoop env blocks st).2.flatten ++ (lowDataBlocksLoop env blocks st).1 =
        items ++ lowDataBlockItems env blocks := by
  induction blocks with
  | nil => intro st items h; simpa [lowDataBlocksLoop, lowDataBlockItems] using h
  | cons a rest ih =>
    intro st items h
    obtain ⟨nHeight, blockPayees⟩ := a
    unfold lowDataBlocksLoop lowDataBlockItems
    simp only
    split
    · exact ih st items h
    · cases hb : env.GetBlockHash nHeight with
      | none =>
        simp only [batched_flush _ st h.1]
        simpa using ih st items h
      | some hash =>
        simp only
        have := ih _ _ (batched_push env.MAX_INV_SZ st items hash h)
        simpa [List.append_assoc] using this

end CMasternodePayments

/-! ## Claims on the batches of RequestLowDataPaymentBlocks -/

/-- Claim C33.  With `MAX_INV_SZ` at least 1, every `GETDATA` message sent by
`RequestLowDataPaymentBlocks` carries at least one and at most `MAX_INV_SZ`
items, and the messages put end to end are exactly the items collected by the
two loops, in order: each collected item is sent in exactly one message. -/
theorem C33_RequestLowDataPaymentBlocks_batches (env : Env) (self : CMasternodePayments)
    (hMax : 0 < env.MAX_INV_SZ) :
    (∀ msg ∈ CMasternodePayments.RequestLowDataPaymentBlocks env self,
      1 ≤ msg.length ∧ msg.length ≤ env.MAX_INV_SZ) ∧
    (∀ pindex : CBlockIndex, self.pCurrentBlockIndex = some pindex →
      (CMasternodePayments.RequestLowDataPaymentBlocks env self).flatten =
        CMasternodePayments.lowDataChainItems self.mapMasternodeBlocks pindex.nHeight
          (CMasternodePayments.GetStorageLimit env)
          ((pindex.nHeight, pindex.hashBlock) :: pindex.ancestors) ++
        CMasternodePayments.lowDataBlockItems env self.mapMasternodeBlocks) := by
  cases hTip : self.pCurrentBlockIndex with
  | none =>
    refine ⟨?_, fun _ h => by simp at h⟩
    intro msg hmsg
    simp [CMasternodePayments.RequestLowDataPaymentBlocks, hTip] at hmsg
  | some pindex =>
    have h1 := CMasternodePayments.lowDataChainLoop_batched env.MAX_INV_SZ
      self.mapMasternodeBlocks pindex.nHeight (CMasternodePayments.GetStorageLimit env)
      ((pindex.nHeight, pindex.hashBlock) :: pindex.ancestors) ([], []) []
      ⟨by simpa using hMax, by simp, by simp⟩
    obtain ⟨h2, h3, h4⟩ := CMasternodePayments.lowDataBlocksLoop_batched env
      self.mapMasternodeBlocks _ _ h1
    unfold CMasternodePayments.RequestLowDataPaymentBlocks
    simp only [hTip]
    generalize CMasternodePayments.lowDataBlocksLoop env self.mapMasternodeBlocks
      (CMasternodePayments.lowDataChainLoop env.MAX_INV_SZ self.mapMasternodeBlocks pindex.nHeight
        (CMasternodePayments.GetStorageLimit env)
        ((pindex.nHeight, pindex.hashBlock) :: pindex.ancestors) ([], [])) = st at h2 h3 h4 ⊢
    by_cases hv : st.1 = []
    · simp only [hv, ne_eq, not_true_eq_false, if_false]
      refine ⟨fun msg hmsg => ?_, fun p hp => ?_⟩
      · rw [h3 msg hmsg]
        exact ⟨hMax, le_refl _⟩
      · rw [hv, List.append_nil] at h4
        simp only [Option.some.injEq] at hp
        subst hp
        simpa using h4
    · simp only [ne_eq, hv, not_false_eq_true, if_true]
      refine ⟨fun msg hmsg => ?_, fun p hp => ?_⟩
      · rcases List.mem_append.mp hmsg with hm | hm
        · rw [h3 msg hm]
          exact ⟨hMax, le_refl _⟩
        · rw [List.mem_singleton] at hm
          subst hm
          have : 0 < st.1.length := List.length_pos.mpr hv
          omega
      · simp only [Option.some.injEq] at hp
        subst hp
        simpa using h4

/-- Witness for C33: at most two items per message, storage limit 50, tip 1000
with blocks 999 and 998 below it, no tally at all: the three block hashes go
out as one full message and one message with the rest. -/
theorem C33_RequestLowDataPaymentBlocks_batches_witness :
    CMasternodePayments.RequestLowDataPaymentBlocks { demoEnv with MAX_INV_SZ := 2 }
      ⟨[], [], [], some ⟨1000, 77, [(999, 76), (998, 75)]⟩⟩ = [[77, 76], [75]] ∧
    (CMasternodePayments.RequestLowDataPaymentBlocks { demoEnv with MAX_INV_SZ := 2 }
      ⟨[], [], [], some ⟨1000, 77, [(999, 76), (998, 75)]⟩⟩).flatten = [77, 76, 75] :=
  ⟨by decide,
    ((C33_RequestLowDataPaymentBlocks_batches { demoEnv with MAX_INV_SZ := 2 }
      ⟨[], [], [], some ⟨1000, 77, [(999, 76), (998, 75)]⟩⟩ (by decide)).2
      ⟨1000, 77, [(999, 76), (998, 75)]⟩ rfl).trans (by decide)⟩


/-! ## Lemmas on decimal digits -/

namespace QString

theorem digitChar_spec (d : Nat) (hd : d < 10) :
    (Nat.digitChar d).isDigit = true ∧ (Nat.digitChar d).toNat - 48 = d ∧
      Nat.digitChar d ≠ '.' := by
  interval_cases d <;> decide

/-- With enough fuel the digits do not depend on the fuel and go in front of the
accumulator. -/
theorem toDigitsCore_fuel (n : Nat) :
    ∀ (fuel : Nat) (ds : List Char), n < fuel →
      Nat.toDigitsCore 10 fuel n ds = Nat.toDigits 10 n ++ ds := by
  induction n using Nat.strong_induction_on with
  | _ n ih =>
    intro fuel ds hf
    obtain ⟨f, rfl⟩ : ∃ f, fuel = f + 1 := ⟨fuel - 1, by omega⟩
    unfold Nat.toDigits
    simp only [Nat.toDigitsCore]
    by_cases h0 : n / 10 = 0
    · simp [h0]
    · simp only [h0, if_false]
      have hlt : n / 10 < n := by omega
      rw [ih (n / 10) hlt f _ (by omega), ih (n / 10) hlt n _ hlt]
      simp

theorem toDigits_step (n : Nat) :
    Nat.toDigits 10 n =
      if n / 10 = 0 then [Nat.digitChar (n % 10)]
      else Nat.toDigits 10 (n / 10) ++ [Nat.digitChar (n % 10)] := by
  conv_lhs => unfold Nat.toDigits
  simp only [Nat.toDigitsCore]
  by_cases h0 : n / 10 = 0
  · simp [h0]
  · simp only [h0, if_false]
    exact toDigitsCore_fuel (n / 10) n _ (by omega)

theorem toDigits_digits (n : Nat) :
    ∀ c ∈ Nat.toDigits 10 n, c.isDigit = true ∧ c ≠ '.' := by
  induction n using Nat.strong_induction_on with
  | _ n ih =>
    intro c hc
    rw [toDigits_step] at hc
    have hd := digitChar_spec (n % 10) (Nat.mod_lt _ (by decide))
    by_cases h0 : n / 10 = 0
    · simp only [h0, if_true, List.mem_singleton] at hc
      subst hc
      exact ⟨hd.1, hd.2.2⟩
    · simp only [h0, if_false, List.mem_append, List.mem_singleton] at hc
      rcases hc with hc | hc
      · exact ih (n / 10) (by omega) c hc
      · subst hc
        exact ⟨hd.1, hd.2.2⟩

theorem toDigits_ne_nil (n : Nat) : Nat.toDigits 10 n ≠ [] := by
  rw [toDigits_step]
  split <;> simp

theorem toDigits_length_le (n e : Nat) (hn : n < 10 ^ e) (he : 0 < e) :
    (Nat.toDigits 10 n).length ≤ e :=
  Nat.toDigitsCore_length 10 (by decide) (n + 1) n e hn he

theorem decimalValue_toDigits (n : Nat) :
    ∀ (t : QString) (acc : Nat),
      decimalValue (Nat.toDigits 10 n ++ t) acc =
        decimalValue t (acc * 10 ^ (Nat.toDigits 10 n).length + n) := by
  induction n using Nat.strong_induction_on with
  | _ n ih =>
    intro t acc
    have hd := digitChar_spec (n % 10) (Nat.mod_lt _ (by decide))
    rw [toDigits_step]
    by_cases h0 : n / 10 = 0
    · simp only [h0, if_true, List.singleton_append, List.length_singleton, pow_one,
        decimalValue, hd.1, hd.2.1]
      have : n % 10 = n := by omega
      rw [this]
    · simp only [h0, if_false, List.append_assoc, List.singleton_append, List.length_append,
        List.length_singleton]
      rw [ih (n / 10) (by omega)]
      simp only [decimalValue, hd.1, hd.2.1, if_true]
      congr 1
      rw [pow_succ]
      have := Nat.div_add_mod n 10
      nlinarith

theorem decimalValue_zeros (j : Nat) :
    ∀ (t : QString) (acc : Nat),
      decimalValue (List.replicate j '0' ++ t) acc = decimalValue t (acc * 10 ^ j) := by
  induction j with
  | zero => intro t acc; simp
  | succ j ih =>
    intro t acc
    have h0 : ('0' : Char).isDigit = true := by decide
    have h1 : ('0' : Char).toNat - 48 = 0 := by decide
    have hcons : List.replicate (j + 1) '0' ++ t = '0' :: (List.replicate j '0' ++ t) := rfl
    rw [hcons, decimalValue, if_pos h0, h1, ih]
    congr 1
    rw [pow_succ]
    ring

theorem split_no_sep (s : QString) (h : ∀ c ∈ s, c ≠ '.') : split '.' s = [s] := by
  induction s with
  | nil => rfl
  | cons c rest ih =>
    have hc : c ≠ '.' := h c (List.mem_cons_self _ _)
    simp only [split, hc, if_false, ih (fun x hx => h x (List.mem_cons_of_mem _ hx))]

theorem split_one_sep (s t : QString) (hs : ∀ c ∈ s, c ≠ '.') (ht : ∀ c ∈ t, c ≠ '.') :
    split '.' (s ++ '.' :: t) = [s, t] := by
  induction s with
  | nil => simp [split, split_no_sep t ht]
  | cons c rest ih =>
    have hc : c ≠ '.' := hs c (List.mem_cons_self _ _)
    have hcons : (c :: rest) ++ '.' :: t = c :: (rest ++ '.' :: t) := rfl
    rw [hcons, split, if_neg hc, ih (fun x hx => hs x (List.mem_cons_of_mem _ hx))]

end QString


namespace QString

/-- Quotient digits followed by the padded remainder digits: as many characters as
decimals in the second part, at most 18 in all, only digits, and read back as
the number they came from. -/
theorem decimalValue_quotient_remainder (d m : Nat) (hd1 : 1 ≤ d) (hd : d ≤ 17)
    (hm : m < 10 ^ 18) :
    (List.replicate (d - (Nat.toDigits 10 (m % 10 ^ d)).length) '0' ++
        Nat.toDigits 10 (m % 10 ^ d)).length = d ∧
    (Nat.toDigits 10 (m / 10 ^ d) ++
      (List.replicate (d - (Nat.toDigits 10 (m % 10 ^ d)).length) '0' ++
        Nat.toDigits 10 (m % 10 ^ d))).length ≤ 18 ∧
    decimalValue (Nat.toDigits 10 (m / 10 ^ d) ++
      (List.replicate (d - (Nat.toDigits 10 (m % 10 ^ d)).length) '0' ++
        Nat.toDigits 10 (m % 10 ^ d))) 0 = some m ∧
    (∀ c ∈ List.replicate (d - (Nat.toDigits 10 (m % 10 ^ d)).length) '0' ++
        Nat.toDigits 10 (m % 10 ^ d), c.isDigit = true ∧ c ≠ '.') := by
  have hpos : 0 < 10 ^ d := Nat.pow_pos (by decide)
  have hr : m % 10 ^ d < 10 ^ d := Nat.mod_lt _ hpos
  have hlr := toDigits_length_le (m % 10 ^ d) d hr hd1
  have hq : m / 10 ^ d < 10 ^ (18 - d) := by
    rw [Nat.div_lt_iff_lt_mul hpos, ← pow_add]
    have : 18 - d + d = 18 := by omega
    rw [this]
    exact hm
  have hlq := toDigits_length_le (m / 10 ^ d) (18 - d) hq (by omega)
  have hlen : (List.replicate (d - (Nat.toDigits 10 (m % 10 ^ d)).length) '0' ++
      Nat.toDigits 10 (m % 10 ^ d)).length = d := by
    simp only [List.length_append, List.length_replicate]
    omega
  refine ⟨hlen, ?_, ?_, ?_⟩
  · rw [List.length_append, hlen]
    omega
  · rw [decimalValue_toDigits, decimalValue_zeros]
    have h2 := decimalValue_toDigits (m % 10 ^ d) []
      ((0 * 10 ^ (Nat.toDigits 10 (m / 10 ^ d)).length + m / 10 ^ d) *
        10 ^ (d - (Nat.toDigits 10 (m % 10 ^ d)).length))
    rw [List.append_nil] at h2
    rw [h2]
    simp only [decimalValue, zero_mul, zero_add, Option.some.injEq]
    rw [mul_assoc, ← pow_add]
    have : d - (Nat.toDigits 10 (m % 10 ^ d)).length + (Nat.toDigits 10 (m % 10 ^ d)).length = d := by
      omega
    rw [this]
    have := Nat.div_add_mod m (10 ^ d)
    rw [mul_comm]
    exact this
  · intro c hc
    rcases List.mem_append.mp hc with hc | hc
    · rw [List.mem_replicate] at hc
      rw [hc.2]
      exact ⟨by decide, by decide⟩
    · exact toDigits_digits _ c hc

end QString


/-! ## Lemmas on format and parse -/

namespace CreditsUnits

theorem tdiv_natCast (m k : Nat) : Int.tdiv (m : Int) (k : Int) = ((m / k : Nat) : Int) := by
  rw [Int.tdiv_eq_ediv (Int.natCast_nonneg m) (Int.natCast_nonneg k)]
  norm_cast

theorem tmod_natCast (m k : Nat) : Int.tmod (m : Int) (k : Int) = ((m % k : Nat) : Int) := by
  rw [Int.tmod_eq_emod (Int.natCast_nonneg m) (Int.natCast_nonneg k)]
  norm_cast

theorem number_natCast (k : Nat) : QString.number (k : Int) = Nat.toDigits 10 k := by
  unfold QString.number
  rw [if_neg (by omega), Int.toNat_natCast]

/-- The text `format` makes of a non-negative amount without separators and plus
sign, for a unit with `d` decimals and factor `10 ^ d`. -/
theorem format_natCast (thin_sp : Char) (unit : Unit) (d : Nat) (hv : valid unit = true)
    (hdec : decimals unit = (d : Int)) (hfac : factor unit = ((10 ^ d : Nat) : Int)) (m : Nat) :
    format thin_sp unit (m : Int) false SeparatorStyle.separatorNever =
      if d = 0 then Nat.toDigits 10 (m / 10 ^ d)
      else Nat.toDigits 10 (m / 10 ^ d) ++ '.' ::
        (List.replicate (d - (Nat.toDigits 10 (m % 10 ^ d)).length) '0' ++
          Nat.toDigits 10 (m % 10 ^ d)) := by
  have hn : ¬ ((m : Int) < 0) := by omega
  have habs : (if (m : Int) > 0 then (m : Int) else -(m : Int)) = (m : Int) := by
    split <;> omega
  have hsep : ¬ (SeparatorStyle.separatorNever = SeparatorStyle.separatorAlways ∨
      (SeparatorStyle.separatorNever = SeparatorStyle.separatorStandard ∧
        (QString.number (Int.tdiv (m : Int) ((10 ^ d : Nat) : Int))).length > 4)) := by
    rintro (h | ⟨h, _⟩) <;> exact absurd h (by decide)
  unfold format
  simp only [hv, Bool.not_true, Bool.false_eq_true, if_false, hdec, hfac, habs, hn, hsep,
    false_and]
  rw [tdiv_natCast, tmod_natCast, number_natCast, number_natCast]
  by_cases hd : d = 0
  · subst hd
    simp
  · have hd2 : ¬ ((d : Int) ≤ 0) := by omega
    simp [hd, hd2, QString.rightJustified]

/-- The call `toLongLong` on a non-empty text of digits within range. -/
theorem toLongLong_digits (s : QString) (v : Nat) (hne : s ≠ [])
    (hdig : ∀ c ∈ s, c.isDigit = true) (hval : QString.decimalValue s 0 = some v)
    (hrange : (v : Int) ≤ 9223372036854775807) :
    QString.toLongLong s = ((v : Int), true) := by
  have hbody : QString.unsignedPart s = s := by
    unfold QString.unsignedPart
    split
    · exact absurd (hdig '-' (List.mem_cons_self _ _)) (by decide)
    · exact absurd (hdig '+' (List.mem_cons_self _ _)) (by decide)
    · rfl
  have hneg : QString.isNegative s = false := by
    unfold QString.isNegative
    split
    · exact absurd (hdig '-' (List.mem_cons_self _ _)) (by decide)
    · rfl
  unfold QString.toLongLong
  simp only [hbody, hneg, hne, if_false, hval, Bool.false_eq_true]
  rw [if_pos ⟨by omega, hrange⟩]

/-- The round trip for a unit with `d` decimals and factor `10 ^ d`. -/
theorem parse_format_natCast (thin_sp : Char) (removeSpaces : QString → QString)
    (hSpaces : ∀ s : QString, (∀ c ∈ s, c.isDigit = true ∨ c = '.') → removeSpaces s = s)
    (unit : Unit) (d : Nat) (hd : d ≤ 17) (hv : valid unit = true)
    (hdec : decimals unit = (d : Int)) (hfac : factor unit = ((10 ^ d : Nat) : Int)) (m : Nat)
    (hm : m < 10 ^ 18) :
    parse removeSpaces unit (format thin_sp unit (m : Int) false SeparatorStyle.separatorNever) =
      (true, some (m : Int)) := by
  rw [format_natCast thin_sp unit d hv hdec hfac m]
  have hqd := QString.toDigits_digits (m / 10 ^ d)
  have hqne := QString.toDigits_ne_nil (m / 10 ^ d)
  have hrange : -9223372036854775808 ≤ (m : Int) ∧ (m : Int) ≤ 9223372036854775807 := by
    have : m < 1000000000000000000 := by simpa using hm
    constructor <;> omega
  by_cases hd0 : d = 0
  · subst hd0
    simp only [if_true, pow_zero, Nat.div_one] at hqd hqne ⊢
    have hlen : (Nat.toDigits 10 m).length ≤ 18 := QString.toDigits_length_le m 18 hm (by decide)
    have hval : QString.decimalValue (Nat.toDigits 10 m) 0 = some m := by
      have := QString.decimalValue_toDigits m [] 0
      simpa [QString.decimalValue] using this
    have hsp : removeSpaces (Nat.toDigits 10 m) = Nat.toDigits 10 m :=
      hSpaces _ (fun c hc => Or.inl (hqd c hc).1)
    have hsplit := QString.split_no_sep (Nat.toDigits 10 m) (fun c hc => (hqd c hc).2)
    have htl := toLongLong_digits (Nat.toDigits 10 m) m hqne (fun c hc => (hqd c hc).1) hval
      hrange.2
    unfold parse
    simp only [hv, hsp, hsplit, hdec]
    simp [QString.leftJustified, htl, hqne, hlen]
  · rw [if_neg hd0]
    obtain ⟨hrlen, hlen, hval, hrd⟩ :=
      QString.decimalValue_quotient_remainder d m (by omega) hd hm
    generalize hR : List.replicate (d - (Nat.toDigits 10 (m % 10 ^ d)).length) '0' ++
      Nat.toDigits 10 (m % 10 ^ d) = R at hrlen hlen hval hrd ⊢
    generalize hQ : Nat.toDigits 10 (m / 10 ^ d) = Q at hqd hqne hlen hval ⊢
    have hsp : removeSpaces (Q ++ '.' :: R) = Q ++ '.' :: R := by
      apply hSpaces
      intro c hc
      rcases List.mem_append.mp hc with hc | hc
      · exact Or.inl (hqd c hc).1
      · rcases List.mem_cons.mp hc with hc | hc
        · exact Or.inr hc
        · exact Or.inl (hrd c hc).1
    have hsplit := QString.split_one_sep Q R (fun c hc => (hqd c hc).2)
      (fun c hc => (hrd c hc).2)
    have hne : Q ++ R ≠ [] := by
      intro h
      exact hqne (List.append_eq_nil.mp h).1
    have htl := toLongLong_digits (Q ++ R) m hne (fun c hc => by
      rcases List.mem_append.mp hc with hc | hc
      · exact (hqd c hc).1
      · exact (hrd c hc).1) hval hrange.2
    have hnonempty : ¬ (Q ++ '.' :: R = []) := by simp
    unfold parse
    simp only [hv, hsp, hsplit, hdec, hnonempty]
    have hlen2 : Q.length + d ≤ 18 := by
      rw [List.length_append, hrlen] at hlen
      exact hlen
    simp [QString.leftJustified, hrlen, htl, hlen2]

end CreditsUnits


theorem demoRemoveSpaces_keeps (s : QString) (h : ∀ c ∈ s, c.isDigit = true ∨ c = '.') :
    demoRemoveSpaces s = s := by
  unfold demoRemoveSpaces
  rw [List.filter_eq_self]
  intro c hc
  have hsp : (' ' : Char).isDigit = false := by decide
  have hth : demoThinSp.isDigit = false := by decide
  rcases h c hc with hd | hd
  · have h1 : c ≠ ' ' := by
      rintro rfl
      rw [hsp] at hd
      exact absurd hd (by decide)
    have h2 : c ≠ demoThinSp := by
      rintro rfl
      rw [hth] at hd
      exact absurd hd (by decide)
    simp [h1, h2]
  · subst hd
    decide

/-! ## Claims on amount texts -/

/-- Claim C40.  For every valid unit and every amount `n` with `0 ≤ n < 10^18`,
`parse` applied to the text `format` makes of `n` without separators and
without plus sign returns true and writes `n`, provided `removeSpaces` leaves
texts of digits and dots as they are; and `factor` is ten to the power
`decimals` for each valid unit. -/
theorem C40_format_parse_round_trip (thin_sp : Char) (removeSpaces : QString → QString)
    (hSpaces : ∀ s : QString, (∀ c ∈ s, c.isDigit = true ∨ c = '.') → removeSpaces s = s)
    (unit : CreditsUnits.Unit) (hValid : CreditsUnits.valid unit = true) (n : CAmount)
    (h0 : 0 ≤ n) (h18 : n < 10 ^ 18) :
    CreditsUnits.parse removeSpaces unit
      (CreditsUnits.format thin_sp unit n false CreditsUnits.SeparatorStyle.separatorNever) =
        (true, some n) ∧
    CreditsUnits.factor unit = 10 ^ (CreditsUnits.decimals unit).toNat := by
  obtain ⟨m, rfl⟩ := Int.eq_ofNat_of_zero_le h0
  have hm : m < 10 ^ 18 := by exact_mod_cast h18
  cases unit with
  | CRDS =>
    exact ⟨CreditsUnits.parse_format_natCast thin_sp removeSpaces hSpaces CreditsUnits.Unit.CRDS
      8 (by decide) rfl rfl rfl m hm, by decide⟩
  | mCRDS =>
    exact ⟨CreditsUnits.parse_format_natCast thin_sp removeSpaces hSpaces CreditsUnits.Unit.mCRDS
      5 (by decide) rfl rfl rfl m hm, by decide⟩
  | uCRDS =>
    exact ⟨CreditsUnits.parse_format_natCast thin_sp removeSpaces hSpaces CreditsUnits.Unit.uCRDS
      2 (by decide) rfl rfl rfl m hm, by decide⟩
  | satoshis =>
    exact ⟨CreditsUnits.parse_format_natCast thin_sp removeSpaces hSpaces CreditsUnits.Unit.satoshis
      0 (by decide) rfl rfl rfl m hm, by decide⟩
  | other => exact absurd hValid (by decide)

/-- Witness for C40: the amount 123456789 in unit CRDS is written "1.23456789" and
read back as 123456789. -/
theorem C40_format_parse_round_trip_witness :
    CreditsUnits.parse demoRemoveSpaces CreditsUnits.Unit.CRDS
      (CreditsUnits.format demoThinSp CreditsUnits.Unit.CRDS 123456789 false
        CreditsUnits.SeparatorStyle.separatorNever) = (true, some 123456789) ∧
    CreditsUnits.format demoThinSp CreditsUnits.Unit.CRDS 123456789 false
        CreditsUnits.SeparatorStyle.separatorNever =
      ['1', '.', '2', '3', '4', '5', '6', '7', '8', '9'] ∧
    CreditsUnits.parse demoRemoveSpaces CreditsUnits.Unit.CRDS
      ['1', '.', '2', '3', '4', '5', '6', '7', '8', '9', '1'] = (false, none) :=
  ⟨(C40_format_parse_round_trip demoThinSp demoRemoveSpaces demoRemoveSpaces_keeps
      CreditsUnits.Unit.CRDS rfl 123456789 (by decide) (by decide)).1,
    by decide, by decide⟩

end Credits
